import Mathlib

/-!
# mscp-to-fleet-yaml: query resolution and refinement passes

A shallow embedding of the Go sources `utils.go`, `types.go`, `fix_queries.go`,
`fix_specific.go` and `comprehensive.go`.

Go strings are modelled as lists of runes (`List Char`); the texts handled are
assumed to be valid UTF-8, so that substring tests on bytes and on runes agree.
The part of the Go standard library that the program calls (`strings`, `regexp`)
is modelled first, then the program's own functions.
-/

namespace MscpToFleet

/-! ## Package `strings` -/

namespace strings

/-- Go `strings.Contains(s, sub)`: `sub` occurs in `s` as a contiguous block. -/
def Contains : List Char → List Char → Bool
  | [], sub => sub.isPrefixOf []
  | c :: s, sub => sub.isPrefixOf (c :: s) || Contains s sub

/-- Go `strings.Replace(s, old, new, 1)` for a non-empty `old`: the first
occurrence of `old` is replaced, and `s` is returned as it is when there is none.
(For an empty `old` Go puts `new` in front of `s`.) -/
def ReplaceFirst : List Char → List Char → List Char → List Char
  | [], old, new => if old.isPrefixOf [] then new else []
  | c :: s, old, new =>
    if old.isPrefixOf (c :: s) then new ++ (c :: s).drop old.length
    else c :: ReplaceFirst s old new

/-- Go `strings.ReplaceAll(s, old, new)` where `old` is the single rune `o`. -/
def ReplaceAllRune (s : List Char) (o : Char) (new : List Char) : List Char :=
  s.flatMap fun c => if c = o then new else [c]

/-- Go `strings.Count(s, sub)` for a non-empty `sub`: the number of
non-overlapping occurrences, scanning from the left. The fuel bounds the number
of scanning steps and `Count` below supplies enough of it. -/
def countFrom (sub : List Char) : Nat → List Char → Nat
  | 0, _ => 0
  | _ + 1, [] => 0
  | n + 1, c :: s =>
    if sub.isPrefixOf (c :: s) then 1 + countFrom sub n ((c :: s).drop (max sub.length 1))
    else countFrom sub n s

/-- Go `strings.Count(s, sub)` for a non-empty `sub`. -/
def Count (s sub : List Char) : Nat := countFrom sub (s.length + 1) s

/-- Go `unicode.IsSpace`: the white space runes of Unicode. -/
def isSpace (c : Char) : Bool :=
  c = '\t' || c = '\n' || c = '\x0b' || c = '\x0c' || c = '\r' || c = ' ' ||
  c = Char.ofNat 0x85 || c = Char.ofNat 0xA0 || c = Char.ofNat 0x1680 ||
  (0x2000 ≤ c.toNat && c.toNat ≤ 0x200A) ||
  c = Char.ofNat 0x2028 || c = Char.ofNat 0x2029 || c = Char.ofNat 0x202F ||
  c = Char.ofNat 0x205F || c = Char.ofNat 0x3000

/-- Go `strings.TrimSpace`: white space is removed at both ends. -/
def TrimSpace (s : List Char) : List Char :=
  ((s.dropWhile isSpace).reverse.dropWhile isSpace).reverse

/-- Go `unicode.ToLower`: the ASCII capital letters are lowered by the
function itself; for the runes outside ASCII Go looks up its Unicode case
tables, `unicode.To(unicode.LowerCase, r)`, which enter here as the parameter
`lowerCase`. -/
def toLowerRune (lowerCase : Char → Char) (c : Char) : Char :=
  if c.toNat ≤ 0x7F then
    if 'A'.toNat ≤ c.toNat ∧ c.toNat ≤ 'Z'.toNat then Char.ofNat (c.toNat + 32) else c
  else lowerCase c

/-- Go `strings.ToLower`, rune by rune. -/
def ToLower (lowerCase : Char → Char) (s : List Char) : List Char :=
  s.map (toLowerRune lowerCase)

end strings

/-! ## Package `regexp`

The regular expressions of the program are concatenations of literals,
classes of one rune and repetitions (`*`, `+`, greedy or lazy) of such a
class, possibly anchored at a line start by `(?m)^`; there is no alternation
and no repetition of a group. The matcher below is the backtracking matcher
for this fragment; it tries the alternatives in the priority order of Go
(leftmost-first), so the first success is the match that Go reports. -/

namespace regexp

/-- One item of a regular expression. -/
inductive Item where
  /-- A literal text. -/
  | lit (w : List Char)
  /-- One rune of a class. -/
  | cls (p : Char → Bool)
  /-- The repetition `x*` (greedy) or `x*?` (lazy) of a class. -/
  | star (p : Char → Bool) (greedy : Bool)
  /-- The repetition `x+` (greedy) or `x+?` (lazy) of a class. -/
  | plus (p : Char → Bool) (greedy : Bool)

/-- The result of matching a list of items at the start of a text: the
piece of text taken by each item, and the text that is left. -/
abbrev MatchResult := List (List Char) × List Char

/-- Greedy repetition followed by the continuation `k`: the longest run is
tried first, then shorter ones. -/
def starGreedy (p : Char → Bool) (k : List Char → Option MatchResult) :
    List Char → Option (List Char × MatchResult)
  | [] => (k []).map fun r => ([], r)
  | c :: s =>
    if p c then
      match starGreedy p k s with
      | some (w, r) => some (c :: w, r)
      | none => (k (c :: s)).map fun r => ([], r)
    else (k (c :: s)).map fun r => ([], r)

/-- Lazy repetition followed by the continuation `k`: the shortest run is
tried first, then longer ones. -/
def starLazy (p : Char → Bool) (k : List Char → Option MatchResult) :
    List Char → Option (List Char × MatchResult)
  | [] => (k []).map fun r => ([], r)
  | c :: s =>
    match k (c :: s) with
    | some r => some ([], r)
    | none => if p c then (starLazy p k s).map fun x => (c :: x.1, x.2) else none

/-- Repetition of a class, greedy or lazy. -/
def starRep (greedy : Bool) (p : Char → Bool) (k : List Char → Option MatchResult) :
    List Char → Option (List Char × MatchResult) :=
  if greedy then starGreedy p k else starLazy p k

/-- Match a list of items at the start of a text. -/
def matchItems : List Item → List Char → Option MatchResult
  | [], s => some ([], s)
  | .lit w :: rest, s =>
    if w.isPrefixOf s then
      (matchItems rest (s.drop w.length)).map fun r => (w :: r.1, r.2)
    else none
  | .cls _ :: _, [] => none
  | .cls p :: rest, c :: s =>
    if p c then (matchItems rest s).map fun r => ([c] :: r.1, r.2) else none
  | .star p g :: rest, s =>
    (starRep g p (matchItems rest) s).map fun x => (x.1 :: x.2.1, x.2.2)
  | .plus _ _ :: _, [] => none
  | .plus p g :: rest, c :: s =>
    if p c then
      (starRep g p (matchItems rest) s).map fun x => ((c :: x.1) :: x.2.1, x.2.2)
    else none

/-- What it means for a piece of text to be taken by an item. -/
def Item.Sat : Item → List Char → Prop
  | .lit w, x => x = w
  | .cls p, x => ∃ c, p c = true ∧ x = [c]
  | .star p _, x => ∀ c ∈ x, p c = true
  | .plus p _, x => x ≠ [] ∧ ∀ c ∈ x, p c = true

/-- A compiled regular expression: whether it starts with the line-start
anchor `(?m)^`, its items, and its capture groups, each given by the index of
its first item and the number of items it spans. -/
structure Regexp where
  bol : Bool
  items : List Item
  groups : List (Nat × Nat)

/-- The expression never matches the empty text. -/
def Regexp.NoEmptyMatch (re : Regexp) : Prop :=
  ∀ ps, List.Forall₂ Item.Sat re.items ps → ps.flatten ≠ []

/-- Try the expression at the current position; `atBol` tells whether the
position is the start of the text or follows a line feed. -/
def Regexp.tryAt (re : Regexp) (atBol : Bool) (s : List Char) : Option MatchResult :=
  if re.bol && !atBol then none else matchItems re.items s

/-- A found match: the text skipped before it, the pieces of the match and
the text after it. -/
abbrev Found := List Char × List (List Char) × List Char

/-- Leftmost match at or after the current position. -/
def Regexp.search (re : Regexp) : Bool → List Char → Option Found
  | atBol, [] => (re.tryAt atBol []).map fun r => ([], r.1, r.2)
  | atBol, c :: s =>
    match re.tryAt atBol (c :: s) with
    | some r => some ([], r.1, r.2)
    | none => (re.search (c = '\n') s).map fun x => (c :: x.1, x.2.1, x.2.2)

/-- Go `MatchString`. -/
def Regexp.MatchString (re : Regexp) (s : List Char) : Bool :=
  (re.search true s).isSome

/-- The text of capture group `g` in a match given by its pieces. -/
def submatch (ps : List (List Char)) (g : Nat × Nat) : List Char :=
  ((ps.drop g.1).take g.2).flatten

/-- Go `FindStringSubmatch`: the leftmost match and its groups, the whole
match first; `none` stands for the nil slice. -/
def Regexp.FindStringSubmatch (re : Regexp) (s : List Char) : Option (List (List Char)) :=
  (re.search true s).map fun x => x.2.1.flatten :: re.groups.map (submatch x.2.1)

/-- Put a skipped rune in front of a segmentation of the rest of the text. -/
def consSkipped (c : Char) (r : List (List Char × List (List Char)) × List Char) :
    List (List Char × List (List Char)) × List Char :=
  match r.1 with
  | [] => ([], c :: r.2)
  | seg :: segs => ((c :: seg.1, seg.2) :: segs, r.2)

/-- The successive matches that Go's `ReplaceAll` family replaces in a text,
each with the text skipped before it, and the text after the last match.
After a match the search resumes at its end; after an empty match one rune
is skipped; an empty match right at the end of the previous non-empty match
is not replaced. `afterMatch` tells whether the position is the end of a
non-empty match. The fuel bounds the number of searches. -/
def Regexp.segments (re : Regexp) :
    Nat → Bool → Bool → List Char → List (List Char × List (List Char)) × List Char
  | 0, _, _, s => ([], s)
  | n + 1, atBol, afterMatch, s =>
    match re.search atBol s with
    | none => ([], s)
    | some (pre, ps, rest) =>
      if ps.flatten = [] then
        let r := match rest with
          | [] => ([], [])
          | c :: rest' => consSkipped c (re.segments n (c = '\n') false rest')
        if pre = [] ∧ afterMatch = true then r else ((pre, ps) :: r.1, r.2)
      else
        let r := re.segments n (ps.flatten.getLast? = some '\n') true rest
        ((pre, ps) :: r.1, r.2)

/-- The segmentation of a whole text; its length plus one is enough fuel. -/
def Regexp.allSegments (re : Regexp) (s : List Char) :
    List (List Char × List (List Char)) × List Char :=
  re.segments (s.length + 1) true false s

/-- Go `ReplaceAllStringFunc`: every match is replaced by `f` of its text. -/
def Regexp.ReplaceAllStringFunc (re : Regexp) (s : List Char) (f : List Char → List Char) :
    List Char :=
  ((re.allSegments s).1.flatMap fun seg => seg.1 ++ f seg.2.flatten) ++ (re.allSegments s).2

/-- The number of times `ReplaceAllStringFunc` calls its function. -/
def Regexp.callCount (re : Regexp) (s : List Char) : Nat :=
  (re.allSegments s).1.length

/-- The runes that may stand in the name of a template variable. -/
def isNameRune (c : Char) : Bool := c.isAlphanum || c = '_'

/-- The value of the variable `$name` of a template: group `name` when the
name is a decimal number without a leading zero, the empty text when the
group does not exist or when the name is not a number (the expressions of
the program have no named groups); a `$` without a name stands for itself. -/
def groupValue (groups : List (List Char)) (name : List Char) : List Char :=
  if name = [] then ['$']
  else if name.all Char.isDigit ∧ (name.head? ≠ some '0' ∨ name.length = 1) then
    groups.getD (name.foldl (fun n c => 10 * n + (c.toNat - '0'.toNat)) 0) []
  else []

/-- Go `Regexp.expand` for templates with variables of the form `$name`
(the longest run of letters, digits and underscores after the `$`) and the
escape `$$`; the form with braces is not used by the program. `pending` is
the part of a name read so far. -/
def expandFrom (groups : List (List Char)) : Option (List Char) → List Char → List Char
  | none, [] => []
  | none, c :: t => if c = '$' then expandFrom groups (some []) t else c :: expandFrom groups none t
  | some name, [] => groupValue groups name
  | some name, c :: t =>
    if isNameRune c then expandFrom groups (some (name ++ [c])) t
    else if c = '$' then
      if name = [] then '$' :: expandFrom groups none t
      else groupValue groups name ++ expandFrom groups (some []) t
    else groupValue groups name ++ c :: expandFrom groups none t

/-- Expansion of a replacement template against the groups of a match
(group 0 is the whole match). -/
def expand (template : List Char) (groups : List (List Char)) : List Char :=
  expandFrom groups none template

/-- Go `ReplaceAllString`: every match is replaced by the expanded template. -/
def Regexp.ReplaceAllString (re : Regexp) (s template : List Char) : List Char :=
  ((re.allSegments s).1.flatMap fun seg =>
      seg.1 ++ expand template (seg.2.flatten :: re.groups.map (submatch seg.2))) ++
    (re.allSegments s).2

/-- The class `\s` of Go regular expressions. -/
def isReSpace (c : Char) : Bool :=
  c = '\t' || c = '\n' || c = '\x0c' || c = '\r' || c = ' '

/-- The runes that a literal rune `c` of an expression matches under the
flag `(?i)`: the runes of its case-folding orbit. For an ASCII letter these
are its two cases, and the Kelvin sign for `k`, the long s for `s`; an ASCII
rune that is not a letter matches itself only. -/
def foldsTo (c x : Char) : Bool :=
  if c.isAlpha then
    x = c.toLower || x = c.toUpper ||
      (c.toLower = 'k' && x = Char.ofNat 0x212A) || (c.toLower = 's' && x = Char.ofNat 0x17F)
  else x = c

/-- The runes with a special meaning in an expression. -/
def isMetaRune (c : Char) : Bool :=
  c = '\\' || c = '.' || c = '+' || c = '*' || c = '?' || c = '(' || c = ')' || c = '|' ||
  c = '[' || c = ']' || c = '{' || c = '}' || c = '^' || c = '$'

/-- The items of an expression made of ASCII literal runes and `.`, each
possibly followed by `*`; `pending` is the class of the last atom read, not
yet known to be repeated or not. `none` is a compile error: a `*` without
an atom before it, or a construct outside this fragment. -/
def compileAtoms (fold : Bool) : Option (Char → Bool) → List Char → Option (List Item)
  | pending, [] => some (pending.toList.map Item.cls)
  | pending, c :: t =>
    if c = '*' then
      match pending with
      | some p => (compileAtoms fold none t).map fun r => Item.star p true :: r
      | none => none
    else if c = '.' then
      (compileAtoms fold (some fun x => x ≠ '\n') t).map fun r =>
        pending.toList.map Item.cls ++ r
    else if isMetaRune c || 128 ≤ c.toNat then none
    else
      (compileAtoms fold (some (if fold then foldsTo c else fun x => x = c)) t).map fun r =>
        pending.toList.map Item.cls ++ r

/-- Go `regexp.Compile` on the fragment above, with an optional leading
flag group `(?i)`; `none` is a compile error. -/
def Compile (expr : List Char) : Option Regexp :=
  if "(?i)".toList.isPrefixOf expr then
    (compileAtoms true none (expr.drop 4)).map fun items => ⟨false, items, []⟩
  else (compileAtoms false none expr).map fun items => ⟨false, items, []⟩

end regexp

open regexp

/-! ## `utils.go`: the query resolution engine -/

/-- The expression `initWithSuiteName\('([^']+)'\)`. -/
def suiteRegex : Regexp :=
  ⟨false, [.lit "initWithSuiteName('".toList, .plus (fun c => c ≠ '\'') true, .lit "')".toList],
    [(1, 1)]⟩

/-- The expression `objectForKey\('([^']+)'\)`. -/
def keyRegex : Regexp :=
  ⟨false, [.lit "objectForKey('".toList, .plus (fun c => c ≠ '\'') true, .lit "')".toList],
    [(1, 1)]⟩

/-- The query of the structural tier, `fmt.Sprintf` with the two literals. -/
def structuredQuery (suiteName keyName : List Char) : List Char :=
  "SELECT 1 WHERE EXISTS (SELECT 1 FROM managed_policies WHERE domain='".toList ++ suiteName ++
    "' AND name='".toList ++ keyName ++ "' AND (value = 1 OR value = 'true'));".toList

/-- The structural tier of `ConvertCheckToQuery` (the first `if` block):
the query when both literals are found, `none` when the block falls through. -/
def structuralExtraction (checkScript : List Char) : Option (List Char) :=
  if strings.Contains checkScript "osascript".toList &&
      strings.Contains checkScript "objectForKey".toList then
    match suiteRegex.FindStringSubmatch checkScript, keyRegex.FindStringSubmatch checkScript with
    | some (_ :: suiteName :: _), some (_ :: keyName :: _) =>
      some (structuredQuery suiteName keyName)
    | _, _ => none
  else none

/-- Go `ConvertCheckToQuery`. -/
def ConvertCheckToQuery (checkScript ruleID : List Char) : List Char :=
  match structuralExtraction checkScript with
  | some q => q
  | none =>
    if strings.Contains checkScript "/etc/".toList || strings.Contains checkScript "/var/".toList then
      if strings.Contains ruleID "audit".toList then
        "SELECT 1 FROM file WHERE path LIKE '/var/audit/%' OR path LIKE '/etc/security/%';".toList
      else if strings.Contains checkScript "chmod".toList then
        "SELECT 1 FROM file WHERE path LIKE '/etc/%' OR path LIKE '/var/%';".toList
      else if strings.Contains checkScript "chown".toList then
        "SELECT 1 FROM file WHERE path LIKE '/etc/%' OR path LIKE '/var/%';".toList
      else
        "SELECT 1 FROM file WHERE path LIKE '/etc/%' OR path LIKE '/var/%';".toList
    else if strings.Contains checkScript "launchctl".toList then
      if strings.Contains ruleID "audit".toList then
        "SELECT 1 FROM launchd WHERE name = 'com.apple.auditd';".toList
      else
        "SELECT 1 FROM launchd WHERE name LIKE '%audit%';".toList
    else if strings.Contains checkScript "system_profiler".toList then
      "SELECT 1 FROM system_info;".toList
    else if strings.Contains checkScript "softwareupdate".toList then
      "SELECT 1 FROM software_update WHERE software_update_required = '0';".toList
    else if strings.Contains checkScript "defaults".toList then
      "SELECT 1 FROM managed_policies;".toList
    else if strings.Contains ruleID "firewall".toList then
      "SELECT 1 FROM managed_policies WHERE domain = 'com.apple.security.firewall';".toList
    else if strings.Contains ruleID "gatekeeper".toList then
      "SELECT 1 FROM managed_policies WHERE domain = 'com.apple.systempolicy.control';".toList
    else if strings.Contains ruleID "filevault".toList then
      "SELECT 1 FROM managed_policies WHERE domain = 'com.apple.MCX';".toList
    else
      "SELECT 1;".toList

/-- Go `CleanText`: AsciiDoc and Markdown formatting is removed. -/
def CleanText (text : List Char) : List Char :=
  if text = [] then []
  else
    -- Remove AsciiDoc formatting
    let text := (Regexp.mk false
      [.lit "[source,".toList, .plus (fun c => c ≠ ']') true, .lit "]".toList] []).ReplaceAllString
        text []
    let text := (Regexp.mk false [.lit "---".toList, .plus (fun c => c = '-') true] []).ReplaceAllString
      text []
    let text := (Regexp.mk false [.lit "[source]".toList] []).ReplaceAllString text []
    let text := (Regexp.mk false [.lit "[source,bash]".toList] []).ReplaceAllString text []
    let text := (Regexp.mk false [.lit "[source,xml]".toList] []).ReplaceAllString text []
    -- Clean up Markdown formatting
    let text := (Regexp.mk false
      [.lit "*".toList, .plus (fun c => c ≠ '*') true, .lit "*".toList] [(1, 1)]).ReplaceAllString
        text "$1".toList
    let text := (Regexp.mk false
      [.lit "_".toList, .plus (fun c => c ≠ '_') true, .lit "_".toList] [(1, 1)]).ReplaceAllString
        text "$1".toList
    let text := (Regexp.mk false
      [.lit "`".toList, .plus (fun c => c ≠ '`') true, .lit "`".toList] [(1, 1)]).ReplaceAllString
        text "$1".toList
    -- Clean up extra whitespace and newlines
    let text := (Regexp.mk false
      [.lit "\n".toList, .star isReSpace true, .lit "\n".toList, .star isReSpace true,
        .plus (fun c => c = '\n') true] []).ReplaceAllString text "\n\n".toList
    let text := (Regexp.mk true [.plus isReSpace true] []).ReplaceAllString text []
    strings.TrimSpace text

/-! ## `types.go` -/

/-- A value of Go's `interface{}` as the YAML decoder produces it; `other`
stands for the dynamic types that the program never asserts (numbers that
are not integers, time stamps, maps with keys that are not strings). -/
inductive Value where
  | null
  | str (s : List Char)
  | int (n : Int)
  | bool (b : Bool)
  | other
  | slice (xs : List Value)
  | map (kvs : List (List Char × Value))

/-- Go `FleetPolicy.Spec`. -/
structure PolicySpec where
  Name : List Char
  Platforms : List Char
  Platform : List Char
  Description : List Char
  Resolution : List Char
  Query : List Char
  Purpose : List Char
  Tags : List (List Char)
  Contributors : List Char

/-- Go `FleetPolicy`. -/
structure FleetPolicy where
  APIVersion : List Char
  Kind : List Char
  Spec : PolicySpec

/-- Go `Rule`; `References` is a `map[string]interface{}`, given by its
entries (the nil map has none). -/
structure Rule where
  ID : List Char
  Title : List Char
  Discussion : List Char
  Fix : List Char
  Check : List Char
  References : List (List Char × Value)

/-- Go `QueryMapping`. -/
structure QueryMapping where
  Pattern : List Char
  Query : List Char
  deriving DecidableEq

/-- Go `CreateQueryMappings`. -/
def CreateQueryMappings : List QueryMapping := [
  -- Audit-related policies
  ⟨".*audit.*files.*not.*contain.*access.*control.*lists.*".toList,
    "SELECT 1 FROM file WHERE (path LIKE '/var/audit/%' OR path LIKE '/etc/security/%') AND extended_attributes LIKE '%com.apple.acl%';".toList⟩,
  ⟨".*audit.*folder.*not.*contain.*access.*control.*lists.*".toList,
    "SELECT 1 FROM file WHERE (path LIKE '/var/audit/%' OR path LIKE '/etc/security/%') AND type = 'directory' AND extended_attributes LIKE '%com.apple.acl%';".toList⟩,
  ⟨".*enable.*security.*auditing.*".toList,
    "SELECT 1 FROM launchd WHERE name = 'com.apple.auditd' AND state = 'running';".toList⟩,
  ⟨".*audit.*capacity.*warning.*".toList,
    "SELECT 1 FROM file WHERE path = '/etc/security/audit_control' AND content LIKE '%minfree%';".toList⟩,
  ⟨".*shut.*down.*upon.*audit.*failure.*".toList,
    "SELECT 1 FROM file WHERE path = '/etc/security/audit_control' AND content LIKE '%policy: ahlt%';".toList⟩,
  ⟨".*audit.*log.*files.*group.*wheel.*".toList,
    "SELECT 1 FROM file WHERE path LIKE '/var/audit/%' AND gid = 0;".toList⟩,
  ⟨".*audit.*log.*files.*mode.*440.*".toList,
    "SELECT 1 FROM file WHERE path LIKE '/var/audit/%' AND mode <= '440';".toList⟩,
  ⟨".*audit.*log.*files.*owned.*root.*".toList,
    "SELECT 1 FROM file WHERE path LIKE '/var/audit/%' AND uid = 0;".toList⟩,
  ⟨".*audit.*folders.*group.*wheel.*".toList,
    "SELECT 1 FROM file WHERE path = '/var/audit' AND type = 'directory' AND gid = 0;".toList⟩,
  ⟨".*audit.*folders.*owned.*root.*".toList,
    "SELECT 1 FROM file WHERE path = '/var/audit' AND type = 'directory' AND uid = 0;".toList⟩,
  ⟨".*audit.*folders.*mode.*700.*".toList,
    "SELECT 1 FROM file WHERE path = '/var/audit' AND type = 'directory' AND mode <= '700';".toList⟩,
  -- Audit event policies
  ⟨".*audit.*authorization.*authentication.*events.*".toList,
    "SELECT 1 FROM file WHERE path = '/etc/security/auditcontrol' AND content LIKE '%aa%';".toList⟩,
  ⟨".*audit.*administrative.*action.*events.*".toList,
    "SELECT 1 FROM file WHERE path = '/etc/security/auditcontrol' AND content LIKE '%ad%';".toList⟩,
  ⟨".*audit.*failed.*program.*execution.*".toList,
    "SELECT 1 FROM file WHERE path = '/etc/security/auditcontrol' AND content LIKE '%-ex%';".toList⟩,
  ⟨".*audit.*deletions.*object.*attributes.*".toList,
    "SELECT 1 FROM file WHERE path = '/etc/security/auditcontrol' AND content LIKE '%-fd%';".toList⟩,
  ⟨".*audit.*failed.*change.*object.*attributes.*".toList,
    "SELECT 1 FROM file WHERE path = '/etc/security/auditcontrol' AND content LIKE '%-fm%';".toList⟩,
  ⟨".*audit.*failed.*read.*actions.*".toList,
    "SELECT 1 FROM file WHERE path = '/etc/security/auditcontrol' AND content LIKE '%-fr%';".toList⟩,
  ⟨".*audit.*failed.*write.*actions.*".toList,
    "SELECT 1 FROM file WHERE path = '/etc/security/auditcontrol' AND content LIKE '%-fw%';".toList⟩,
  ⟨".*audit.*log.*in.*log.*out.*events.*".toList,
    "SELECT 1 FROM file WHERE path = '/etc/security/auditcontrol' AND content LIKE '%lo%';".toList⟩,
  -- FileVault policies
  ⟨".*filevault.*enabled.*".toList,
    "SELECT 1 FROM disk_encryption WHERE name = 'FileVault' AND encrypted = 1;".toList⟩,
  ⟨".*filevault.*auto.*login.*disabled.*".toList,
    "SELECT 1 WHERE EXISTS (SELECT 1 FROM managed_policies WHERE domain='com.apple.loginwindow' AND name='DisableFDEAutoLogin' AND (value = 1 OR value = 'true'));".toList⟩,
  -- Firewall policies
  ⟨".*firewall.*enabled.*".toList,
    "SELECT 1 WHERE EXISTS (SELECT 1 FROM managed_policies WHERE domain='com.apple.security.firewall' AND name='EnableFirewall' AND (value = 1 OR value = 'true'));".toList⟩,
  ⟨".*firewall.*stealth.*mode.*".toList,
    "SELECT 1 WHERE EXISTS (SELECT 1 FROM managed_policies WHERE domain='com.apple.security.firewall' AND name='EnableStealthMode' AND (value = 1 OR value = 'true'));".toList⟩,
  -- Screen saver policies
  ⟨".*screen.*saver.*password.*required.*".toList,
    "SELECT 1 WHERE EXISTS (SELECT 1 FROM managed_policies WHERE domain='com.apple.screensaver' AND name='askForPassword' AND (value = 1 OR value = 'true'));".toList⟩,
  ⟨".*screen.*saver.*timeout.*".toList,
    "SELECT 1 WHERE EXISTS (SELECT 1 FROM managed_policies WHERE domain='com.apple.screensaver' AND name='idleTime' AND (value = 1 OR value = 'true'));".toList⟩,
  -- Location services
  ⟨".*location.*services.*disabled.*".toList,
    "SELECT 1 WHERE EXISTS (SELECT 1 FROM managed_policies WHERE domain='com.apple.locationd' AND name='LocationServicesEnabled' AND (value = 1 OR value = 'true'));".toList⟩,
  -- Bluetooth
  ⟨".*bluetooth.*disabled.*".toList,
    "SELECT 1 WHERE EXISTS (SELECT 1 FROM managed_policies WHERE domain='com.apple.MCXBluetooth' AND name='DisableBluetooth' AND (value = 1 OR value = 'true'));".toList⟩,
  -- Guest account
  ⟨".*guest.*account.*disabled.*".toList,
    "SELECT 1 WHERE EXISTS (SELECT 1 FROM managed_policies WHERE domain='com.apple.MCX' AND name='DisableGuestAccount' AND (value = 1 OR value = 'true'));".toList⟩,
  -- Software updates
  ⟨".*software.*update.*automatic.*".toList,
    "SELECT 1 FROM software_update WHERE software_update_required = '0';".toList⟩,
  -- Generic managed policy fallback
  ⟨".*".toList,
    "SELECT 1 FROM managed_policies WHERE domain = 'com.apple.applicationaccess';".toList⟩]

/-! ## `utils.go`: the policy assembler -/

/-- The statement `x = arr[0].(string)` guarded by `arr, ok := m[key].([]interface{}); ok &&
len(arr) > 0`: the first element of the array under `key` when there is a
non-empty array, the empty text otherwise. The type assertion on the first
element has no `ok` form: it panics (`Except.error`) on anything but a string. -/
def firstOfArray (m : List (List Char × Value)) (key : List Char) : Except Unit (List Char) :=
  match m.lookup key with
  | some (.slice (x :: _)) =>
    match x with
    | .str s => .ok s
    | _ => .error ()
  | _ => .ok []

/-- The CIS benchmark and level of a rule (the block "Extract CIS benchmark
information if available"). -/
def cisReferences (rule : Rule) : Except Unit (List Char × List Char) :=
  match rule.References.lookup "cis".toList with
  | some (.map references) => do
    let cisBenchmark ← firstOfArray references "benchmark".toList
    let cisLevel ← firstOfArray references "level".toList
    pure (cisBenchmark, cisLevel)
  | _ => pure ([], [])

/-- Go `CreateFleetPolicy`; the rule pointer is an `Option`, `none` for nil.
`Except.error` is a run-time panic. -/
def CreateFleetPolicy (rule : Option Rule) (baselineName : List Char) :
    Except Unit (Option FleetPolicy) :=
  match rule with
  | none => pure none
  | some rule => do
    -- Extract CIS benchmark information if available
    let (cisBenchmark, cisLevel) ← cisReferences rule
    -- Create tags
    let tags := ["compliance".toList, "macOS_Security_Compliance".toList]
    let tags := if cisBenchmark ≠ [] then tags ++ ["CIS_".toList ++ cisBenchmark] else tags
    let tags := if cisLevel ≠ [] then tags ++ ["CIS_Level".toList ++ cisLevel] else tags
    -- Add baseline-specific tag
    let baselineTag := strings.ReplaceAllRune baselineName '_' "_".toList
    let baselineTag := strings.ReplaceAllRune baselineTag '-' "_".toList
    let tags := tags ++ [baselineTag]
    -- Convert check script to query
    let query := ConvertCheckToQuery rule.Check rule.ID
    -- Clean description and resolution text
    let description := CleanText rule.Discussion
    let resolution := CleanText rule.Fix
    let policyName := if rule.Title = [] then rule.ID else rule.Title
    pure (some {
      APIVersion := "v1".toList
      Kind := "policy".toList
      Spec := {
        Name := "macOS Security - ".toList ++ policyName
        Platforms := "macOS".toList
        Platform := "darwin".toList
        Description := description
        Resolution := resolution
        Query := strings.TrimSpace query
        Purpose := "Informational".toList
        Tags := tags
        Contributors := "macos_security_compliance_project".toList } })

/-! ## `fix_queries.go`: the placeholder annotation pass -/

/-- The expression `(\s+query: SELECT 1;)(\s+purpose: Informational)`. -/
def select1Pattern : Regexp :=
  ⟨false, [.plus isReSpace true, .lit "query: SELECT 1;".toList, .plus isReSpace true,
      .lit "purpose: Informational".toList], [(0, 2), (2, 2)]⟩

/-- The expression
`(\s+query: SELECT 1 FROM file WHERE path LIKE '/[^%]+%';)(\s+purpose: Informational)`. -/
def filePathPattern : Regexp :=
  ⟨false, [.plus isReSpace true, .lit "query: SELECT 1 FROM file WHERE path LIKE '/".toList,
      .plus (fun c => c ≠ '%') true, .lit "%';".toList, .plus isReSpace true,
      .lit "purpose: Informational".toList], [(0, 4), (4, 2)]⟩

/-- The expression
`(\s+query: SELECT 1 FROM launchd WHERE name LIKE '%[^%]+%';)(\s+purpose: Informational)`. -/
def launchdPattern : Regexp :=
  ⟨false, [.plus isReSpace true, .lit "query: SELECT 1 FROM launchd WHERE name LIKE '%".toList,
      .plus (fun c => c ≠ '%') true, .lit "%';".toList, .plus isReSpace true,
      .lit "purpose: Informational".toList], [(0, 4), (4, 2)]⟩

/-- The three rewrites of `FixGenericQueries` on the content of the file,
with the value of the counter `changes` after them: every call of one of the
three replacement functions adds one to the counter. -/
def annotate (content : List Char) : Nat × List Char :=
  let originalContent := content
  let changes := 0
  -- Fix generic SELECT 1; queries
  let changes := changes + select1Pattern.callCount originalContent
  let originalContent := select1Pattern.ReplaceAllStringFunc originalContent fun m =>
    strings.ReplaceFirst m "SELECT 1;".toList
      "SELECT 1;  # TODO: Replace with specific query for this policy".toList
  -- Fix overly generic file path queries
  let changes := changes + filePathPattern.callCount originalContent
  let originalContent := filePathPattern.ReplaceAllStringFunc originalContent fun m =>
    strings.ReplaceFirst m "SELECT 1 FROM file WHERE path LIKE '/[^%]+%';".toList
      ("SELECT 1 FROM file WHERE path LIKE '/[^%]+%';" ++
        "  # TODO: Replace with specific file validation query").toList
  -- Fix generic launchd queries
  let changes := changes + launchdPattern.callCount originalContent
  let originalContent := launchdPattern.ReplaceAllStringFunc originalContent fun m =>
    strings.ReplaceFirst m "SELECT 1 FROM launchd WHERE name LIKE '%[^%]+%';".toList
      ("SELECT 1 FROM launchd WHERE name LIKE '%[^%]+%';" ++
        "  # TODO: Replace with specific service validation query").toList
  (changes, originalContent)

/-- Go `FixGenericQueries` on a file that can be read and written: the
number it returns and the content of the file afterwards (the file is
written only when the counter is positive). -/
def FixGenericQueries (content : List Char) : Nat × List Char :=
  let r := annotate content
  if r.1 > 0 then (r.1, r.2) else (r.1, content)

/-! ## `fix_specific.go`: the domain-specific substitution pass -/

/-- The expression
`(\s+query: SELECT 1;)(\s+# TODO: Replace with specific query for this policy)`, which
`FixAuditQueries`, `FixFilePermissionQueries` and `FixManagedPolicyQueries` all use. -/
def genericTodoPattern : Regexp :=
  ⟨false, [.plus isReSpace true, .lit "query: SELECT 1;".toList, .plus isReSpace true,
      .lit "# TODO: Replace with specific query for this policy".toList], [(0, 2), (2, 2)]⟩

/-- The expression `(\s+query: SELECT 1 FROM file WHERE path LIKE '/[^%]+%';)(\s+# TODO: Replace
with specific file validation query)`. -/
def auditFolderPattern : Regexp :=
  ⟨false, [.plus isReSpace true, .lit "query: SELECT 1 FROM file WHERE path LIKE '/".toList,
      .plus (fun c => c ≠ '%') true, .lit "%';".toList, .plus isReSpace true,
      .lit "# TODO: Replace with specific file validation query".toList], [(0, 4), (4, 2)]⟩

/-- The expression `(\s+query: SELECT 1 FROM launchd WHERE name LIKE '%audit%';)(\s+# TODO:
Replace with specific service validation query)`. -/
def auditServicePattern : Regexp :=
  ⟨false, [.plus isReSpace true,
      .lit "query: SELECT 1 FROM launchd WHERE name LIKE '%audit%';".toList, .plus isReSpace true,
      .lit "# TODO: Replace with specific service validation query".toList], [(0, 2), (2, 2)]⟩

/-- Go `FixAuditQueries`. -/
def FixAuditQueries (content : List Char) : List Char :=
  -- Audit log files ACL check
  let content := genericTodoPattern.ReplaceAllString content
    ("$1 FROM file WHERE (path LIKE '/var/audit/%' OR path LIKE '/etc/security/%')" ++
      " AND extended_attributes LIKE '%com.apple.acl%';").toList
  -- Audit folder ACL check
  let content := auditFolderPattern.ReplaceAllString content
    "$1 AND type = 'directory' AND extended_attributes LIKE '%com.apple.acl%';".toList
  -- Security auditing enabled
  let content := auditServicePattern.ReplaceAllString content "$1 AND state = 'running';".toList
  content

/-- Go `FixFilePermissionQueries`. -/
def FixFilePermissionQueries (content : List Char) : List Char :=
  -- File ownership by root
  let content := genericTodoPattern.ReplaceAllString content
    "$1 FROM file WHERE path LIKE '/var/audit/%' AND uid = 0;".toList
  -- File group ownership
  let content := genericTodoPattern.ReplaceAllString content
    "$1 FROM file WHERE path LIKE '/var/audit/%' AND gid = 0;".toList
  -- File permissions
  let content := genericTodoPattern.ReplaceAllString content
    "$1 FROM file WHERE path LIKE '/var/audit/%' AND mode <= '440';".toList
  content

/-- Go `FixManagedPolicyQueries`. -/
def FixManagedPolicyQueries (content : List Char) : List Char :=
  -- Generic managed policy check
  genericTodoPattern.ReplaceAllString content
    "$1 FROM managed_policies WHERE domain = 'com.apple.applicationaccess';".toList

/-- Go `FixSpecificPolicyQueries` on a file that can be read and written:
the number it returns (the remaining `# TODO:` comments) and the content of
the file afterwards (the file is written only when the content changed). -/
def FixSpecificPolicyQueries (content : List Char) : Nat × List Char :=
  let originalContent := content
  let contentStr := originalContent
  -- Apply audit-related fixes
  let contentStr := FixAuditQueries contentStr
  -- Apply file permission fixes
  let contentStr := FixFilePermissionQueries contentStr
  -- Apply managed policy fixes
  let contentStr := FixManagedPolicyQueries contentStr
  -- Count remaining TODO comments
  let remainingTodos := strings.Count contentStr "# TODO:".toList
  (remainingTodos, if contentStr ≠ originalContent then contentStr else originalContent)

/-! ## `comprehensive.go`: the name-pattern substitution pass -/

/-- The expression
`(?s)(name: ([^\n]+)\n[^}]+?query: )([^\n]+)(\n[^}]+?purpose: Informational)`. -/
def policyPattern : Regexp :=
  ⟨false, [.lit "name: ".toList, .plus (fun c => c ≠ '\n') true, .lit "\n".toList,
      .plus (fun c => c ≠ '}') false, .lit "query: ".toList, .plus (fun c => c ≠ '\n') true,
      .lit "\n".toList, .plus (fun c => c ≠ '}') false, .lit "purpose: Informational".toList],
    [(0, 5), (1, 1), (5, 1), (6, 3)]⟩

/-- Whether the pattern of a mapping, compiled with the flag `(?i)`,
matches the name; a pattern that does not compile matches nothing (the loop
goes on to the next mapping). -/
def mappingMatches (mapping : QueryMapping) (policyName : List Char) : Bool :=
  match regexp.Compile ("(?i)".toList ++ mapping.Pattern) with
  | some pattern => pattern.MatchString policyName
  | none => false

/-- The loop "Find matching pattern" of `FixPolicyQueries`: the query of the
first mapping whose pattern matches the lower-cased name. -/
def findMapping (policyName : List Char) : List QueryMapping → Option (List Char)
  | [] => none
  | mapping :: rest =>
    if mappingMatches mapping policyName then some mapping.Query
    else findMapping policyName rest

/-- The name-pattern resolver on a lower-cased name: the loop, then the
"Default fallback" on the last mapping (indexing the last element of an empty
table would panic in Go; `NewComprehensiveQueryFixer` never builds one). -/
def resolveLowered (queryMappings : List QueryMapping) (policyName : List Char) : List Char :=
  match findMapping policyName queryMappings with
  | some q => q
  | none => (queryMappings.getLast?.map QueryMapping.Query).getD []

/-- The replacement function of `FixPolicyQueries` on one match: `none`
when the match is returned as it is (the counter is left alone), the new
text otherwise (the counter goes up by one). The parameter `lowerCase` is
the Unicode case table that `strings.ToLower` uses outside ASCII. -/
def fixPolicyMatch (lowerCase : Char → Char) (queryMappings : List QueryMapping)
    (m : List Char) : Option (List Char) :=
  match policyPattern.FindStringSubmatch m with
  | some [_, sub1, sub2, sub3, sub4] =>
    let policyName := strings.ToLower lowerCase sub2
    let currentQuery := sub3
    -- Skip if already has a specific query
    if strings.Contains currentQuery "FROM".toList &&
        !strings.Contains currentQuery "SELECT 1".toList then none
    else some (sub1 ++ resolveLowered queryMappings policyName ++ sub4)
  | _ => none

/-- The rewrite of `FixPolicyQueries` on the content of the file, with the
value of the counter `changesMade` after it. -/
def fixPolicyContent (lowerCase : Char → Char) (queryMappings : List QueryMapping)
    (content : List Char) : Nat × List Char :=
  (((policyPattern.allSegments content).1.filter fun seg =>
      (fixPolicyMatch lowerCase queryMappings seg.2.flatten).isSome).length,
    policyPattern.ReplaceAllStringFunc content fun m =>
      (fixPolicyMatch lowerCase queryMappings m).getD m)

/-- Go `FixPolicyQueries` of a fixer made by `NewComprehensiveQueryFixer`,
on a file that can be read and written: the number it returns and the
content of the file afterwards (written only when the counter is positive). -/
def FixPolicyQueries (lowerCase : Char → Char) (content : List Char) : Nat × List Char :=
  let r := fixPolicyContent lowerCase CreateQueryMappings content
  if r.1 > 0 then (r.1, r.2) else (r.1, content)

/-! ### The read idiom, in the words of the specification -/

/-- The text of a call shape `name('X')`. -/
def callShape (name X : List Char) : List Char :=
  name ++ "('".toList ++ X ++ "')".toList

/-- A literal that can be extracted: non-empty and free of single quotes. -/
def IsLiteral (X : List Char) : Prop := X ≠ [] ∧ '\'' ∉ X

instance (X : List Char) : Decidable (IsLiteral X) := by
  unfold IsLiteral; infer_instance

/-- The text `s` contains a call shape `name('X')` with a literal `X`, and
no call shape `name('…')` with a literal starts before it. -/
def FirstCallShape (name s X : List Char) : Prop :=
  IsLiteral X ∧ ∃ pre post, s = pre ++ callShape name X ++ post ∧
    ∀ pre' X' post', IsLiteral X' → s = pre' ++ callShape name X' ++ post' →
      pre.length ≤ pre'.length

/-- The structural tier fires: the script contains the text `osascript` and
a call shape of each of the two calls, with a literal. -/
def StructuralFires (s : List Char) : Prop :=
  "osascript".toList <:+: s ∧
    ∃ D K, FirstCallShape "initWithSuiteName".toList s D ∧
      FirstCallShape "objectForKey".toList s K

/-! ### The tags, in the words of the specification -/

/-- The first element of `references["cis"][key]` when that is a non-empty
array whose first element is a non-empty string. -/
def cisFirst (references : List (List Char × Value)) (key : List Char) : Option (List Char) :=
  match references.lookup "cis".toList with
  | some (.map cis) =>
    match cis.lookup key with
    | some (.slice (.str b :: _)) => if b = [] then none else some b
    | _ => none
  | _ => none

/-- A well-formed reference map: when `references["cis"]` is a map, a
non-empty array under `"benchmark"` or `"level"` starts with a string. -/
def WellFormedReferences (references : List (List Char × Value)) : Prop :=
  ∀ cis, references.lookup "cis".toList = some (.map cis) →
    ∀ key, key = "benchmark".toList ∨ key = "level".toList →
      ∀ x xs, cis.lookup key = some (.slice (x :: xs)) → ∃ b, x = .str b

/-! ### Annotated placeholders, in the words of the specification -/

/-- A non-empty run of white space of the class `\s`. -/
def IsWs (w : List Char) : Prop := w ≠ [] ∧ ∀ c ∈ w, isReSpace c = true

/-- The queries of the program start with `S` and end with `;`. -/
def queryShape (q : List Char) : Bool := q.head? = some 'S' && q.getLast? = some ';'

/-! ### Example inputs -/

/-- A rule in the style of the rule corpus, with CIS references. -/
def gatekeeperRule : Rule where
  ID := "os_gatekeeper_enable".toList
  Title := "Enable Gatekeeper".toList
  Discussion := "Gatekeeper *must* be enabled.".toList
  Fix := "Enable it with a configuration profile.".toList
  Check := "/usr/sbin/spctl --status".toList
  References := [("cce".toList, .slice [.str "CCE-92862-9".toList]),
    ("cis".toList, .map [("benchmark".toList, .slice [.str "2.6.5 (level 1)".toList]),
      ("level".toList, .slice [.str "1".toList, .str "2".toList])])]

/-- The record that `CreateFleetPolicy` builds for `gatekeeperRule` in the
baseline `cis_lvl1`. -/
def gatekeeperPolicy : FleetPolicy where
  APIVersion := "v1".toList
  Kind := "policy".toList
  Spec := {
    Name := "macOS Security - Enable Gatekeeper".toList
    Platforms := "macOS".toList
    Platform := "darwin".toList
    Description := "Gatekeeper must be enabled.".toList
    Resolution := "Enable it with a configuration profile.".toList
    Query := "SELECT 1 FROM managed_policies WHERE domain = 'com.apple.systempolicy.control';".toList
    Purpose := "Informational".toList
    Tags := ["compliance".toList, "macOS_Security_Compliance".toList,
      "CIS_2.6.5 (level 1)".toList, "CIS_Level1".toList, "cis_lvl1".toList]
    Contributors := "macos_security_compliance_project".toList }

/-! ### The heuristic tier, in the words of the specification -/

/-- The signals of the heuristic tier in their priority order, each with
whether it is present and the query it stands for: five signals on the check
script `s`, then three on the rule identifier `id`. -/
def heuristicSignals (s id : List Char) : List (Bool × List Char) :=
  [(decide ("/etc/".toList <:+: s) || decide ("/var/".toList <:+: s),
      if "audit".toList <:+: id then
        "SELECT 1 FROM file WHERE path LIKE '/var/audit/%' OR path LIKE '/etc/security/%';".toList
      else "SELECT 1 FROM file WHERE path LIKE '/etc/%' OR path LIKE '/var/%';".toList),
    (decide ("launchctl".toList <:+: s),
      if "audit".toList <:+: id then "SELECT 1 FROM launchd WHERE name = 'com.apple.auditd';".toList
      else "SELECT 1 FROM launchd WHERE name LIKE '%audit%';".toList),
    (decide ("system_profiler".toList <:+: s), "SELECT 1 FROM system_info;".toList),
    (decide ("softwareupdate".toList <:+: s),
      "SELECT 1 FROM software_update WHERE software_update_required = '0';".toList),
    (decide ("defaults".toList <:+: s), "SELECT 1 FROM managed_policies;".toList),
    (decide ("firewall".toList <:+: id),
      "SELECT 1 FROM managed_policies WHERE domain = 'com.apple.security.firewall';".toList),
    (decide ("gatekeeper".toList <:+: id),
      "SELECT 1 FROM managed_policies WHERE domain = 'com.apple.systempolicy.control';".toList),
    (decide ("filevault".toList <:+: id),
      "SELECT 1 FROM managed_policies WHERE domain = 'com.apple.MCX';".toList)]

/-- The query of the first signal that is present. -/
def firstSignal : List (Bool × List Char) → Option (List Char)
  | [] => none
  | (present, q) :: rest => if present then some q else firstSignal rest

/-! ### The conversion loop -/

/-- The loop of `ConvertBaselineToFleet` over the rules of a baseline, given
what `LoadRule` returned for each of them (`none` for a rule that was not
found or could not be loaded, which the loop skips): the policies collected.
A panic of `CreateFleetPolicy` is not recovered anywhere and ends the loop. -/
def collectPolicies (baselineName : List Char) :
    List (Option Rule) → Except Unit (List FleetPolicy)
  | [] => pure []
  | rule :: rest => do
    let policy ← CreateFleetPolicy rule baselineName
    let policies ← collectPolicies baselineName rest
    pure (policy.toList ++ policies)

/-- A rule whose CIS level is written as a number in the rule file. -/
def numberedLevelRule : Rule where
  ID := "os_firewall_enable".toList
  Title := "Enable the firewall".toList
  Discussion := "The firewall must be enabled.".toList
  Fix := "Enable it.".toList
  Check := "/usr/bin/defaults read /Library/Preferences/com.apple.alf globalstate".toList
  References := [("cis".toList, .map [("benchmark".toList, .slice [.str "2.2.1".toList]),
    ("level".toList, .slice [.int 1])])]

/-! ### The annotated trivial placeholder, in the words of the specification -/

/-- The text contains an annotated trivial placeholder: `query: SELECT 1;`
after white space, followed (after white space only) by the generic marker
comment. -/
def HasGenericTodo (t : List Char) : Prop :=
  ∃ u v₁ v₂ r, IsWs v₁ ∧ IsWs v₂ ∧
    t = u ++ (v₁ ++ ("query: SELECT 1;".toList ++
      (v₂ ++ ("# TODO: Replace with specific query for this policy".toList ++ r))))

/-! ### The shape of a policy record -/

/-- One block of the expression of `FixPolicyQueries`: `key([^\n]+)\n[^}]+?`
followed by the rest of the expression. -/
def policyBlock (key : List Char) (cont : List Item) : List Item :=
  .lit key :: .plus (fun c => c ≠ '\n') true :: .lit "\n".toList ::
    .plus (fun c => c ≠ '}') false :: cont

/-- The pieces of a match of the expression of `FixPolicyQueries`: the name,
the text between the line of the name and the key `query: `, the query, and
the text between the line of the query and `purpose: Informational`. -/
def policyPieces (N X Q Y : List Char) : List (List Char) :=
  ["name: ".toList, N, "\n".toList, X, "query: ".toList, Q, "\n".toList, Y,
    "purpose: Informational".toList]

/-- The query that the replacement function of `FixPolicyQueries` leaves in a
record with the given name and query. -/
def resolvedQuery (lowerCase : Char → Char) (queryMappings : List QueryMapping)
    (name query : List Char) : List Char :=
  if strings.Contains query "FROM".toList && !strings.Contains query "SELECT 1".toList then query
  else resolveLowered queryMappings (strings.ToLower lowerCase name)

/-- The queries that the rewrite of `FixPolicyQueries` replaces in a text:
the query (group 3 of the expression) of every match for which the
replacement function builds a new text. -/
def replacedQueries (lowerCase : Char → Char) (queryMappings : List QueryMapping)
    (content : List Char) : List (List Char) :=
  ((policyPattern.allSegments content).1.filter fun seg =>
      (fixPolicyMatch lowerCase queryMappings seg.2.flatten).isSome).map
    fun seg => submatch seg.2 (5, 1)

/-! # Properties

## The matcher -/

namespace regexp

theorem starGreedy_sound {p : Char → Bool} {k : List Char → Option MatchResult} :
    ∀ {s w r}, starGreedy p k s = some (w, r) →
      (∀ c ∈ w, p c = true) ∧ ∃ t, s = w ++ t ∧ k t = some r := by
  intro s
  induction s with
  | nil =>
    intro w r h
    simp only [starGreedy, Option.map_eq_some'] at h
    obtain ⟨a, ha, hw⟩ := h
    cases hw
    exact ⟨by simp, [], rfl, ha⟩
  | cons c s ih =>
    intro w r h
    unfold starGreedy at h
    by_cases hp : p c = true
    · rw [if_pos hp] at h
      cases hrec : starGreedy p k s with
      | some x =>
        obtain ⟨w', r'⟩ := x
        rw [hrec] at h
        cases h
        obtain ⟨hall, t, hs, hk⟩ := ih hrec
        refine ⟨?_, t, by rw [hs]; rfl, hk⟩
        intro d hd
        rcases List.mem_cons.1 hd with rfl | hd
        · exact hp
        · exact hall d hd
      | none =>
        rw [hrec] at h
        simp only [Option.map_eq_some'] at h
        obtain ⟨a, ha, hw⟩ := h
        cases hw
        exact ⟨by simp, c :: s, rfl, ha⟩
    · rw [if_neg hp] at h
      simp only [Option.map_eq_some'] at h
      obtain ⟨a, ha, hw⟩ := h
      cases hw
      exact ⟨by simp, c :: s, rfl, ha⟩

theorem starLazy_sound {p : Char → Bool} {k : List Char → Option MatchResult} :
    ∀ {s w r}, starLazy p k s = some (w, r) →
      (∀ c ∈ w, p c = true) ∧ ∃ t, s = w ++ t ∧ k t = some r := by
  intro s
  induction s with
  | nil =>
    intro w r h
    simp only [starLazy, Option.map_eq_some'] at h
    obtain ⟨a, ha, hw⟩ := h
    cases hw
    exact ⟨by simp, [], rfl, ha⟩
  | cons c s ih =>
    intro w r h
    unfold starLazy at h
    cases hk : k (c :: s) with
    | some a =>
      rw [hk] at h
      cases h
      exact ⟨by simp, c :: s, rfl, hk⟩
    | none =>
      rw [hk] at h
      by_cases hp : p c = true
      · simp only [if_pos hp, Option.map_eq_some'] at h
        obtain ⟨⟨w', r'⟩, hrec, hw⟩ := h
        cases hw
        obtain ⟨hall, t, hs, hk'⟩ := ih hrec
        refine ⟨?_, t, by rw [hs]; rfl, hk'⟩
        intro d hd
        rcases List.mem_cons.1 hd with rfl | hd
        · exact hp
        · exact hall d hd
      · rw [if_neg hp] at h; cases h

theorem starRep_sound {g : Bool} {p : Char → Bool} {k : List Char → Option MatchResult}
    {s w r} (h : starRep g p k s = some (w, r)) :
    (∀ c ∈ w, p c = true) ∧ ∃ t, s = w ++ t ∧ k t = some r := by
  cases g
  · exact starLazy_sound (by simpa [starRep] using h)
  · exact starGreedy_sound (by simpa [starRep] using h)

theorem starGreedy_complete {p : Char → Bool} {k : List Char → Option MatchResult} :
    ∀ (w t : List Char), (∀ c ∈ w, p c = true) → (k t).isSome = true →
      (starGreedy p k (w ++ t)).isSome = true := by
  intro w
  induction w with
  | nil =>
    intro t _ hk
    cases t with
    | nil => simpa [starGreedy] using hk
    | cons c t =>
      simp only [List.nil_append]
      unfold starGreedy
      split
      · split
        · rfl
        · simpa using hk
      · simpa using hk
  | cons c w ih =>
    intro t hall hk
    have hc : p c = true := hall c (List.mem_cons_self _ _)
    have hrec := ih t (fun d hd => hall d (List.mem_cons_of_mem _ hd)) hk
    simp only [List.cons_append]
    unfold starGreedy
    rw [if_pos hc]
    cases hx : starGreedy p k (w ++ t) with
    | some x => rfl
    | none => rw [hx] at hrec; cases hrec

theorem starLazy_complete {p : Char → Bool} {k : List Char → Option MatchResult} :
    ∀ (w t : List Char), (∀ c ∈ w, p c = true) → (k t).isSome = true →
      (starLazy p k (w ++ t)).isSome = true := by
  intro w
  induction w with
  | nil =>
    intro t _ hk
    cases t with
    | nil => simpa [starLazy] using hk
    | cons c t =>
      simp only [List.nil_append]
      unfold starLazy
      cases hx : k (c :: t) with
      | some x => rfl
      | none => rw [hx] at hk; cases hk
  | cons c w ih =>
    intro t hall hk
    have hc : p c = true := hall c (List.mem_cons_self _ _)
    have hrec := ih t (fun d hd => hall d (List.mem_cons_of_mem _ hd)) hk
    simp only [List.cons_append]
    unfold starLazy
    cases hx : k (c :: (w ++ t)) with
    | some x => rfl
    | none =>
      simp only [if_pos hc, Option.isSome_map']
      exact hrec

theorem starRep_complete {g : Bool} {p : Char → Bool} {k : List Char → Option MatchResult}
    (w t : List Char) (hall : ∀ c ∈ w, p c = true) (hk : (k t).isSome = true) :
    (starRep g p k (w ++ t)).isSome = true := by
  cases g
  · simpa [starRep] using starLazy_complete w t hall hk
  · simpa [starRep] using starGreedy_complete w t hall hk

theorem isPrefixOf_eq_append {w s : List Char} (h : w.isPrefixOf s = true) :
    s = w ++ s.drop w.length := by
  obtain ⟨t, rfl⟩ := List.isPrefixOf_iff_prefix.1 h
  simp

theorem isPrefixOf_append_self (w t : List Char) : w.isPrefixOf (w ++ t) = true :=
  List.isPrefixOf_iff_prefix.2 ⟨t, rfl⟩

/-- Soundness of the matcher: the pieces are taken by the items, one each,
and the text is the pieces followed by what is left. -/
theorem matchItems_sound :
    ∀ {items : List Item} {s : List Char} {ps : List (List Char)} {r : List Char},
      matchItems items s = some (ps, r) →
        List.Forall₂ Item.Sat items ps ∧ s = ps.flatten ++ r := by
  intro items
  induction items with
  | nil =>
    intro s ps r h
    simp only [matchItems, Option.some.injEq, Prod.mk.injEq] at h
    obtain ⟨rfl, rfl⟩ := h
    exact ⟨List.Forall₂.nil, rfl⟩
  | cons it rest ih =>
    intro s ps r h
    cases it with
    | lit w =>
      unfold matchItems at h
      by_cases hw : w.isPrefixOf s = true
      · simp only [if_pos hw, Option.map_eq_some'] at h
        obtain ⟨⟨ps', r'⟩, hrec, hx⟩ := h
        cases hx
        obtain ⟨hsat, hs⟩ := ih hrec
        refine ⟨List.Forall₂.cons rfl hsat, ?_⟩
        rw [List.flatten_cons, List.append_assoc, ← hs]
        exact isPrefixOf_eq_append hw
      · rw [if_neg hw] at h; cases h
    | cls p =>
      cases s with
      | nil => simp [matchItems] at h
      | cons c s =>
        unfold matchItems at h
        by_cases hp : p c = true
        · simp only [if_pos hp, Option.map_eq_some'] at h
          obtain ⟨⟨ps', r'⟩, hrec, hx⟩ := h
          cases hx
          obtain ⟨hsat, hs⟩ := ih hrec
          refine ⟨List.Forall₂.cons ⟨c, hp, rfl⟩ hsat, ?_⟩
          simp [hs]
        · rw [if_neg hp] at h; cases h
    | star p g =>
      unfold matchItems at h
      simp only [Option.map_eq_some'] at h
      obtain ⟨⟨w, ps', r'⟩, hrec, hx⟩ := h
      cases hx
      obtain ⟨hall, t, hs, hk⟩ := starRep_sound hrec
      obtain ⟨hsat, ht⟩ := ih hk
      refine ⟨List.Forall₂.cons hall hsat, ?_⟩
      simp [hs, ht]
    | plus p g =>
      cases s with
      | nil => simp [matchItems] at h
      | cons c s =>
        unfold matchItems at h
        by_cases hp : p c = true
        · simp only [if_pos hp, Option.map_eq_some'] at h
          obtain ⟨⟨w, ps', r'⟩, hrec, hx⟩ := h
          cases hx
          obtain ⟨hall, t, hs, hk⟩ := starRep_sound hrec
          obtain ⟨hsat, ht⟩ := ih hk
          refine ⟨List.Forall₂.cons ⟨List.cons_ne_nil _ _, ?_⟩ hsat, ?_⟩
          · intro d hd
            rcases List.mem_cons.1 hd with rfl | hd
            · exact hp
            · exact hall d hd
          · simp [hs, ht]
        · rw [if_neg hp] at h; cases h

/-- Completeness of the matcher: when the text starts with pieces that the
items can take, the matcher finds a match (the one of highest priority). -/
theorem matchItems_complete :
    ∀ {items : List Item} {ps : List (List Char)} (r : List Char),
      List.Forall₂ Item.Sat items ps → (matchItems items (ps.flatten ++ r)).isSome = true := by
  intro items
  induction items with
  | nil =>
    intro ps r h
    cases h
    rfl
  | cons it rest ih =>
    intro ps r h
    cases h with
    | cons hsat hrest =>
      rename_i x ps'
      have hrec := ih r hrest
      rw [List.flatten_cons, List.append_assoc]
      cases it with
      | lit w =>
        cases hsat
        unfold matchItems
        rw [if_pos (isPrefixOf_append_self _ _)]
        simpa using hrec
      | cls p =>
        obtain ⟨c, hp, rfl⟩ := hsat
        simp only [List.singleton_append]
        unfold matchItems
        rw [if_pos hp]
        simpa using hrec
      | star p g =>
        unfold matchItems
        simpa using starRep_complete x _ hsat hrec
      | plus p g =>
        obtain ⟨hne, hall⟩ := hsat
        cases x with
        | nil => exact absurd rfl hne
        | cons c w =>
          simp only [List.cons_append]
          unfold matchItems
          rw [if_pos (hall c (List.mem_cons_self _ _))]
          simpa using starRep_complete w _ (fun d hd => hall d (List.mem_cons_of_mem _ hd)) hrec

/-- The matcher fails on a text exactly when no split of the text into
pieces taken by the items exists. -/
theorem matchItems_eq_none_iff {items : List Item} {s : List Char} :
    matchItems items s = none ↔
      ∀ ps r, List.Forall₂ Item.Sat items ps → s ≠ ps.flatten ++ r := by
  constructor
  · intro h ps r hsat hs
    have := matchItems_complete r hsat
    rw [← hs, h] at this
    cases this
  · intro h
    cases hm : matchItems items s with
    | none => rfl
    | some x =>
      obtain ⟨ps, r⟩ := x
      obtain ⟨hsat, hs⟩ := matchItems_sound hm
      exact absurd hs (h ps r hsat)

/-! ## The search -/

theorem search_sound {re : Regexp} :
    ∀ {s : List Char} {b : Bool} {pre ps r}, re.search b s = some (pre, ps, r) →
      s = pre ++ (ps.flatten ++ r) ∧ matchItems re.items (ps.flatten ++ r) = some (ps, r) := by
  have key : ∀ {b t x}, re.tryAt b t = some x →
      t = x.1.flatten ++ x.2 ∧ matchItems re.items (x.1.flatten ++ x.2) = some x := by
    intro b t x hx
    unfold Regexp.tryAt at hx
    split at hx
    · cases hx
    · have := (@matchItems_sound _ _ x.1 x.2 hx).2
      exact ⟨this, this ▸ hx⟩
  intro s
  induction s with
  | nil =>
    intro b pre ps r h
    simp only [Regexp.search, Option.map_eq_some'] at h
    obtain ⟨x, hx, he⟩ := h
    cases he
    simpa using key hx
  | cons c s ih =>
    intro b pre ps r h
    unfold Regexp.search at h
    cases hx : re.tryAt b (c :: s) with
    | some x =>
      rw [hx] at h
      cases h
      simpa using key hx
    | none =>
      rw [hx] at h
      simp only [Option.map_eq_some'] at h
      obtain ⟨⟨pre', ps', r'⟩, hrec, he⟩ := h
      cases he
      obtain ⟨hs, hm⟩ := ih hrec
      exact ⟨by rw [hs]; rfl, hm⟩

/-- A search without line anchor that fails: the matcher fails at every
position of the text. -/
theorem search_eq_none {re : Regexp} (hb : re.bol = false) :
    ∀ {s : List Char} {b : Bool}, re.search b s = none →
      ∀ pre t, s = pre ++ t → matchItems re.items t = none := by
  intro s
  induction s with
  | nil =>
    intro b h pre t hs
    obtain ⟨rfl, rfl⟩ := List.append_eq_nil.1 hs.symm
    simpa [Regexp.search, Regexp.tryAt, hb] using h
  | cons c s ih =>
    intro b h pre t hs
    unfold Regexp.search at h
    cases hx : re.tryAt b (c :: s) with
    | some x => rw [hx] at h; cases h
    | none =>
      rw [hx] at h
      simp only [Option.map_eq_none'] at h
      cases pre with
      | nil =>
        simp only [List.nil_append] at hs
        subst hs
        simpa [Regexp.tryAt, hb] using hx
      | cons d pre =>
        simp only [List.cons_append, List.cons.injEq] at hs
        exact ih h pre t hs.2

/-- A search without line anchor that succeeds: the matcher fails at every
position before the match found. -/
theorem search_leftmost {re : Regexp} (hb : re.bol = false) :
    ∀ {s : List Char} {b : Bool} {pre ps r}, re.search b s = some (pre, ps, r) →
      ∀ pre' t, s = pre' ++ t → pre'.length < pre.length → matchItems re.items t = none := by
  intro s
  induction s with
  | nil =>
    intro b pre ps r h pre' t hs hlt
    simp only [Regexp.search, Option.map_eq_some'] at h
    obtain ⟨x, _, he⟩ := h
    cases he
    simp at hlt
  | cons c s ih =>
    intro b pre ps r h pre' t hs hlt
    unfold Regexp.search at h
    cases hx : re.tryAt b (c :: s) with
    | some x =>
      rw [hx] at h
      cases h
      simp at hlt
    | none =>
      rw [hx] at h
      simp only [Option.map_eq_some'] at h
      obtain ⟨⟨pre1, ps1, r1⟩, hrec, he⟩ := h
      cases he
      cases pre' with
      | nil =>
        simp only [List.nil_append] at hs
        subst hs
        simpa [Regexp.tryAt, hb] using hx
      | cons d pre' =>
        simp only [List.cons_append, List.cons.injEq] at hs
        exact ih hrec pre' t hs.2 (by simpa using hlt)

/-- A search without line anchor finds the first position where the matcher
succeeds. -/
theorem search_of_first {re : Regexp} (hb : re.bol = false) :
    ∀ (pre : List Char) {t : List Char} {b : Bool} {x : MatchResult},
      matchItems re.items t = some x →
      (∀ pre' t', pre ++ t = pre' ++ t' → pre'.length < pre.length →
        matchItems re.items t' = none) →
      re.search b (pre ++ t) = some (pre, x.1, x.2) := by
  intro pre
  induction pre with
  | nil =>
    intro t b x hm _
    have ht : re.tryAt b t = some x := by simpa [Regexp.tryAt, hb] using hm
    cases t with
    | nil => simp [Regexp.search, ht]
    | cons c t => simp [Regexp.search, ht]
  | cons d pre ih =>
    intro t b x hm hfirst
    have hnone : re.tryAt b (d :: (pre ++ t)) = none := by
      have := hfirst [] (d :: (pre ++ t)) rfl (by simp)
      simpa [Regexp.tryAt, hb] using this
    have hrec := ih (b := decide (d = '\n')) hm (fun pre' t' hs hlt =>
      hfirst (d :: pre') t' (by rw [List.cons_append, hs]; rfl) (by simpa using hlt))
    simp only [List.cons_append]
    unfold Regexp.search
    rw [hnone]
    simp [hrec]

end regexp

/-! ## Package `strings` -/

namespace strings

theorem Contains_iff {s sub : List Char} : Contains s sub = true ↔ sub <:+: s := by
  induction s with
  | nil =>
    simp only [Contains, List.isPrefixOf_iff_prefix]
    exact ⟨fun h => h.isInfix, fun h => by rw [List.eq_nil_of_infix_nil h]⟩
  | cons c s ih =>
    simp only [Contains, Bool.or_eq_true, List.isPrefixOf_iff_prefix, ih]
    exact List.infix_cons_iff.symm

theorem Contains_eq_false_iff {s sub : List Char} : Contains s sub = false ↔ ¬ sub <:+: s := by
  rw [← Contains_iff]; simp

end strings

/-! ## The structural tier -/

theorem split_at_rune_unique {q : Char} :
    ∀ {a b r r' : List Char}, q ∉ a → q ∉ b → a ++ q :: r = b ++ q :: r' → a = b ∧ r = r' := by
  intro a
  induction a with
  | nil =>
    intro b r r' _ hb h
    cases b with
    | nil => simpa using h
    | cons d b =>
      simp only [List.nil_append, List.cons_append, List.cons.injEq] at h
      exact absurd (h.1 ▸ List.mem_cons_self _ _) hb
  | cons c a ih =>
    intro b r r' ha hb h
    cases b with
    | nil =>
      simp only [List.nil_append, List.cons_append, List.cons.injEq] at h
      exact absurd (h.1 ▸ List.mem_cons_self _ _) ha
    | cons d b =>
      simp only [List.cons_append, List.cons.injEq] at h
      obtain ⟨hab, hr⟩ := ih (fun hm => ha (List.mem_cons_of_mem _ hm))
        (fun hm => hb (List.mem_cons_of_mem _ hm)) h.2
      exact ⟨by rw [h.1, hab], hr⟩

/-- The expression `name\('([^']+)'\)`. -/
theorem callRegex_items_sat {name : List Char} {ps : List (List Char)}
    (h : List.Forall₂ Item.Sat
      [.lit (name ++ "('".toList), .plus (fun c => c ≠ '\'') true, .lit "')".toList] ps) :
    ∃ X, IsLiteral X ∧ ps = [name ++ "('".toList, X, "')".toList] := by
  cases h with
  | cons h1 h =>
    cases h with
    | cons h2 h =>
      cases h with
      | cons h3 h =>
        cases h
        rename_i x1 x2 x3
        cases h1
        cases h3
        refine ⟨x2, ⟨h2.1, fun hm => ?_⟩, rfl⟩
        simpa using h2.2 _ hm

theorem find_callShape {name s X : List Char} (groups : List (Nat × Nat))
    (h : FirstCallShape name s X) :
    ∃ pre post, (Regexp.mk false
        [.lit (name ++ "('".toList), .plus (fun c => c ≠ '\'') true, .lit "')".toList]
        groups).search true s =
      some (pre, [name ++ "('".toList, X, "')".toList], post) := by
  obtain ⟨hX, pre, post, hs, hmin⟩ := h
  refine ⟨pre, post, ?_⟩
  have hsat : List.Forall₂ Item.Sat
      [.lit (name ++ "('".toList), .plus (fun c => c ≠ '\'') true, .lit "')".toList]
      [name ++ "('".toList, X, "')".toList] :=
    List.Forall₂.cons rfl (List.Forall₂.cons ⟨hX.1, fun c hc => by
      have : c ≠ '\'' := fun hq => hX.2 (hq ▸ hc)
      simpa using this⟩ (List.Forall₂.cons rfl List.Forall₂.nil))
  have hflat : ([name ++ "('".toList, X, "')".toList] : List (List Char)).flatten ++ post =
      callShape name X ++ post := by
    simp [callShape]
  have hsome := matchItems_complete post hsat
  rw [hflat] at hsome
  cases hm : matchItems [.lit (name ++ "('".toList), .plus (fun c => c ≠ '\'') true,
      .lit "')".toList] (callShape name X ++ post) with
  | none => rw [hm] at hsome; cases hsome
  | some x =>
    obtain ⟨ps, r⟩ := x
    obtain ⟨hsat', hs'⟩ := matchItems_sound hm
    obtain ⟨X', hX', rfl⟩ := callRegex_items_sat hsat'
    have heq : X ++ '\'' :: (')' :: post) = X' ++ '\'' :: (')' :: r) := by
      have := hs'
      simp only [callShape, List.flatten_cons, List.flatten_nil, List.append_nil,
        List.append_assoc, List.append_cancel_left_eq] at this
      simpa using this
    obtain ⟨hXX, hr⟩ := split_at_rune_unique hX.2 hX'.2 heq
    subst hXX
    simp only [List.cons.injEq, true_and] at hr
    subst hr
    have hfirst : ∀ pre' t', pre ++ (callShape name X ++ post) = pre' ++ t' →
        pre'.length < pre.length →
        matchItems [.lit (name ++ "('".toList), .plus (fun c => c ≠ '\'') true,
          .lit "')".toList] t' = none := by
      intro pre' t' hsplit hlt
      rw [matchItems_eq_none_iff]
      intro ps r hps ht'
      obtain ⟨Y, hY, rfl⟩ := callRegex_items_sat hps
      have : s = pre' ++ callShape name Y ++ r := by
        rw [hs, List.append_assoc, hsplit, ht']
        simp [callShape]
      exact absurd (hmin pre' Y r hY this) (by omega)
    have := @search_of_first (Regexp.mk false
        [.lit (name ++ "('".toList), .plus (fun c => c ≠ '\'') true, .lit "')".toList]
        groups) rfl pre _ true _ hm hfirst
    rw [hs, List.append_assoc]
    exact this

/-- A way to establish `FirstCallShape` on a given text: exhibit the split
and check that the name of the call starts at no earlier position. -/
theorem firstCallShape_of_check {name s X : List Char} (pre post : List Char)
    (hX : IsLiteral X) (hs : s = pre ++ callShape name X ++ post)
    (hmin : ∀ i, i < pre.length → name.isPrefixOf (s.drop i) = false) :
    FirstCallShape name s X := by
  refine ⟨hX, pre, post, hs, fun pre' X' post' _ hs' => ?_⟩
  by_contra hlt
  have h1 := hmin pre'.length (by omega)
  have h2 : name.isPrefixOf (s.drop pre'.length) = true := by
    rw [hs', List.append_assoc, List.drop_left, callShape]
    simp only [List.append_assoc]
    exact regexp.isPrefixOf_append_self _ _
  rw [h1] at h2
  cases h2

theorem name_in_text_of_firstCallShape {name s X : List Char} (h : FirstCallShape name s X) :
    name <:+: s := by
  obtain ⟨_, pre, post, hs, _⟩ := h
  exact ⟨pre, "('".toList ++ X ++ "')".toList ++ post, by simp [hs, callShape]⟩

theorem structuralExtraction_of_shapes {s D K : List Char}
    (hos : "osascript".toList <:+: s)
    (hD : FirstCallShape "initWithSuiteName".toList s D)
    (hK : FirstCallShape "objectForKey".toList s K) :
    structuralExtraction s = some (structuredQuery D K) := by
  obtain ⟨pre1, post1, h1⟩ := find_callShape [(1, 1)] hD
  obtain ⟨pre2, post2, h2⟩ := find_callShape [(1, 1)] hK
  have e1 : suiteRegex.FindStringSubmatch s =
      some ["initWithSuiteName".toList ++ "('".toList ++ D ++ "')".toList, D] := by
    have : suiteRegex = Regexp.mk false [.lit ("initWithSuiteName".toList ++ "('".toList),
        .plus (fun c => c ≠ '\'') true, .lit "')".toList] [(1, 1)] := rfl
    rw [Regexp.FindStringSubmatch, this, h1]
    simp [submatch, List.take, List.drop]
  have e2 : keyRegex.FindStringSubmatch s =
      some ["objectForKey".toList ++ "('".toList ++ K ++ "')".toList, K] := by
    have : keyRegex = Regexp.mk false [.lit ("objectForKey".toList ++ "('".toList),
        .plus (fun c => c ≠ '\'') true, .lit "')".toList] [(1, 1)] := rfl
    rw [Regexp.FindStringSubmatch, this, h2]
    simp [submatch, List.take, List.drop]
  unfold structuralExtraction
  rw [strings.Contains_iff.2 hos, strings.Contains_iff.2 (name_in_text_of_firstCallShape hK), e1, e2]
  rfl

/-- C1, as amended: for every check script `s` and rule identifier `id`, if
`s` contains the text `osascript`, a first call shape `initWithSuiteName('D')`
and a first call shape `objectForKey('K')`, with `D` and `K` non-empty and free
of single quotes, then `ConvertCheckToQuery s id` is exactly the managed-policy
existence query for the domain `D` and the key `K`. -/
theorem C1_structural_query (s id D K : List Char)
    (hos : "osascript".toList <:+: s)
    (hD : FirstCallShape "initWithSuiteName".toList s D)
    (hK : FirstCallShape "objectForKey".toList s K) :
    ConvertCheckToQuery s id =
      "SELECT 1 WHERE EXISTS (SELECT 1 FROM managed_policies WHERE domain='".toList ++ D ++
        "' AND name='".toList ++ K ++ "' AND (value = 1 OR value = 'true'));".toList := by
  unfold ConvertCheckToQuery
  rw [structuralExtraction_of_shapes hos hD hK]
  simp [structuredQuery]

set_option maxRecDepth 100000 in
/-- C1, witness: the script of the screen saver rule, with the domain
`com.apple.screensaver` and the key `askForPassword`. -/
theorem C1_structural_query_witness :
    ("osascript".toList <:+:
        ("/usr/bin/osascript -l JavaScript << EOS\n$.NSUserDefaults.alloc" ++
          ".initWithSuiteName('com.apple.screensaver').objectForKey('askForPassword').js\nEOS"
          ).toList) ∧
      FirstCallShape "initWithSuiteName".toList
        ("/usr/bin/osascript -l JavaScript << EOS\n$.NSUserDefaults.alloc" ++
          ".initWithSuiteName('com.apple.screensaver').objectForKey('askForPassword').js\nEOS"
          ).toList "com.apple.screensaver".toList ∧
      FirstCallShape "objectForKey".toList
        ("/usr/bin/osascript -l JavaScript << EOS\n$.NSUserDefaults.alloc" ++
          ".initWithSuiteName('com.apple.screensaver').objectForKey('askForPassword').js\nEOS"
          ).toList "askForPassword".toList ∧
      ConvertCheckToQuery
        ("/usr/bin/osascript -l JavaScript << EOS\n$.NSUserDefaults.alloc" ++
          ".initWithSuiteName('com.apple.screensaver').objectForKey('askForPassword').js\nEOS"
          ).toList "system_settings_screensaver_ask_for_password_delay_enforce".toList =
        "SELECT 1 WHERE EXISTS (SELECT 1 FROM managed_policies WHERE domain='".toList ++
          "com.apple.screensaver".toList ++ "' AND name='".toList ++ "askForPassword".toList ++
          "' AND (value = 1 OR value = 'true'));".toList := by
  have h0 : "osascript".toList <:+:
      ("/usr/bin/osascript -l JavaScript << EOS\n$.NSUserDefaults.alloc" ++
        ".initWithSuiteName('com.apple.screensaver').objectForKey('askForPassword').js\nEOS"
        ).toList := strings.Contains_iff.1 (by decide)
  have h1 : FirstCallShape "initWithSuiteName".toList
      ("/usr/bin/osascript -l JavaScript << EOS\n$.NSUserDefaults.alloc" ++
        ".initWithSuiteName('com.apple.screensaver').objectForKey('askForPassword').js\nEOS"
        ).toList "com.apple.screensaver".toList :=
    firstCallShape_of_check "/usr/bin/osascript -l JavaScript << EOS\n$.NSUserDefaults.alloc.".toList
      ".objectForKey('askForPassword').js\nEOS".toList (by decide) (by decide) (by decide)
  have h2 : FirstCallShape "objectForKey".toList
      ("/usr/bin/osascript -l JavaScript << EOS\n$.NSUserDefaults.alloc" ++
        ".initWithSuiteName('com.apple.screensaver').objectForKey('askForPassword').js\nEOS"
        ).toList "askForPassword".toList :=
    firstCallShape_of_check
      ("/usr/bin/osascript -l JavaScript << EOS\n$.NSUserDefaults.alloc" ++
        ".initWithSuiteName('com.apple.screensaver').").toList
      ".js\nEOS".toList (by decide) (by decide) (by decide)
  exact ⟨h0, h1, h2, C1_structural_query _ _ _ _ h0 h1 h2⟩

set_option maxRecDepth 100000 in
/-- C1, as stated, fails: a script with both call shapes but without the
text `osascript` does not reach the structural tier; it gets the trivial
placeholder. -/
theorem C1_counterexample :
    FirstCallShape "initWithSuiteName".toList
        ("$.NSUserDefaults.alloc.initWithSuiteName('com.apple.screensaver')" ++
          ".objectForKey('askForPassword').js").toList "com.apple.screensaver".toList ∧
      FirstCallShape "objectForKey".toList
        ("$.NSUserDefaults.alloc.initWithSuiteName('com.apple.screensaver')" ++
          ".objectForKey('askForPassword').js").toList "askForPassword".toList ∧
      ConvertCheckToQuery
        ("$.NSUserDefaults.alloc.initWithSuiteName('com.apple.screensaver')" ++
          ".objectForKey('askForPassword').js").toList "screensaver_ask_for_password".toList =
        "SELECT 1;".toList ∧
      ConvertCheckToQuery
        ("$.NSUserDefaults.alloc.initWithSuiteName('com.apple.screensaver')" ++
          ".objectForKey('askForPassword').js").toList "screensaver_ask_for_password".toList ≠
        "SELECT 1 WHERE EXISTS (SELECT 1 FROM managed_policies WHERE domain='".toList ++
          "com.apple.screensaver".toList ++ "' AND name='".toList ++ "askForPassword".toList ++
          "' AND (value = 1 OR value = 'true'));".toList := by
  refine ⟨?_, ?_, by decide, by decide⟩
  · exact firstCallShape_of_check "$.NSUserDefaults.alloc.".toList
      ".objectForKey('askForPassword').js".toList (by decide) (by decide) (by decide)
  · exact firstCallShape_of_check
      "$.NSUserDefaults.alloc.initWithSuiteName('com.apple.screensaver').".toList
      ".js".toList (by decide) (by decide) (by decide)

/-- A match found by the expression `name\('([^']+)'\)` is the first call
shape of the text. -/
theorem search_callShape {name s : List Char} (groups : List (Nat × Nat)) {pre ps post}
    (h : (Regexp.mk false
        [.lit (name ++ "('".toList), .plus (fun c => c ≠ '\'') true, .lit "')".toList]
        groups).search true s = some (pre, ps, post)) :
    ∃ X, ps = [name ++ "('".toList, X, "')".toList] ∧ FirstCallShape name s X := by
  obtain ⟨hs, hm⟩ := search_sound h
  obtain ⟨hsat, -⟩ := matchItems_sound hm
  obtain ⟨X, hX, rfl⟩ := callRegex_items_sat hsat
  refine ⟨X, rfl, hX, pre, post, by simp [hs, callShape], fun pre' X' post' hX' hs' => ?_⟩
  by_contra hlt
  have hnone := @search_leftmost (Regexp.mk false
    [.lit (name ++ "('".toList), .plus (fun c => c ≠ '\'') true, .lit "')".toList] groups)
    rfl _ _ _ _ _ h pre' (callShape name X' ++ post') (by rw [hs', List.append_assoc]) (by omega)
  have hsat' : List.Forall₂ Item.Sat
      [.lit (name ++ "('".toList), .plus (fun c => c ≠ '\'') true, .lit "')".toList]
      [name ++ "('".toList, X', "')".toList] :=
    List.Forall₂.cons rfl (List.Forall₂.cons ⟨hX'.1, fun c hc => by
      have : c ≠ '\'' := fun hq => hX'.2 (hq ▸ hc)
      simpa using this⟩ (List.Forall₂.cons rfl List.Forall₂.nil))
  have hsome := matchItems_complete post' hsat'
  have hflat : ([name ++ "('".toList, X', "')".toList] : List (List Char)).flatten ++ post' =
      callShape name X' ++ post' := by
    simp [callShape]
  rw [hflat] at hsome
  simp only at hnone
  rw [hnone] at hsome
  cases hsome

/-- The structural tier gives a query exactly when it fires, and the query
then is the structured query of the two first literals. -/
theorem structuralExtraction_eq_some {s q : List Char} (h : structuralExtraction s = some q) :
    StructuralFires s ∧ ∃ D K, q = structuredQuery D K := by
  unfold structuralExtraction at h
  by_cases hg : (strings.Contains s "osascript".toList &&
      strings.Contains s "objectForKey".toList) = true
  · rw [if_pos hg] at h
    have hos : "osascript".toList <:+: s := by
      rw [Bool.and_eq_true] at hg
      exact strings.Contains_iff.1 hg.1
    have e1 : suiteRegex = Regexp.mk false [.lit ("initWithSuiteName".toList ++ "('".toList),
        .plus (fun c => c ≠ '\'') true, .lit "')".toList] [(1, 1)] := rfl
    have e2 : keyRegex = Regexp.mk false [.lit ("objectForKey".toList ++ "('".toList),
        .plus (fun c => c ≠ '\'') true, .lit "')".toList] [(1, 1)] := rfl
    cases h1 : suiteRegex.search true s with
    | none => simp [Regexp.FindStringSubmatch, h1] at h
    | some x1 =>
      obtain ⟨pre1, ps1, post1⟩ := x1
      cases h2 : keyRegex.search true s with
      | none => simp [Regexp.FindStringSubmatch, h1, h2] at h
      | some x2 =>
        obtain ⟨pre2, ps2, post2⟩ := x2
        obtain ⟨D, -, hD⟩ := search_callShape [(1, 1)] (e1 ▸ h1)
        obtain ⟨K, -, hK⟩ := search_callShape [(1, 1)] (e2 ▸ h2)
        refine ⟨⟨hos, D, K, hD, hK⟩, D, K, ?_⟩
        have := structuralExtraction_of_shapes hos hD hK
        unfold structuralExtraction at this
        rw [if_pos hg] at this
        rw [this] at h
        exact (Option.some.inj h).symm
  · rw [if_neg hg] at h
    cases h

theorem structuralExtraction_eq_none_iff {s : List Char} :
    structuralExtraction s = none ↔ ¬ StructuralFires s := by
  constructor
  · rintro h ⟨hos, D, K, hD, hK⟩
    rw [structuralExtraction_of_shapes hos hD hK] at h
    cases h
  · intro h
    cases hq : structuralExtraction s with
    | none => rfl
    | some q => exact absurd (structuralExtraction_eq_some hq).1 h

/-! ## The shape of the resolved queries -/

theorem queryShape_structuredQuery (D K : List Char) : queryShape (structuredQuery D K) = true := by
  have h1 : (structuredQuery D K).head? = some 'S' := rfl
  have h2 : (structuredQuery D K).getLast? = some ';' := by
    unfold structuredQuery
    rw [List.getLast?_append]
    rfl
  simp [queryShape, h1, h2]

theorem structuredQuery_ne_placeholder (D K : List Char) :
    structuredQuery D K ≠ "SELECT 1;".toList := by
  intro h
  have := congrArg (fun l => l.get? 8) h
  simp [structuredQuery] at this

theorem queryShape_ConvertCheckToQuery (s id : List Char) :
    queryShape (ConvertCheckToQuery s id) = true := by
  unfold ConvertCheckToQuery
  cases hq : structuralExtraction s with
  | some q =>
    obtain ⟨-, D, K, rfl⟩ := structuralExtraction_eq_some hq
    exact queryShape_structuredQuery D K
  | none =>
    simp only
    split_ifs <;> decide

theorem TrimSpace_of_queryShape {q : List Char} (h : queryShape q = true) :
    strings.TrimSpace q = q ∧ q ≠ [] := by
  simp only [queryShape, Bool.and_eq_true, decide_eq_true_eq] at h
  obtain ⟨h1, h2⟩ := h
  cases q with
  | nil => simp at h1
  | cons c t =>
    simp only [List.head?_cons, Option.some.injEq] at h1
    subst h1
    refine ⟨?_, List.cons_ne_nil _ _⟩
    have hr : ('S' :: t).reverse.head? = some ';' := by rw [List.head?_reverse]; exact h2
    cases hrev : ('S' :: t).reverse with
    | nil => rw [hrev] at hr; simp at hr
    | cons d u =>
      rw [hrev] at hr
      simp only [List.head?_cons, Option.some.injEq] at hr
      subst hr
      have e1 : List.dropWhile strings.isSpace ('S' :: t) = 'S' :: t :=
        List.dropWhile_cons_of_neg (by decide)
      have e2 : List.dropWhile strings.isSpace (';' :: u) = ';' :: u :=
        List.dropWhile_cons_of_neg (by decide)
      rw [strings.TrimSpace, e1, hrev, e2, ← hrev, List.reverse_reverse]

/-! ## The policy assembler -/

theorem CreateFleetPolicy_ok {rule : Rule} {baselineName : List Char} {policy : FleetPolicy}
    (h : CreateFleetPolicy (some rule) baselineName = .ok (some policy)) :
    ∃ cisBenchmark cisLevel, cisReferences rule = .ok (cisBenchmark, cisLevel) ∧
      policy.Spec.Query = strings.TrimSpace (ConvertCheckToQuery rule.Check rule.ID) ∧
      policy.Spec.Purpose = "Informational".toList ∧
      policy.Spec.Tags =
        ((if cisLevel ≠ [] then
            (if cisBenchmark ≠ [] then
              ["compliance".toList, "macOS_Security_Compliance".toList] ++
                ["CIS_".toList ++ cisBenchmark]
            else ["compliance".toList, "macOS_Security_Compliance".toList]) ++
              ["CIS_Level".toList ++ cisLevel]
          else
            (if cisBenchmark ≠ [] then
              ["compliance".toList, "macOS_Security_Compliance".toList] ++
                ["CIS_".toList ++ cisBenchmark]
            else ["compliance".toList, "macOS_Security_Compliance".toList])) ++
          [strings.ReplaceAllRune (strings.ReplaceAllRune baselineName '_' "_".toList) '-'
            "_".toList]) := by
  dsimp only [CreateFleetPolicy] at h
  cases hc : cisReferences rule with
  | error e =>
    rw [hc] at h
    cases h
  | ok x =>
    obtain ⟨b, l⟩ := x
    rw [hc] at h
    refine ⟨b, l, rfl, ?_⟩
    have h' := Option.some.inj (Except.ok.inj h)
    subst h'
    exact ⟨rfl, rfl, rfl⟩

/-- C2: `ConvertCheckToQuery` returns a non-empty query for every check
script and rule identifier, and every record that `CreateFleetPolicy`
returns for a rule carries as its query the trimmed result of
`ConvertCheckToQuery` on the rule's check script and identifier, which is
non-empty, and the purpose `Informational`. -/
theorem C2_query_never_empty (checkScript ruleID : List Char) (rule : Rule)
    (baselineName : List Char) (policy : FleetPolicy)
    (h : CreateFleetPolicy (some rule) baselineName = .ok (some policy)) :
    ConvertCheckToQuery checkScript ruleID ≠ [] ∧
      policy.Spec.Query = strings.TrimSpace (ConvertCheckToQuery rule.Check rule.ID) ∧
      policy.Spec.Query ≠ [] ∧
      policy.Spec.Purpose = "Informational".toList := by
  obtain ⟨_, _, _, hq, hp, _⟩ := CreateFleetPolicy_ok h
  have h1 := TrimSpace_of_queryShape (queryShape_ConvertCheckToQuery checkScript ruleID)
  have h2 := TrimSpace_of_queryShape (queryShape_ConvertCheckToQuery rule.Check rule.ID)
  refine ⟨h1.2, hq, ?_, hp⟩
  rw [hq, h2.1]
  exact h2.2

/-- C4: `ConvertCheckToQuery` gives the trivial placeholder `SELECT 1;`
exactly when no signal matches: the structural tier does not fire, the
script contains none of the six script signals and the identifier none of
the three identifier signals. -/
theorem C4_placeholder_iff_no_signal (s id : List Char) :
    ConvertCheckToQuery s id = "SELECT 1;".toList ↔
      (¬ StructuralFires s ∧
        ¬ "/etc/".toList <:+: s ∧ ¬ "/var/".toList <:+: s ∧ ¬ "launchctl".toList <:+: s ∧
        ¬ "system_profiler".toList <:+: s ∧ ¬ "softwareupdate".toList <:+: s ∧
        ¬ "defaults".toList <:+: s ∧
        ¬ "firewall".toList <:+: id ∧ ¬ "gatekeeper".toList <:+: id ∧
        ¬ "filevault".toList <:+: id) := by
  unfold ConvertCheckToQuery
  cases hq : structuralExtraction s with
  | some q =>
    obtain ⟨hf, D, K, rfl⟩ := structuralExtraction_eq_some hq
    simp only
    constructor
    · intro h
      exact absurd h (structuredQuery_ne_placeholder D K)
    · intro h
      exact absurd hf h.1
  | none =>
    have hnf := structuralExtraction_eq_none_iff.1 hq
    simp only [← strings.Contains_iff]
    split_ifs <;> simp_all <;> intros <;> simp_all

set_option maxRecDepth 100000 in
/-- C2, witness: the record built for `gatekeeperRule`, and the empty check
script with the empty identifier. -/
theorem C2_query_never_empty_witness :
    CreateFleetPolicy (some gatekeeperRule) "cis_lvl1".toList = .ok (some gatekeeperPolicy) ∧
      (ConvertCheckToQuery [] [] ≠ [] ∧
        gatekeeperPolicy.Spec.Query =
          strings.TrimSpace (ConvertCheckToQuery gatekeeperRule.Check gatekeeperRule.ID) ∧
        gatekeeperPolicy.Spec.Query ≠ [] ∧
        gatekeeperPolicy.Spec.Purpose = "Informational".toList) :=
  ⟨by rfl, C2_query_never_empty [] [] gatekeeperRule "cis_lvl1".toList gatekeeperPolicy (by rfl)⟩

theorem firstOfArray_wellFormed {m : List (List Char × Value)} {key : List Char}
    (h : ∀ x xs, m.lookup key = some (.slice (x :: xs)) → ∃ b, x = .str b) :
    ∃ b, firstOfArray m key = .ok b ∧
      (match m.lookup key with
        | some (.slice (.str b' :: _)) => if b' = [] then none else some b'
        | _ => none) = if b = [] then none else some b := by
  unfold firstOfArray
  cases hl : m.lookup key with
  | none => exact ⟨[], rfl, rfl⟩
  | some v =>
    cases v with
    | slice xs =>
      cases xs with
      | nil => exact ⟨[], rfl, rfl⟩
      | cons x xs =>
        obtain ⟨b, rfl⟩ := h x xs hl
        exact ⟨b, rfl, rfl⟩
    | _ => exact ⟨[], rfl, rfl⟩

theorem cisReferences_wellFormed {rule : Rule} (hwf : WellFormedReferences rule.References) :
    ∃ b l, cisReferences rule = .ok (b, l) ∧
      cisFirst rule.References "benchmark".toList = (if b = [] then none else some b) ∧
      cisFirst rule.References "level".toList = (if l = [] then none else some l) := by
  unfold cisReferences cisFirst
  cases hl : rule.References.lookup "cis".toList with
  | none => exact ⟨[], [], rfl, rfl, rfl⟩
  | some v =>
    cases v with
    | map cis =>
      obtain ⟨b, hb, hb'⟩ := firstOfArray_wellFormed (hwf cis hl "benchmark".toList (Or.inl rfl))
      obtain ⟨l, hl1, hl'⟩ := firstOfArray_wellFormed (hwf cis hl "level".toList (Or.inr rfl))
      refine ⟨b, l, ?_, hb', hl'⟩
      simp only [hb, hl1]
      rfl
    | _ => exact ⟨[], [], rfl, rfl, rfl⟩

theorem ReplaceAllRune_singleton (s : List Char) (o n : Char) :
    strings.ReplaceAllRune s o [n] = s.map fun c => if c = o then n else c := by
  induction s with
  | nil => rfl
  | cons c s ih =>
    have : strings.ReplaceAllRune (c :: s) o [n] =
        (if c = o then [n] else [c]) ++ strings.ReplaceAllRune s o [n] := by
      simp [strings.ReplaceAllRune]
    rw [this, ih]
    by_cases hc : c = o <;> simp [hc]

/-- C10: for every rule with a well-formed reference map and every baseline
name, `CreateFleetPolicy` returns a record whose tags are, in this order,
`compliance`, `macOS_Security_Compliance`, then `CIS_<b>` when
`references["cis"]["benchmark"]` is a non-empty array whose first element `b`
is a non-empty string, then `CIS_Level<l>` likewise for `"level"`, then the
baseline name with every `-` replaced by `_`, which has no hyphen. -/
theorem C10_tags (rule : Rule) (baselineName : List Char)
    (hwf : WellFormedReferences rule.References) :
    ∃ policy, CreateFleetPolicy (some rule) baselineName = .ok (some policy) ∧
      policy.Spec.Tags =
        ["compliance".toList, "macOS_Security_Compliance".toList] ++
          ((cisFirst rule.References "benchmark".toList).toList.map fun b => "CIS_".toList ++ b) ++
          ((cisFirst rule.References "level".toList).toList.map fun l =>
            "CIS_Level".toList ++ l) ++
          [baselineName.map fun c => if c = '-' then '_' else c] ∧
      '-' ∉ baselineName.map fun c => if c = '-' then '_' else c := by
  obtain ⟨b, l, hc, hb, hl⟩ := cisReferences_wellFormed hwf
  have hid : strings.ReplaceAllRune baselineName '_' "_".toList = baselineName := by
    have : "_".toList = ['_'] := rfl
    rw [this, ReplaceAllRune_singleton]
    conv_rhs => rw [← List.map_id baselineName]
    apply List.map_congr_left
    intro c _
    by_cases h : c = '_' <;> simp [h]
  have htag : strings.ReplaceAllRune (strings.ReplaceAllRune baselineName '_' "_".toList) '-'
      "_".toList = baselineName.map fun c => if c = '-' then '_' else c := by
    rw [hid]
    exact ReplaceAllRune_singleton baselineName '-' '_'
  refine ⟨_, by dsimp only [CreateFleetPolicy]; rw [hc]; rfl, ?_, ?_⟩
  · simp only [htag, hb, hl]
    by_cases h1 : b = [] <;> by_cases h2 : l = [] <;> simp [h1, h2]
  · intro hm
    obtain ⟨c, -, hc'⟩ := List.mem_map.1 hm
    by_cases h : c = '-'
    · rw [if_pos h] at hc'
      exact absurd hc' (by decide)
    · rw [if_neg h] at hc'
      exact h hc'

set_option maxRecDepth 100000 in
/-- C10, witness: `gatekeeperRule`, whose level array has two elements, in
the baseline `cis-lvl1`. -/
theorem C10_tags_witness :
    WellFormedReferences gatekeeperRule.References ∧
      ∃ policy, CreateFleetPolicy (some gatekeeperRule) "cis-lvl1".toList = .ok (some policy) ∧
        policy.Spec.Tags =
          ["compliance".toList, "macOS_Security_Compliance".toList] ++
            ((cisFirst gatekeeperRule.References "benchmark".toList).toList.map fun b =>
              "CIS_".toList ++ b) ++
            ((cisFirst gatekeeperRule.References "level".toList).toList.map fun l =>
              "CIS_Level".toList ++ l) ++
            ["cis-lvl1".toList.map fun c => if c = '-' then '_' else c] ∧
        '-' ∉ "cis-lvl1".toList.map fun c => if c = '-' then '_' else c := by
  have hwf : WellFormedReferences gatekeeperRule.References := by
    intro cis hcis key hkey x xs hx
    have hc : cis = [("benchmark".toList, .slice [.str "2.6.5 (level 1)".toList]),
        ("level".toList, .slice [.str "1".toList, .str "2".toList])] := by
      have h0 : gatekeeperRule.References.lookup "cis".toList =
          some (.map [("benchmark".toList, .slice [.str "2.6.5 (level 1)".toList]),
            ("level".toList, .slice [.str "1".toList, .str "2".toList])]) := by rfl
      rw [h0] at hcis
      injection hcis with h1
      injection h1 with h2
      exact h2.symm
    subst hc
    rcases hkey with rfl | rfl
    · have h0 : List.lookup "benchmark".toList
          [("benchmark".toList, Value.slice [.str "2.6.5 (level 1)".toList]),
            ("level".toList, .slice [.str "1".toList, .str "2".toList])] =
          some (.slice [.str "2.6.5 (level 1)".toList]) := by rfl
      rw [h0] at hx
      injection hx with h1
      injection h1 with h2
      injection h2 with h3 h4
      exact ⟨_, h3.symm⟩
    · have h0 : List.lookup "level".toList
          [("benchmark".toList, Value.slice [.str "2.6.5 (level 1)".toList]),
            ("level".toList, .slice [.str "1".toList, .str "2".toList])] =
          some (.slice [.str "1".toList, .str "2".toList]) := by rfl
      rw [h0] at hx
      injection hx with h1
      injection h1 with h2
      injection h2 with h3 h4
      exact ⟨_, h3.symm⟩
  exact ⟨hwf, C10_tags gatekeeperRule "cis-lvl1".toList hwf⟩

/-! ## The name-pattern resolver -/

theorem search_isSome_of_match {re : Regexp} (hb : re.bol = false) {s : List Char} (b : Bool)
    (h : (matchItems re.items s).isSome = true) : (re.search b s).isSome = true := by
  have ht : re.tryAt b s = matchItems re.items s := by simp [Regexp.tryAt, hb]
  cases hm : matchItems re.items s with
  | none => rw [hm] at h; cases h
  | some x =>
    cases s with
    | nil => simp [Regexp.search, ht, hm]
    | cons c s => simp [Regexp.search, ht, hm]

/-- The loop of the resolver returns the query of the first mapping that
matches, and nothing when no mapping matches. -/
theorem findMapping_first (name : List Char) :
    ∀ ms : List QueryMapping,
      (findMapping name ms = none ∧ ∀ m ∈ ms, mappingMatches m name = false) ∨
      ∃ before m after, ms = before ++ m :: after ∧
        (∀ m' ∈ before, mappingMatches m' name = false) ∧
        mappingMatches m name = true ∧ findMapping name ms = some m.Query := by
  intro ms
  induction ms with
  | nil => exact Or.inl ⟨rfl, by simp⟩
  | cons m ms ih =>
    by_cases hm : mappingMatches m name = true
    · exact Or.inr ⟨[], m, ms, rfl, by simp, hm, by simp [findMapping, hm]⟩
    · have hm' : mappingMatches m name = false := by simpa using hm
      have hf : findMapping name (m :: ms) = findMapping name ms := by
        simp [findMapping, hm']
      rcases ih with ⟨h1, h2⟩ | ⟨before, m1, after, h1, h2, h3, h4⟩
      · refine Or.inl ⟨by rw [hf, h1], ?_⟩
        intro m' hm1
        rcases List.mem_cons.1 hm1 with rfl | hm1
        · exact hm'
        · exact h2 m' hm1
      · refine Or.inr ⟨m :: before, m1, after, by rw [h1]; rfl, ?_, h3, by rw [hf, h4]⟩
        intro m' hm1
        rcases List.mem_cons.1 hm1 with rfl | hm1
        · exact hm'
        · exact h2 m' hm1

/-- The pattern `.*`, compiled with the flag `(?i)`, matches every text. -/
theorem catchAll_matches (q name : List Char) :
    mappingMatches ⟨".*".toList, q⟩ name = true := by
  have hc : regexp.Compile ("(?i)".toList ++ ".*".toList) =
      some ⟨false, [.star (fun x => x ≠ '\n') true], []⟩ := by rfl
  unfold mappingMatches
  simp only [hc]
  apply search_isSome_of_match rfl
  have : List.Forall₂ Item.Sat [Item.star (fun x => decide (x ≠ '\n')) true] [[]] :=
    List.Forall₂.cons (by intro c hc; cases hc) List.Forall₂.nil
  simpa using matchItems_complete name this

set_option maxRecDepth 1000000 in
/-- C3: every pattern of `CreateQueryMappings` compiles; the last entry is
`.*` with the managed-policy query for `com.apple.applicationaccess`, and it
matches every name; for every (lower-cased) name the resolver returns the
query of the first mapping of the table whose pattern matches, so a name that
no earlier pattern matches gets the query of the last entry; and the name
`macOS Security - Enable Security Auditing`, lower-cased (with any Unicode
case table), resolves to the running-state query of the audit service. -/
theorem C3_first_match_wins :
    (∀ m ∈ CreateQueryMappings,
        (regexp.Compile ("(?i)".toList ++ m.Pattern)).isSome = true) ∧
      CreateQueryMappings.getLast? = some ⟨".*".toList,
        "SELECT 1 FROM managed_policies WHERE domain = 'com.apple.applicationaccess';".toList⟩ ∧
      (∀ name q, mappingMatches ⟨".*".toList, q⟩ name = true) ∧
      (∀ name, ∃ before m after, CreateQueryMappings = before ++ m :: after ∧
        (∀ m' ∈ before, mappingMatches m' name = false) ∧
        mappingMatches m name = true ∧
        resolveLowered CreateQueryMappings name = m.Query) ∧
      (∀ name, (∀ m ∈ CreateQueryMappings.dropLast, mappingMatches m name = false) →
        resolveLowered CreateQueryMappings name =
          "SELECT 1 FROM managed_policies WHERE domain = 'com.apple.applicationaccess';".toList) ∧
      ∀ lowerCase, resolveLowered CreateQueryMappings
          (strings.ToLower lowerCase "macOS Security - Enable Security Auditing".toList) =
        "SELECT 1 FROM launchd WHERE name = 'com.apple.auditd' AND state = 'running';".toList := by
  have hlower : ∀ lowerCase, resolveLowered CreateQueryMappings
      (strings.ToLower lowerCase "macOS Security - Enable Security Auditing".toList) =
      "SELECT 1 FROM launchd WHERE name = 'com.apple.auditd' AND state = 'running';".toList := by
    intro lowerCase
    have e : strings.ToLower lowerCase "macOS Security - Enable Security Auditing".toList =
        "macos security - enable security auditing".toList := of_decide_eq_true rfl
    rw [e]
    decide
  have hlast : CreateQueryMappings.getLast? = some ⟨".*".toList,
      "SELECT 1 FROM managed_policies WHERE domain = 'com.apple.applicationaccess';".toList⟩ := by
    decide
  have hsplit : CreateQueryMappings = CreateQueryMappings.dropLast ++ [⟨".*".toList,
      "SELECT 1 FROM managed_policies WHERE domain = 'com.apple.applicationaccess';".toList⟩] := by
    decide
  have hfirst : ∀ name, ∃ before m after, CreateQueryMappings = before ++ m :: after ∧
      (∀ m' ∈ before, mappingMatches m' name = false) ∧
      mappingMatches m name = true ∧
      resolveLowered CreateQueryMappings name = m.Query := by
    intro name
    rcases findMapping_first name CreateQueryMappings with ⟨-, h2⟩ | ⟨before, m, after, h1, h2, h3, h4⟩
    · have := h2 _ (List.mem_of_mem_getLast? hlast)
      rw [catchAll_matches] at this
      cases this
    · exact ⟨before, m, after, h1, h2, h3, by simp [resolveLowered, h4]⟩
  refine ⟨by decide, hlast, fun name q => catchAll_matches q name, hfirst, ?_, hlower⟩
  intro name hnone
  obtain ⟨before, m, after, h1, h2, h3, h4⟩ := hfirst name
  rw [h4]
  rw [hsplit] at h1
  rcases List.append_eq_append_iff.1 h1 with ⟨a', ha, hb⟩ | ⟨c', hc, hd⟩
  · -- `before` extends the table without its last entry
    cases a' with
    | nil =>
      simp only [List.nil_append, List.cons.injEq] at hb
      rw [← hb.1]
    | cons x a' =>
      simp only [List.cons_append, List.cons.injEq] at hb
      exact absurd hb.2 (by simp)
  · cases c' with
    | nil =>
      simp only [List.nil_append, List.cons.injEq] at hd
      rw [hd.1]
    | cons x c' =>
      simp only [List.cons_append, List.cons.injEq] at hd
      have hmem : m ∈ CreateQueryMappings.dropLast := by
        rw [hc, ← hd.1]
        simp
      rw [hnone m hmem] at h3
      cases h3

namespace regexp

theorem search_bol_irrelevant {re : Regexp} (hb : re.bol = false) :
    ∀ (s : List Char) (b b' : Bool), re.search b s = re.search b' s := by
  intro s
  induction s with
  | nil => intro b b'; simp [Regexp.search, Regexp.tryAt, hb]
  | cons c s ih =>
    intro b b'
    unfold Regexp.search
    simp only [Regexp.tryAt, hb, Bool.false_and, Bool.false_eq_true, if_false]

theorem search_eq_none_of_forall {re : Regexp} (hb : re.bol = false) :
    ∀ (s : List Char) (b : Bool),
      (∀ pre t, s = pre ++ t → matchItems re.items t = none) → re.search b s = none := by
  intro s
  induction s with
  | nil =>
    intro b h
    simp [Regexp.search, Regexp.tryAt, hb, h [] [] rfl]
  | cons c s ih =>
    intro b h
    unfold Regexp.search
    have h0 : re.tryAt b (c :: s) = none := by
      simpa [Regexp.tryAt, hb] using h [] (c :: s) rfl
    rw [h0]
    simp only [Option.map_eq_none']
    exact ih _ (fun pre t hs => h (c :: pre) t (by rw [hs]; rfl))

theorem search_found_nonempty {re : Regexp} (hne : re.NoEmptyMatch) {s : List Char} {b : Bool}
    {pre ps rest} (h : re.search b s = some (pre, ps, rest)) :
    ps.flatten ≠ [] ∧ rest.length < s.length := by
  obtain ⟨hs, hm⟩ := search_sound h
  have h1 := hne ps (matchItems_sound hm).1
  refine ⟨h1, ?_⟩
  rw [hs]
  have : 0 < ps.flatten.length := List.length_pos.2 h1
  simp only [List.length_append]
  omega

theorem segments_indep {re : Regexp} (hb : re.bol = false) (hne : re.NoEmptyMatch) :
    ∀ (n : Nat) (s : List Char) (b am : Bool) (n' : Nat) (b' am' : Bool),
      s.length < n → s.length < n' →
      re.segments n b am s = re.segments n' b' am' s := by
  intro n
  induction n with
  | zero => intro s b am n' b' am' h; omega
  | succ n ih =>
    intro s b am n' b' am' h h'
    cases n' with
    | zero => omega
    | succ n' =>
      unfold Regexp.segments
      rw [search_bol_irrelevant hb s b b']
      cases hs : re.search b' s with
      | none => rfl
      | some x =>
        obtain ⟨pre, ps, rest⟩ := x
        obtain ⟨h1, h2⟩ := search_found_nonempty hne hs
        simp only [if_neg h1]
        rw [ih rest _ true n' (decide (ps.flatten.getLast? = some '\n')) true (by omega) (by omega)]

theorem segments_succ_of_search_some {re : Regexp} {s : List Char} {b am : Bool} {n : Nat}
    {pre ps rest} (h : re.search b s = some (pre, ps, rest)) (h1 : ps.flatten ≠ []) :
    re.segments (n + 1) b am s =
      ((pre, ps) :: (re.segments n (decide (ps.flatten.getLast? = some '\n')) true rest).1,
        (re.segments n (decide (ps.flatten.getLast? = some '\n')) true rest).2) := by
  rw [Regexp.segments]
  simp only [h, if_neg h1]

theorem allSegments_of_search_none {re : Regexp} {s : List Char}
    (h : re.search true s = none) : re.allSegments s = ([], s) := by
  simp [Regexp.allSegments, Regexp.segments, h]

theorem allSegments_of_search_some {re : Regexp} (hb : re.bol = false) (hne : re.NoEmptyMatch)
    {s : List Char} {pre ps rest} (h : re.search true s = some (pre, ps, rest)) :
    re.allSegments s = ((pre, ps) :: (re.allSegments rest).1, (re.allSegments rest).2) := by
  obtain ⟨h1, h2⟩ := search_found_nonempty hne h
  unfold Regexp.allSegments
  rw [segments_succ_of_search_some h h1,
    segments_indep hb hne s.length rest _ true (rest.length + 1) true false h2 (by omega)]

theorem ReplaceAllStringFunc_of_search_none {re : Regexp} {s : List Char}
    (f : List Char → List Char) (h : re.search true s = none) :
    re.ReplaceAllStringFunc s f = s := by
  simp [Regexp.ReplaceAllStringFunc, allSegments_of_search_none h]

theorem ReplaceAllStringFunc_of_search_some {re : Regexp} (hb : re.bol = false)
    (hne : re.NoEmptyMatch) {s : List Char} {pre ps rest} (f : List Char → List Char)
    (h : re.search true s = some (pre, ps, rest)) :
    re.ReplaceAllStringFunc s f = pre ++ (f ps.flatten ++ re.ReplaceAllStringFunc rest f) := by
  simp [Regexp.ReplaceAllStringFunc, allSegments_of_search_some hb hne h]

theorem ReplaceAllString_of_search_none {re : Regexp} {s : List Char}
    (template : List Char) (h : re.search true s = none) :
    re.ReplaceAllString s template = s := by
  simp [Regexp.ReplaceAllString, allSegments_of_search_none h]

theorem callCount_of_search_none {re : Regexp} {s : List Char}
    (h : re.search true s = none) : re.callCount s = 0 := by
  simp [Regexp.callCount, allSegments_of_search_none h]

/-- A replacement function that returns every match as it is leaves the
text as it is. -/
theorem ReplaceAllStringFunc_id {re : Regexp} (hb : re.bol = false) (hne : re.NoEmptyMatch)
    (f : List Char → List Char)
    (hf : ∀ ps, List.Forall₂ Item.Sat re.items ps → f ps.flatten = ps.flatten) :
    ∀ s : List Char, re.ReplaceAllStringFunc s f = s := by
  intro s
  generalize hn : s.length = n
  induction n using Nat.strong_induction_on generalizing s with
  | _ n ih =>
    cases hs : re.search true s with
    | none => exact ReplaceAllStringFunc_of_search_none f hs
    | some x =>
      obtain ⟨pre, ps, rest⟩ := x
      obtain ⟨-, h2⟩ := search_found_nonempty hne hs
      obtain ⟨h3, hm⟩ := search_sound hs
      rw [ReplaceAllStringFunc_of_search_some hb hne f hs, hf ps (matchItems_sound hm).1,
        ih rest.length (by omega) rest rfl, ← h3]

end regexp

theorem IsWs.not_mem {w : List Char} (h : IsWs w) {x : Char} (hx : isReSpace x = false) :
    x ∉ w := fun hm => by
  rw [h.2 x hm] at hx
  cases hx

theorem sat_ws_lit_ws_lit {A B : List Char} {ps : List (List Char)}
    (h : List.Forall₂ Item.Sat
      [.plus isReSpace true, .lit A, .plus isReSpace true, .lit B] ps) :
    ∃ w1 w2, IsWs w1 ∧ IsWs w2 ∧ ps = [w1, A, w2, B] := by
  cases h with
  | cons h1 h =>
    cases h with
    | cons h2 h =>
      cases h with
      | cons h3 h =>
        cases h with
        | cons h4 h =>
          cases h
          cases h2
          cases h4
          exact ⟨_, _, h1, h3, rfl⟩

theorem sat_ws_lit_cls_lit_ws_lit {A B C : List Char} {p : Char → Bool}
    {ps : List (List Char)}
    (h : List.Forall₂ Item.Sat
      [.plus isReSpace true, .lit A, .plus p true, .lit B, .plus isReSpace true, .lit C] ps) :
    ∃ w1 x w2, IsWs w1 ∧ (x ≠ [] ∧ ∀ c ∈ x, p c = true) ∧ IsWs w2 ∧
      ps = [w1, A, x, B, w2, C] := by
  cases h with
  | cons h1 h =>
    cases h with
    | cons h2 h =>
      cases h with
      | cons h3 h =>
        cases h with
        | cons h4 h =>
          cases h with
          | cons h5 h =>
            cases h with
            | cons h6 h =>
              cases h
              cases h2
              cases h4
              cases h6
              exact ⟨_, _, _, h1, h3, h5, rfl⟩

theorem noEmptyMatch_of_leading_plus {p : Char → Bool} {g : Bool} {items : List Item}
    {bol : Bool} {groups : List (Nat × Nat)} :
    (Regexp.mk bol (.plus p g :: items) groups).NoEmptyMatch := by
  intro ps h
  cases h with
  | cons h1 h =>
    intro hf
    simp only [List.flatten_cons, List.append_eq_nil] at hf
    exact h1.1 hf.1

theorem isPrefix_of_not_mem {M r A B : List Char} {x : Char} (h : M ++ r = A ++ x :: B)
    (hx : x ∉ M) : M <+: A := by
  rcases List.append_eq_append_iff.1 h with ⟨a', hA, -⟩ | ⟨c', hM, hB⟩
  · exact ⟨a', hA.symm⟩
  · cases c' with
    | nil => simp only [List.append_nil] at hM; exact hM ▸ List.prefix_refl _
    | cons d c' =>
      simp only [List.cons_append, List.cons.injEq] at hB
      exact absurd (by rw [hM, hB.1]; simp) hx

theorem isPrefix_of_getLast_not_mem {M A B : List Char} {x : Char} (h : M <+: A ++ B)
    (hl : M.getLast? = some x) (hx : x ∉ B) : M <+: A := by
  obtain ⟨r, hr⟩ := h
  rcases List.append_eq_append_iff.1 hr with ⟨a', hA, -⟩ | ⟨c', hM, hB⟩
  · exact ⟨a', hA.symm⟩
  · cases c' with
    | nil => simp only [List.append_nil] at hM; exact hM ▸ List.prefix_refl _
    | cons d c' =>
      exfalso
      apply hx
      rw [hB]
      apply List.mem_append_left
      have : (d :: c').getLast? = some x := by
        rw [hM, List.getLast?_append] at hl
        cases hd : (d :: c').getLast? with
        | none => simp at hd
        | some y => rw [hd] at hl; simpa using hl
      exact List.mem_of_mem_getLast? this

theorem ReplaceFirst_of_not_infix (old new : List Char) :
    ∀ s : List Char, ¬ old <:+: s → strings.ReplaceFirst s old new = s := by
  intro s
  induction s with
  | nil =>
    intro h
    have : old.isPrefixOf [] = false := by
      cases hp : old.isPrefixOf [] with
      | false => rfl
      | true => exact absurd (List.isPrefixOf_iff_prefix.1 hp).isInfix h
    simp [strings.ReplaceFirst, this]
  | cons c s ih =>
    intro h
    have : old.isPrefixOf (c :: s) = false := by
      cases hp : old.isPrefixOf (c :: s) with
      | false => rfl
      | true => exact absurd (List.isPrefixOf_iff_prefix.1 hp).isInfix h
    unfold strings.ReplaceFirst
    simp only [this, Bool.false_eq_true, if_false]
    rw [ih (fun hi => h (List.infix_cons hi))]

/-- The first replacement function of `annotate` on a match of its
expression: the new text is put in the place of `SELECT 1;`. -/
theorem ReplaceFirst_select1 (w1 y new : List Char) (h1 : ∀ c ∈ w1, isReSpace c = true) :
    strings.ReplaceFirst (w1 ++ ("query: SELECT 1;".toList ++ y)) "SELECT 1;".toList new =
      w1 ++ ("query: ".toList ++ (new ++ y)) := by
  induction w1 with
  | nil =>
    simp [strings.ReplaceFirst, List.isPrefixOf]
  | cons c w1 ih =>
    have hc : c ≠ 'S' := by
      rintro rfl
      exact absurd (h1 _ (List.mem_cons_self _ _)) (by decide)
    have hp : "SELECT 1;".toList.isPrefixOf (c :: (w1 ++ ("query: SELECT 1;".toList ++ y))) = false := by
      simp [List.isPrefixOf, Ne.symm hc]
    simp only [List.cons_append]
    unfold strings.ReplaceFirst
    simp only [hp, Bool.false_eq_true, if_false]
    rw [ih (fun d hd => h1 d (List.mem_cons_of_mem _ hd))]

/-- Facts on the text of a match of `select1Pattern`. -/
theorem select1_match_text {v1 v2 : List Char} (h1 : IsWs v1) (h2 : IsWs v2) :
    '#' ∉ v1 ++ ("query: SELECT 1;".toList ++ (v2 ++ "purpose: Informational".toList)) ∧
    (v1 ++ ("query: SELECT 1;".toList ++ (v2 ++ "purpose: Informational".toList))).getLast? =
      some 'l' ∧
    'l' ∉ v1 ++ "query: SELECT 1".toList := by
  refine ⟨?_, ?_, ?_⟩
  · simp only [List.mem_append, not_or]
    exact ⟨h1.not_mem (by decide), by decide, h2.not_mem (by decide), by decide⟩
  · rw [← List.append_assoc, ← List.append_assoc, List.getLast?_append]
    rfl
  · simp only [List.mem_append, not_or]
    exact ⟨h1.not_mem (by decide), by decide⟩

/-- After the first rewrite of `annotate`, its expression matches nowhere. -/
theorem select1_no_match_after (c : List Char) :
    ∀ u t, select1Pattern.ReplaceAllStringFunc c (fun m =>
        strings.ReplaceFirst m "SELECT 1;".toList
          "SELECT 1;  # TODO: Replace with specific query for this policy".toList) = u ++ t →
      matchItems select1Pattern.items t = none := by
  generalize hn : c.length = n
  induction n using Nat.strong_induction_on generalizing c with
  | _ n ih =>
    have hne : select1Pattern.NoEmptyMatch := noEmptyMatch_of_leading_plus
    cases hs : select1Pattern.search true c with
    | none =>
      rw [ReplaceAllStringFunc_of_search_none _ hs]
      exact search_eq_none rfl hs
    | some x =>
      obtain ⟨pre, ps, rest⟩ := x
      obtain ⟨-, hlen⟩ := search_found_nonempty hne hs
      obtain ⟨hc, hm⟩ := search_sound hs
      obtain ⟨w1, w2, hw1, hw2, rfl⟩ := sat_ws_lit_ws_lit (matchItems_sound hm).1
      have hleft := search_leftmost rfl hs
      have IH := ih rest.length (by omega) rest rfl
      rw [ReplaceAllStringFunc_of_search_some rfl hne _ hs]
      have hflat : ([w1, "query: SELECT 1;".toList, w2, "purpose: Informational".toList] :
          List (List Char)).flatten =
          w1 ++ ("query: SELECT 1;".toList ++ (w2 ++ "purpose: Informational".toList)) := by
        simp
      simp only [hflat] at hc hleft ⊢
      rw [ReplaceFirst_select1 _ _ _ hw1.2]
      intro u t hT
      rw [matchItems_eq_none_iff]
      intro ps' r' hsat' ht
      obtain ⟨v1, v2, hv1, hv2, rfl⟩ := sat_ws_lit_ws_lit hsat'
      have hflat' : ([v1, "query: SELECT 1;".toList, v2, "purpose: Informational".toList] :
          List (List Char)).flatten =
          v1 ++ ("query: SELECT 1;".toList ++ (v2 ++ "purpose: Informational".toList)) := by
        simp
      rw [hflat'] at ht
      obtain ⟨hM1, hM2, hM3⟩ := select1_match_text hv1 hv2
      subst ht
      have hmatch : ∀ r'', matchItems select1Pattern.items
          (v1 ++ ("query: SELECT 1;".toList ++ (v2 ++ "purpose: Informational".toList)) ++ r'') ≠
          none := by
        intro r'' hnone
        exact matchItems_eq_none_iff.1 hnone _ r'' hsat' (by rw [hflat'])
      have hMne : v1 ++ ("query: SELECT 1;".toList ++ (v2 ++ "purpose: Informational".toList)) ≠
          [] := by
        intro h
        exact hv1.1 (List.append_eq_nil.1 h).1
      have hMl : 'l' ∈ v1 ++ ("query: SELECT 1;".toList ++
          (v2 ++ "purpose: Informational".toList)) := List.mem_of_mem_getLast? hM2
      have hT' : (pre ++ (w1 ++ "query: SELECT 1;  ".toList)) ++
          '#' :: ((" TODO: Replace with specific query for this policy".toList ++
            (w2 ++ "purpose: Informational".toList)) ++
            select1Pattern.ReplaceAllStringFunc rest (fun m =>
              strings.ReplaceFirst m "SELECT 1;".toList
                "SELECT 1;  # TODO: Replace with specific query for this policy".toList)) =
          u ++ (v1 ++ ("query: SELECT 1;".toList ++ (v2 ++ "purpose: Informational".toList)) ++
            r') := by
        rw [← hT]
        simp
      have hW : 'l' ∉ w1 ++ "query: SELECT 1;  ".toList := by
        simp only [List.mem_append, not_or]
        exact ⟨hw1.not_mem (by decide), by decide⟩
      have hB : ';' ∉ " TODO: Replace with specific query for this policy".toList ++
          (w2 ++ "purpose: Informational".toList) := by
        simp only [List.mem_append, not_or]
        exact ⟨by decide, hw2.not_mem (by decide), by decide⟩
      have hBl : (" TODO: Replace with specific query for this policy".toList ++
          (w2 ++ "purpose: Informational".toList)).getLast? = some 'l' := by
        rw [← List.append_assoc, List.getLast?_append]
        rfl
      rcases List.append_eq_append_iff.1 hT' with ⟨a', -, hrest⟩ | ⟨c', hA, ht'⟩
      · -- the position is at or after the marker
        cases a' with
        | nil =>
          cases hv : v1 with
          | nil => exact hv1.1 hv
          | cons d v1' =>
            rw [hv] at hrest hM1
            simp only [List.nil_append, List.cons_append, List.cons.injEq] at hrest
            exact hM1 (by rw [← hrest.1]; simp)
        | cons d a'' =>
          simp only [List.cons_append, List.cons.injEq] at hrest
          rcases List.append_eq_append_iff.1 hrest.2 with ⟨x, -, hR⟩ | ⟨y, hy, hMy⟩
          · -- inside the rewrite of the rest of the text
            exact hmatch r' (IH x _ hR)
          · -- inside the rest of the rewritten match
            cases y with
            | nil =>
              simp only [List.nil_append] at hMy
              exact hmatch r' (IH [] _ hMy.symm)
            | cons e y' =>
              have hyl : 'l' ∈ e :: y' := by
                apply List.mem_of_mem_getLast?
                rw [hy, List.getLast?_append] at hBl
                cases hd : (e :: y').getLast? with
                | none => simp at hd
                | some z => rw [hd] at hBl; simpa using hBl
              have hys : ';' ∉ e :: y' := fun hm => hB (by rw [hy]; exact List.mem_append_right _ hm)
              have hsplit : (e :: y') ++ select1Pattern.ReplaceAllStringFunc rest (fun m =>
                  strings.ReplaceFirst m "SELECT 1;".toList
                    "SELECT 1;  # TODO: Replace with specific query for this policy".toList) =
                  (v1 ++ "query: SELECT 1".toList) ++
                    ';' :: ((v2 ++ "purpose: Informational".toList) ++ r') := by
                rw [← hMy]
                simp
              obtain ⟨z, hz⟩ := isPrefix_of_not_mem hsplit hys
              exact hM3 (by rw [← hz]; exact List.mem_append_left _ hyl)
      · -- the position is before the marker
        obtain ⟨z, hz⟩ := isPrefix_of_not_mem ht' hM1
        rcases List.append_eq_append_iff.1 hA with ⟨a2, -, hW2⟩ | ⟨p', hp, hc'⟩
        · exact hW (by rw [hW2, ← hz]; exact List.mem_append_right _ (List.mem_append_left _ hMl))
        · have hpre : v1 ++ ("query: SELECT 1;".toList ++
              (v2 ++ "purpose: Informational".toList)) <+: p' :=
            isPrefix_of_getLast_not_mem (hc' ▸ ⟨z, hz⟩) hM2 hW
          obtain ⟨z', hz'⟩ := hpre
          have hlt : u.length < pre.length := by
            rw [hp, ← hz']
            have := List.length_pos.2 hMne
            simp only [List.length_append] at this ⊢
            omega
          refine hmatch (z' ++ (w1 ++ ("query: SELECT 1;".toList ++
            (w2 ++ "purpose: Informational".toList)) ++ rest)) (hleft u _ ?_ hlt)
          rw [hc, hp, ← hz']
          simp

theorem count_eq_zero_of_ws {w : List Char} (h : IsWs w) {x : Char}
    (hx : isReSpace x = false) : w.count x = 0 :=
  List.count_eq_zero_of_not_mem (h.not_mem hx)

/-- The second replacement function of `annotate` looks for the text of its
own expression, which has two `%`, in a match, which has one: it returns every
match as it is. -/
theorem filePath_replacement_id (ps : List (List Char))
    (h : List.Forall₂ Item.Sat filePathPattern.items ps) :
    strings.ReplaceFirst ps.flatten "SELECT 1 FROM file WHERE path LIKE '/[^%]+%';".toList
      ("SELECT 1 FROM file WHERE path LIKE '/[^%]+%';" ++
        "  # TODO: Replace with specific file validation query").toList = ps.flatten := by
  apply ReplaceFirst_of_not_infix
  intro hin
  obtain ⟨w1, x, w2, hw1, hx, hw2, rfl⟩ := sat_ws_lit_cls_lit_ws_lit h
  have hle := hin.sublist.count_le '%'
  have hx0 : x.count '%' = 0 := by
    apply List.count_eq_zero_of_not_mem
    intro hm
    simpa using hx.2 _ hm
  have h1 : List.count '%' "SELECT 1 FROM file WHERE path LIKE '/[^%]+%';".toList = 2 := by
    decide
  have h2 : List.count '%' "query: SELECT 1 FROM file WHERE path LIKE '/".toList = 0 := by
    decide
  have h3 : List.count '%' "%';".toList = 1 := by decide
  have h4 : List.count '%' "purpose: Informational".toList = 0 := by decide
  simp only [List.flatten_cons, List.flatten_nil, List.count_append, List.count_nil, h1, h2, h3,
    h4, hx0, count_eq_zero_of_ws hw1 (x := '%') (by decide),
    count_eq_zero_of_ws hw2 (x := '%') (by decide)] at hle
  omega

/-- The third replacement function of `annotate` looks for the text of its
own expression, which has three `%`, in a match, which has two. -/
theorem launchd_replacement_id (ps : List (List Char))
    (h : List.Forall₂ Item.Sat launchdPattern.items ps) :
    strings.ReplaceFirst ps.flatten "SELECT 1 FROM launchd WHERE name LIKE '%[^%]+%';".toList
      ("SELECT 1 FROM launchd WHERE name LIKE '%[^%]+%';" ++
        "  # TODO: Replace with specific service validation query").toList = ps.flatten := by
  apply ReplaceFirst_of_not_infix
  intro hin
  obtain ⟨w1, x, w2, hw1, hx, hw2, rfl⟩ := sat_ws_lit_cls_lit_ws_lit h
  have hle := hin.sublist.count_le '%'
  have hx0 : x.count '%' = 0 := by
    apply List.count_eq_zero_of_not_mem
    intro hm
    simpa using hx.2 _ hm
  have h1 : List.count '%' "SELECT 1 FROM launchd WHERE name LIKE '%[^%]+%';".toList = 3 := by
    decide
  have h2 : List.count '%' "query: SELECT 1 FROM launchd WHERE name LIKE '%".toList = 1 := by
    decide
  have h3 : List.count '%' "%';".toList = 1 := by decide
  have h4 : List.count '%' "purpose: Informational".toList = 0 := by decide
  simp only [List.flatten_cons, List.flatten_nil, List.count_append, List.count_nil, h1, h2, h3,
    h4, hx0, count_eq_zero_of_ws hw1 (x := '%') (by decide),
    count_eq_zero_of_ws hw2 (x := '%') (by decide)] at hle
  omega

/-- Only the first of the three rewrites of `annotate` changes the text. -/
theorem annotate_text (c : List Char) :
    (annotate c).2 = select1Pattern.ReplaceAllStringFunc c (fun m =>
      strings.ReplaceFirst m "SELECT 1;".toList
        "SELECT 1;  # TODO: Replace with specific query for this policy".toList) := by
  unfold annotate
  simp only
  rw [@ReplaceAllStringFunc_id launchdPattern rfl noEmptyMatch_of_leading_plus _
    launchd_replacement_id,
    @ReplaceAllStringFunc_id filePathPattern rfl noEmptyMatch_of_leading_plus _
    filePath_replacement_id]

theorem annotate_count (c : List Char) :
    (annotate c).1 = select1Pattern.callCount c + filePathPattern.callCount (annotate c).2 +
      launchdPattern.callCount (annotate c).2 := by
  rw [annotate_text]
  unfold annotate
  simp only [Nat.zero_add]
  rw [@ReplaceAllStringFunc_id filePathPattern rfl noEmptyMatch_of_leading_plus _
    filePath_replacement_id]

theorem search_none_of_callCount_zero {re : Regexp} (hb : re.bol = false)
    (hne : re.NoEmptyMatch) {s : List Char} (h : re.callCount s = 0) :
    re.search true s = none := by
  cases hs : re.search true s with
  | none => rfl
  | some x =>
    obtain ⟨pre, ps, rest⟩ := x
    rw [Regexp.callCount, allSegments_of_search_some hb hne hs] at h
    simp at h

/-- The content of the file after `FixGenericQueries` is the text after the
first rewrite, whether the file is written or not. -/
theorem FixGenericQueries_text (c : List Char) :
    (FixGenericQueries c).2 = select1Pattern.ReplaceAllStringFunc c (fun m =>
      strings.ReplaceFirst m "SELECT 1;".toList
        "SELECT 1;  # TODO: Replace with specific query for this policy".toList) := by
  unfold FixGenericQueries
  by_cases h : (annotate c).1 > 0
  · simp only [if_pos h, annotate_text]
  · simp only [if_neg h]
    have h0 : select1Pattern.callCount c = 0 := by
      have := annotate_count c
      omega
    exact (@ReplaceAllStringFunc_of_search_none select1Pattern c _
      (search_none_of_callCount_zero rfl noEmptyMatch_of_leading_plus h0)).symm

/-- C5: the placeholder annotation pass is idempotent on the content of the
file: `FixGenericQueries` applied to the file it has rewritten leaves the
same content, and on this second run the function that annotates the trivial
placeholder is never called. -/
theorem C5_annotation_idempotent (c : List Char) :
    (FixGenericQueries (FixGenericQueries c).2).2 = (FixGenericQueries c).2 ∧
      select1Pattern.callCount (FixGenericQueries c).2 = 0 := by
  have hnone : select1Pattern.search true (FixGenericQueries c).2 = none := by
    apply search_eq_none_of_forall rfl
    intro pre t hs
    rw [FixGenericQueries_text] at hs
    exact select1_no_match_after c pre t hs
  refine ⟨?_, callCount_of_search_none hnone⟩
  rw [FixGenericQueries_text (FixGenericQueries c).2]
  exact ReplaceAllStringFunc_of_search_none _ hnone

namespace strings

end strings

set_option maxRecDepth 1000000 in
/-- C6, the code at the failing inputs: a record with an unqualified
file-path wildcard query, or with an unqualified service-name wildcard query,
followed by `purpose: Informational`, is counted as changed but gets no marker
comment: the file is written back with the same content. In general the
content after `FixGenericQueries` is the content after its first rewrite
alone, the one of the trivial placeholder, which does get its marker. -/
theorem C6_wildcard_queries_not_annotated :
    FixGenericQueries
        ("spec:\n    name: macOS Security - Audit files\n" ++
          "    query: SELECT 1 FROM file WHERE path LIKE '/etc/%';\n" ++
          "    purpose: Informational\n").toList =
      (1, ("spec:\n    name: macOS Security - Audit files\n" ++
          "    query: SELECT 1 FROM file WHERE path LIKE '/etc/%';\n" ++
          "    purpose: Informational\n").toList) ∧
    FixGenericQueries
        ("spec:\n    name: macOS Security - Audit service\n" ++
          "    query: SELECT 1 FROM launchd WHERE name LIKE '%audit%';\n" ++
          "    purpose: Informational\n").toList =
      (1, ("spec:\n    name: macOS Security - Audit service\n" ++
          "    query: SELECT 1 FROM launchd WHERE name LIKE '%audit%';\n" ++
          "    purpose: Informational\n").toList) ∧
    FixGenericQueries
        ("spec:\n    name: macOS Security - Some rule\n" ++
          "    query: SELECT 1;\n" ++
          "    purpose: Informational\n").toList =
      (1, ("spec:\n    name: macOS Security - Some rule\n" ++
          "    query: SELECT 1;  # TODO: Replace with specific query for this policy\n" ++
          "    purpose: Informational\n").toList) ∧
    ∀ c, (FixGenericQueries c).2 = select1Pattern.ReplaceAllStringFunc c (fun m =>
      strings.ReplaceFirst m "SELECT 1;".toList
        "SELECT 1;  # TODO: Replace with specific query for this policy".toList) :=
  ⟨by decide, by decide, by decide, FixGenericQueries_text⟩

theorem noEmptyMatch_of_leading_lit {w : List Char} (hw : w ≠ []) {items : List Item}
    {bol : Bool} {groups : List (Nat × Nat)} :
    (Regexp.mk bol (.lit w :: items) groups).NoEmptyMatch := by
  intro ps h
  cases h with
  | cons h1 h =>
    intro hf
    simp only [List.flatten_cons, List.append_eq_nil] at hf
    cases h1
    exact hw hf.1

theorem policyPattern_noEmptyMatch : policyPattern.NoEmptyMatch :=
  noEmptyMatch_of_leading_lit (by decide)

theorem flatMap_congr_mem {α β : Type} {l : List α} {f g : α → List β}
    (h : ∀ x ∈ l, f x = g x) : l.flatMap f = l.flatMap g := by
  induction l with
  | nil => rfl
  | cons a l ih =>
    rw [List.flatMap_cons, List.flatMap_cons, h a (List.mem_cons_self _ _),
      ih (fun x hx => h x (List.mem_cons_of_mem _ hx))]

/-! ## The Unicode case table plays no part on ASCII texts -/

theorem ToLower_ascii (lowerCase lowerCase' : Char → Char) {s : List Char}
    (h : ∀ x ∈ s, x.toNat ≤ 0x7F) :
    strings.ToLower lowerCase s = strings.ToLower lowerCase' s := by
  unfold strings.ToLower
  apply List.map_congr_left
  intro x hx
  unfold strings.toLowerRune
  rw [if_pos (h x hx), if_pos (h x hx)]

theorem mem_of_mem_submatch {ps : List (List Char)} {g : Nat × Nat} {x : Char}
    (h : x ∈ submatch ps g) : x ∈ ps.flatten := by
  unfold submatch at h
  obtain ⟨l, hl, hx⟩ := List.mem_flatten.1 h
  exact List.mem_flatten.2 ⟨l, List.mem_of_mem_drop (List.mem_of_mem_take hl), hx⟩

theorem fixPolicyMatch_ascii (lowerCase lowerCase' : Char → Char)
    (queryMappings : List QueryMapping) {m : List Char} (h : ∀ x ∈ m, x.toNat ≤ 0x7F) :
    fixPolicyMatch lowerCase queryMappings m = fixPolicyMatch lowerCase' queryMappings m := by
  unfold fixPolicyMatch
  cases hf : policyPattern.FindStringSubmatch m with
  | none => rfl
  | some l =>
    simp only [Regexp.FindStringSubmatch, Option.map_eq_some'] at hf
    obtain ⟨⟨pre, ps, rest⟩, hs, rfl⟩ := hf
    obtain ⟨hm, -⟩ := search_sound hs
    have e : strings.ToLower lowerCase (submatch ps (1, 1)) =
        strings.ToLower lowerCase' (submatch ps (1, 1)) :=
      ToLower_ascii _ _ (fun x hx => h x (by rw [hm]; simp [mem_of_mem_submatch hx]))
    simp only [policyPattern, List.map_cons, List.map_nil]
    rw [e]

theorem mem_of_mem_segment {re : Regexp} (hb : re.bol = false) (hne : re.NoEmptyMatch)
    {c : List Char} {seg : List Char × List (List Char)} {x : Char}
    (hseg : seg ∈ (re.allSegments c).1) (hx : x ∈ seg.2.flatten) : x ∈ c := by
  have hid := ReplaceAllStringFunc_id hb hne (fun m => m) (fun _ _ => rfl) c
  rw [← hid]
  unfold Regexp.ReplaceAllStringFunc
  apply List.mem_append_left
  rw [List.mem_flatMap]
  exact ⟨seg, hseg, List.mem_append_right _ hx⟩

theorem fixPolicyContent_ascii (lowerCase lowerCase' : Char → Char)
    (queryMappings : List QueryMapping) {c : List Char} (h : ∀ x ∈ c, x.toNat ≤ 0x7F) :
    fixPolicyContent lowerCase queryMappings c = fixPolicyContent lowerCase' queryMappings c := by
  have hseg : ∀ seg ∈ (policyPattern.allSegments c).1,
      fixPolicyMatch lowerCase queryMappings seg.2.flatten =
        fixPolicyMatch lowerCase' queryMappings seg.2.flatten := fun seg hs =>
    fixPolicyMatch_ascii _ _ _
      (fun x hx => h x (mem_of_mem_segment rfl policyPattern_noEmptyMatch hs hx))
  unfold fixPolicyContent
  congr 1
  · congr 1
    apply List.filter_congr
    intro seg hs
    rw [hseg seg hs]
  · unfold Regexp.ReplaceAllStringFunc
    congr 1
    apply flatMap_congr_mem
    intro seg hs
    simp only
    rw [hseg seg hs]

set_option maxRecDepth 1000000 in
/-- C8, the code at the failing input: the record named `Ask for password`
with the structured query of the screen saver key contains `FROM` and is not
the trivial placeholder, yet `FixPolicyQueries` replaces its query by the query
of the catch-all mapping and counts one change, because the query contains the
text `SELECT 1`. The text is ASCII, so this holds with every Unicode case
table. -/
theorem C8_specific_query_overwritten :
    ∀ lowerCase, FixPolicyQueries lowerCase
        ("apiVersion: v1\nkind: policy\nspec:\n    name: Ask for password\n" ++
          "    platform: darwin\n" ++
          "    query: SELECT 1 WHERE EXISTS (SELECT 1 FROM managed_policies WHERE " ++
          "domain='com.apple.screensaver' AND name='askForPassword' AND " ++
          "(value = 1 OR value = 'true'));\n" ++
          "    purpose: Informational\n---\n").toList =
      (1, ("apiVersion: v1\nkind: policy\nspec:\n    name: Ask for password\n" ++
          "    platform: darwin\n" ++
          "    query: SELECT 1 FROM managed_policies WHERE " ++
          "domain = 'com.apple.applicationaccess';\n" ++
          "    purpose: Informational\n---\n").toList) := by
  intro lowerCase
  have h : FixPolicyQueries lowerCase
      ("apiVersion: v1\nkind: policy\nspec:\n    name: Ask for password\n" ++
        "    platform: darwin\n" ++
        "    query: SELECT 1 WHERE EXISTS (SELECT 1 FROM managed_policies WHERE " ++
        "domain='com.apple.screensaver' AND name='askForPassword' AND " ++
        "(value = 1 OR value = 'true'));\n" ++
        "    purpose: Informational\n---\n").toList =
      FixPolicyQueries (fun c => c)
        ("apiVersion: v1\nkind: policy\nspec:\n    name: Ask for password\n" ++
          "    platform: darwin\n" ++
          "    query: SELECT 1 WHERE EXISTS (SELECT 1 FROM managed_policies WHERE " ++
          "domain='com.apple.screensaver' AND name='askForPassword' AND " ++
          "(value = 1 OR value = 'true'));\n" ++
          "    purpose: Informational\n---\n").toList := by
    unfold FixPolicyQueries
    rw [fixPolicyContent_ascii lowerCase (fun c => c) _ (by decide)]
  rw [h]
  decide

set_option maxRecDepth 1000000 in
/-- C9, the code at the failing inputs: each of the three substitutions of
`FixAuditQueries` removes the marker comment but keeps the `;` that ends the
placeholder and appends its template after it, so that the resulting query
has a `;` in the middle. -/
theorem C9_substitution_keeps_semicolon :
    FixAuditQueries
        ("    query: SELECT 1;  # TODO: Replace with specific query for this policy\n" ++
          "    purpose: Informational\n").toList =
      ("    query: SELECT 1; FROM file WHERE (path LIKE '/var/audit/%' OR " ++
        "path LIKE '/etc/security/%') AND extended_attributes LIKE '%com.apple.acl%';\n" ++
        "    purpose: Informational\n").toList ∧
    FixAuditQueries
        ("    query: SELECT 1 FROM file WHERE path LIKE '/var/audit/%';" ++
          "  # TODO: Replace with specific file validation query\n" ++
          "    purpose: Informational\n").toList =
      ("    query: SELECT 1 FROM file WHERE path LIKE '/var/audit/%'; AND type = 'directory' " ++
        "AND extended_attributes LIKE '%com.apple.acl%';\n" ++
        "    purpose: Informational\n").toList ∧
    FixAuditQueries
        ("    query: SELECT 1 FROM launchd WHERE name LIKE '%audit%';" ++
          "  # TODO: Replace with specific service validation query\n" ++
          "    purpose: Informational\n").toList =
      ("    query: SELECT 1 FROM launchd WHERE name LIKE '%audit%'; AND state = 'running';\n" ++
        "    purpose: Informational\n").toList := by
  decide

theorem not_structuralFires_of_no_osascript {s : List Char}
    (h : strings.Contains s "osascript".toList = false) : ¬ StructuralFires s := fun hf =>
  strings.Contains_eq_false_iff.1 h hf.1

theorem decide_isInfix_eq_Contains (sub s : List Char) :
    decide (sub <:+: s) = strings.Contains s sub := by
  cases h : strings.Contains s sub with
  | true => simpa using strings.Contains_iff.1 h
  | false => simpa using strings.Contains_eq_false_iff.1 h

/-- C14: when the structural tier does not fire, `ConvertCheckToQuery` gives
the query of the first signal present in the priority order of
`heuristicSignals` (five signals on the script, then three on the
identifier), and the trivial placeholder when none is present. -/
theorem C14_first_signal_decides (s id : List Char) (h : ¬ StructuralFires s) :
    ConvertCheckToQuery s id =
      (firstSignal (heuristicSignals s id)).getD "SELECT 1;".toList := by
  have hcons : ∀ (b : Bool) (q : List Char) (rest : List (Bool × List Char)),
      firstSignal ((b, q) :: rest) = if b = true then some q else firstSignal rest := by
    intro b q rest
    cases b <;> rfl
  have haud : ∀ a b : List Char, (if "audit".toList <:+: id then a else b) =
      if strings.Contains id "audit".toList = true then a else b := by
    intro a b
    by_cases ha : "audit".toList <:+: id
    · rw [if_pos ha, if_pos (strings.Contains_iff.2 ha)]
    · rw [if_neg ha, if_neg (fun hc => ha (strings.Contains_iff.1 hc))]
  unfold ConvertCheckToQuery
  rw [structuralExtraction_eq_none_iff.2 h]
  simp only [heuristicSignals, hcons, decide_isInfix_eq_Contains, haud]
  by_cases h1 : (strings.Contains s "/etc/".toList || strings.Contains s "/var/".toList) = true
  · simp only [h1, if_true, Option.getD_some]
    split_ifs <;> rfl
  · simp only [h1, Bool.false_eq_true, if_false]
    by_cases h2 : strings.Contains s "launchctl".toList = true
    · simp only [h2, if_true, Option.getD_some]
    · simp only [h2, Bool.false_eq_true, if_false]
      by_cases h3 : strings.Contains s "system_profiler".toList = true
      · simp only [h3, if_true, Option.getD_some]
      · simp only [h3, Bool.false_eq_true, if_false]
        by_cases h4 : strings.Contains s "softwareupdate".toList = true
        · simp only [h4, if_true, Option.getD_some]
        · simp only [h4, Bool.false_eq_true, if_false]
          by_cases h5 : strings.Contains s "defaults".toList = true
          · simp only [h5, if_true, Option.getD_some]
          · simp only [h5, Bool.false_eq_true, if_false]
            by_cases h6 : strings.Contains id "firewall".toList = true
            · simp only [h6, if_true, Option.getD_some]
            · simp only [h6, Bool.false_eq_true, if_false]
              by_cases h7 : strings.Contains id "gatekeeper".toList = true
              · simp only [h7, if_true, Option.getD_some]
              · simp only [h7, Bool.false_eq_true, if_false]
                by_cases h8 : strings.Contains id "filevault".toList = true
                · simp only [h8, if_true, Option.getD_some]
                · simp only [h8, Bool.false_eq_true, if_false, firstSignal, Option.getD_none]

set_option maxRecDepth 100000 in
/-- C14, witness: a script that reads a preference with `defaults`, for a
rule whose identifier contains `firewall`: the script signal wins. -/
theorem C14_first_signal_decides_witness :
    ¬ StructuralFires "/usr/bin/defaults read /Library/Preferences/com.apple.alf".toList ∧
      ConvertCheckToQuery "/usr/bin/defaults read /Library/Preferences/com.apple.alf".toList
          "os_firewall_enable".toList =
        (firstSignal (heuristicSignals
          "/usr/bin/defaults read /Library/Preferences/com.apple.alf".toList
          "os_firewall_enable".toList)).getD "SELECT 1;".toList ∧
      (firstSignal (heuristicSignals
          "/usr/bin/defaults read /Library/Preferences/com.apple.alf".toList
          "os_firewall_enable".toList)).getD "SELECT 1;".toList =
        "SELECT 1 FROM managed_policies;".toList :=
  have h := not_structuralFires_of_no_osascript
    (s := "/usr/bin/defaults read /Library/Preferences/com.apple.alf".toList) (by decide)
  ⟨h, C14_first_signal_decides _ _ h, by decide⟩

/-- C17: for a rule identifier without `audit` and two check scripts that
both contain `/etc/` or `/var/` and on which the structural tier does not
fire, `ConvertCheckToQuery` gives the same generic file query for both,
whatever else the scripts contain (`chmod`, `chown` or neither). -/
theorem C17_permission_verbs_ignored (id s₁ s₂ : List Char)
    (hid : ¬ "audit".toList <:+: id)
    (h₁ : "/etc/".toList <:+: s₁ ∨ "/var/".toList <:+: s₁)
    (h₂ : "/etc/".toList <:+: s₂ ∨ "/var/".toList <:+: s₂)
    (hf₁ : ¬ StructuralFires s₁) (hf₂ : ¬ StructuralFires s₂) :
    ConvertCheckToQuery s₁ id =
        "SELECT 1 FROM file WHERE path LIKE '/etc/%' OR path LIKE '/var/%';".toList ∧
      ConvertCheckToQuery s₂ id =
        "SELECT 1 FROM file WHERE path LIKE '/etc/%' OR path LIKE '/var/%';".toList ∧
      ConvertCheckToQuery s₁ id = ConvertCheckToQuery s₂ id := by
  have key : ∀ s, ("/etc/".toList <:+: s ∨ "/var/".toList <:+: s) → ¬ StructuralFires s →
      ConvertCheckToQuery s id =
        "SELECT 1 FROM file WHERE path LIKE '/etc/%' OR path LIKE '/var/%';".toList := by
    intro s hs hf
    unfold ConvertCheckToQuery
    rw [structuralExtraction_eq_none_iff.2 hf]
    have hp : (strings.Contains s "/etc/".toList || strings.Contains s "/var/".toList) = true := by
      rw [Bool.or_eq_true, strings.Contains_iff, strings.Contains_iff]
      exact hs
    have ha : strings.Contains id "audit".toList = false :=
      strings.Contains_eq_false_iff.2 hid
    simp only [hp, ha, if_true, Bool.false_eq_true, if_false]
    split_ifs <;> rfl
  exact ⟨key s₁ h₁ hf₁, key s₂ h₂ hf₂, (key s₁ h₁ hf₁).trans (key s₂ h₂ hf₂).symm⟩

set_option maxRecDepth 100000 in
/-- C17, witness: a script with `chmod` and a script with neither verb. -/
theorem C17_permission_verbs_ignored_witness :
    ¬ "audit".toList <:+: "os_sudoers_timestamp_type_configure".toList ∧
      ("/etc/".toList <:+: "/bin/chmod 440 /etc/sudoers.d/mscp".toList ∨
        "/var/".toList <:+: "/bin/chmod 440 /etc/sudoers.d/mscp".toList) ∧
      ("/etc/".toList <:+: "/usr/bin/stat -f %A /var/db/sudo".toList ∨
        "/var/".toList <:+: "/usr/bin/stat -f %A /var/db/sudo".toList) ∧
      ¬ StructuralFires "/bin/chmod 440 /etc/sudoers.d/mscp".toList ∧
      ¬ StructuralFires "/usr/bin/stat -f %A /var/db/sudo".toList ∧
      (ConvertCheckToQuery "/bin/chmod 440 /etc/sudoers.d/mscp".toList
          "os_sudoers_timestamp_type_configure".toList =
        "SELECT 1 FROM file WHERE path LIKE '/etc/%' OR path LIKE '/var/%';".toList ∧
      ConvertCheckToQuery "/usr/bin/stat -f %A /var/db/sudo".toList
          "os_sudoers_timestamp_type_configure".toList =
        "SELECT 1 FROM file WHERE path LIKE '/etc/%' OR path LIKE '/var/%';".toList ∧
      ConvertCheckToQuery "/bin/chmod 440 /etc/sudoers.d/mscp".toList
          "os_sudoers_timestamp_type_configure".toList =
        ConvertCheckToQuery "/usr/bin/stat -f %A /var/db/sudo".toList
          "os_sudoers_timestamp_type_configure".toList) :=
  have hid : ¬ "audit".toList <:+: "os_sudoers_timestamp_type_configure".toList :=
    strings.Contains_eq_false_iff.1 (by decide)
  have h₁ : "/etc/".toList <:+: "/bin/chmod 440 /etc/sudoers.d/mscp".toList ∨
      "/var/".toList <:+: "/bin/chmod 440 /etc/sudoers.d/mscp".toList :=
    Or.inl (strings.Contains_iff.1 (by decide))
  have h₂ : "/etc/".toList <:+: "/usr/bin/stat -f %A /var/db/sudo".toList ∨
      "/var/".toList <:+: "/usr/bin/stat -f %A /var/db/sudo".toList :=
    Or.inr (strings.Contains_iff.1 (by decide))
  have hf₁ := not_structuralFires_of_no_osascript
    (s := "/bin/chmod 440 /etc/sudoers.d/mscp".toList) (by decide)
  have hf₂ := not_structuralFires_of_no_osascript
    (s := "/usr/bin/stat -f %A /var/db/sudo".toList) (by decide)
  ⟨hid, h₁, h₂, hf₁, hf₂, C17_permission_verbs_ignored _ _ _ hid h₁ h₂ hf₁ hf₂⟩

theorem firstOfArray_not_string {m : List (List Char × Value)} {key : List Char} {x : Value}
    {xs : List Value} (hl : m.lookup key = some (.slice (x :: xs))) (hx : ¬ ∃ b, x = .str b) :
    firstOfArray m key = .error () := by
  unfold firstOfArray
  rw [hl]
  cases x with
  | str b => exact absurd ⟨b, rfl⟩ hx
  | _ => rfl

theorem cisReferences_malformed {rule : Rule} (h : ¬ WellFormedReferences rule.References) :
    cisReferences rule = .error () := by
  unfold WellFormedReferences at h
  push_neg at h
  obtain ⟨cis, hcis, key, hkey, x, xs, hl, hx⟩ := h
  have hx' : ¬ ∃ b, x = .str b := fun ⟨b, hb⟩ => hx b hb
  unfold cisReferences
  rw [hcis]
  rcases hkey with rfl | rfl
  · simp only [firstOfArray_not_string hl hx']
    rfl
  · simp only [firstOfArray_not_string hl hx']
    cases firstOfArray cis "benchmark".toList with
    | error e => rfl
    | ok b => rfl

/-- `CreateFleetPolicy` panics exactly on the rules whose reference map is
not well formed. -/
theorem CreateFleetPolicy_error_iff (rule : Rule) (baselineName : List Char) :
    CreateFleetPolicy (some rule) baselineName = .error () ↔
      ¬ WellFormedReferences rule.References := by
  constructor
  · intro he hwf
    obtain ⟨b, l, hc, -, -⟩ := cisReferences_wellFormed hwf
    dsimp only [CreateFleetPolicy] at he
    rw [hc] at he
    cases he
  · intro h
    dsimp only [CreateFleetPolicy]
    rw [cisReferences_malformed h]
    rfl

set_option maxRecDepth 100000 in
/-- C11, the code at the failing input: for a rule whose CIS level array
starts with a number, `CreateFleetPolicy` panics, and the conversion loop over
a baseline that has this rule between two sound rules ends with the panic
instead of going on. In general `CreateFleetPolicy` panics exactly when
`references["cis"]` is a map in which the `benchmark` or `level` entry is a
non-empty array whose first element is not a string; a `cis` entry that is not
a map, or an entry that is not an array, is passed over. -/
theorem C11_number_in_references_panics :
    CreateFleetPolicy (some numberedLevelRule) "cis_lvl1".toList = .error () ∧
      collectPolicies "cis_lvl1".toList
        [some gatekeeperRule, some numberedLevelRule, some gatekeeperRule] = .error () ∧
      (∀ rule baselineName, CreateFleetPolicy (some rule) baselineName = .error () ↔
        ¬ WellFormedReferences rule.References) ∧
      (∀ rule : Rule, (∀ cis, rule.References.lookup "cis".toList ≠ some (Value.map cis)) →
        WellFormedReferences rule.References) ∧
      (∀ (rule : Rule) (cis : List (List Char × Value)),
        rule.References.lookup "cis".toList = some (Value.map cis) →
        (∀ xs, cis.lookup "benchmark".toList ≠ some (Value.slice xs)) →
        (∀ xs, cis.lookup "level".toList ≠ some (Value.slice xs)) →
        WellFormedReferences rule.References) := by
  refine ⟨by rfl, by rfl, CreateFleetPolicy_error_iff, ?_, ?_⟩
  · intro rule h cis hcis
    exact absurd hcis (h cis)
  · intro rule cis hcis hb hl cis' hcis' key hkey x xs hx
    rw [hcis] at hcis'
    injection hcis' with h1
    injection h1 with h2
    subst h2
    rcases hkey with rfl | rfl
    · exact absurd hx (hb _)
    · exact absurd hx (hl _)

set_option maxRecDepth 1000000 in
/-- C13, the code at the failing inputs: for a file with one record whose
query is an unqualified service-name wildcard check, `FixGenericQueries`
returns the count 1 although the content it writes back equals the input;
for a file with a trivial placeholder and such a record it returns 2 although
one marker comment is added. -/
theorem C13_count_exceeds_changes :
    FixGenericQueries
        ("spec:\n    name: macOS Security - Audit service\n" ++
          "    query: SELECT 1 FROM launchd WHERE name LIKE '%audit%';\n" ++
          "    purpose: Informational\n").toList =
      (1, ("spec:\n    name: macOS Security - Audit service\n" ++
          "    query: SELECT 1 FROM launchd WHERE name LIKE '%audit%';\n" ++
          "    purpose: Informational\n").toList) ∧
    (FixGenericQueries
        ("spec:\n    name: macOS Security - Some rule\n    query: SELECT 1;\n" ++
          "    purpose: Informational\n---\nspec:\n    name: macOS Security - Audit files\n" ++
          "    query: SELECT 1 FROM file WHERE path LIKE '/etc/%';\n" ++
          "    purpose: Informational\n").toList).1 = 2 ∧
    strings.Count (FixGenericQueries
        ("spec:\n    name: macOS Security - Some rule\n    query: SELECT 1;\n" ++
          "    purpose: Informational\n---\nspec:\n    name: macOS Security - Audit files\n" ++
          "    query: SELECT 1 FROM file WHERE path LIKE '/etc/%';\n" ++
          "    purpose: Informational\n").toList).2 "# TODO:".toList = 1 ∧
    strings.Count
        ("spec:\n    name: macOS Security - Some rule\n    query: SELECT 1;\n" ++
          "    purpose: Informational\n---\nspec:\n    name: macOS Security - Audit files\n" ++
          "    query: SELECT 1 FROM file WHERE path LIKE '/etc/%';\n" ++
          "    purpose: Informational\n").toList "# TODO:".toList = 0 := by
  refine ⟨by decide, by decide, by decide, by decide⟩

set_option maxRecDepth 1000000 in
/-- C16, the code at the failing inputs: `CleanText` leaves no blank line
between two paragraphs. The blank lines are first collapsed to one, then the
step that removes leading white space of every line removes the line feed of
the blank line as well. -/
theorem C16_blank_lines_removed :
    CleanText "a\n\n\nb".toList = "a\nb".toList ∧
      CleanText "a\n\nb".toList = "a\nb".toList ∧
      CleanText "The audit service must run.\n\n\n\nNOTE: see the guide.\n".toList =
        "The audit service must run.\nNOTE: see the guide.".toList := by
  refine ⟨by decide, by decide, by decide⟩

theorem getLast?_append_singleton (l : List Char) (a : Char) :
    (l ++ [a]).getLast? = some a := by
  rw [List.getLast?_append]
  rfl

theorem getLast?_append_of_getLast? {l : List Char} {a : Char} (p : List Char)
    (h : l.getLast? = some a) : (p ++ l).getLast? = some a := by
  rw [List.getLast?_append, h]
  rfl

/-- Where a text `X;v₂#B` can lie in `pre ++ G ++ J ++ [c₀, ';'] ++ Tr`, when
`G` ends with `;`, the inserted text `J ++ [c₀, ';']` has no `#`, `c₀` is not
the last rune of `X`, and `;` occurs in none of `X`, `v₂`, `B`: inside
`pre ++ G` or inside `Tr`. -/
theorem match_inside_or_after {X v₂ B pre G J Tr u r : List Char} {c₀ x₀ : Char}
    (h2 : ';' ∉ X) (h3 : ';' ∉ v₂) (h4 : ';' ∉ B)
    (h5 : X.getLast? = some x₀) (hG : G.getLast? = some ';') (hc₀ : c₀ ≠ x₀)
    (hJ : '#' ∉ J ++ [c₀, ';'])
    (hO : pre ++ (G ++ ((J ++ [c₀, ';']) ++ Tr)) = u ++ (X ++ ';' :: (v₂ ++ '#' :: (B ++ r)))) :
    (∃ r₀, pre ++ G = u ++ (X ++ ';' :: (v₂ ++ '#' :: (B ++ r₀)))) ∨
      ∃ y, Tr = y ++ (X ++ ';' :: (v₂ ++ '#' :: (B ++ r))) := by
  have hO' : (u ++ (X ++ ';' :: v₂)) ++ '#' :: (B ++ r) =
      (pre ++ G) ++ ((J ++ [c₀, ';']) ++ Tr) := by
    rw [List.append_assoc pre, hO]
    simp
  rcases List.append_eq_append_iff.1 hO' with ⟨a', ha, hb⟩ | ⟨c', hc, hd⟩
  · -- the `#` is inside `pre ++ G`
    cases a' with
    | nil =>
      exfalso
      simp only [List.nil_append] at hb
      cases hJJ : J ++ [c₀, ';'] with
      | nil => simp at hJJ
      | cons e t =>
        rw [hJJ] at hb hJ
        simp only [List.cons_append, List.cons.injEq] at hb
        exact hJ (by rw [← hb.1]; exact List.mem_cons_self _ _)
    | cons e a'' =>
      simp only [List.cons_append, List.cons.injEq] at hb
      obtain ⟨rfl, hb⟩ := hb
      rcases List.append_eq_append_iff.1 hb with ⟨x, hx, -⟩ | ⟨y, hy, -⟩
      · exact Or.inl ⟨x, by rw [ha, hx]; simp⟩
      · -- the text after the `#` would run over the `;` that ends `G`
        exfalso
        have hlast : ((u ++ (X ++ ';' :: v₂)) ++ '#' :: a'').getLast? = some ';' := by
          rw [← ha]
          exact getLast?_append_of_getLast? pre hG
        cases a'' with
        | nil =>
          rw [getLast?_append_singleton] at hlast
          exact absurd (Option.some.inj hlast) (by decide)
        | cons f a3 =>
          have h6 : (f :: a3).getLast? = some ';' := by
            have e1 : (u ++ (X ++ ';' :: v₂)) ++ '#' :: f :: a3 =
                ((u ++ (X ++ ';' :: v₂)) ++ ['#']) ++ (f :: a3) := by simp
            rw [e1, List.getLast?_append] at hlast
            cases hd' : (f :: a3).getLast? with
            | none => simp at hd'
            | some z => rw [hd'] at hlast; simpa using hlast
          exact h4 (by rw [hy]; exact List.mem_append_left _ (List.mem_of_mem_getLast? h6))
  · -- the `#` is after the inserted text
    obtain ⟨c'', hc''⟩ := isPrefix_of_not_mem hd hJ
    rw [← hc''] at hc hd
    have hd2 : Tr = c'' ++ '#' :: (B ++ r) := by
      simpa [List.append_assoc] using hd
    have hc2 : u ++ (X ++ ';' :: v₂) = ((pre ++ G) ++ (J ++ [c₀, ';'])) ++ c'' := by
      rw [hc]; simp
    rcases List.append_eq_append_iff.1 hc2 with ⟨x, hx, hx'⟩ | ⟨y, -, hy'⟩
    · rcases List.eq_nil_or_concat x with rfl | ⟨x0, e, rfl⟩
      · simp only [List.nil_append] at hx'
        exact Or.inr ⟨[], by rw [hd2, ← hx']; simp⟩
      · -- the text before the `#` would end its `X` right before the final `;`
        exfalso
        have e1 : ((pre ++ G) ++ (J ++ [c₀])) ++ [';'] = (u ++ x0) ++ [e] := by
          simpa [List.append_assoc] using hx
        have he : ';' = e := by
          have := congrArg List.getLast? e1
          rw [getLast?_append_singleton, getLast?_append_singleton] at this
          exact Option.some.inj this
        subst he
        have e2 : (pre ++ G) ++ (J ++ [c₀]) = u ++ x0 := List.append_cancel_right e1
        have e3 : X ++ ';' :: v₂ = x0 ++ ';' :: c'' := by
          simpa [List.append_assoc] using hx'
        have hX : X = x0 := by
          rcases List.append_eq_append_iff.1 e3 with ⟨a1, ha1, hb1⟩ | ⟨c1, hc1, hd1⟩
          · cases a1 with
            | nil => simpa using ha1.symm
            | cons f a2 =>
              exfalso
              simp only [List.cons_append, List.cons.injEq] at hb1
              exact h3 (by rw [hb1.2]; simp)
          · cases c1 with
            | nil => simpa using hc1
            | cons f c2 =>
              exfalso
              simp only [List.cons_append, List.cons.injEq] at hd1
              exact h2 (by rw [hc1, ← hd1.1]; simp)
        subst hX
        have e4 := congrArg List.getLast? e2
        rw [← List.append_assoc, getLast?_append_singleton,
          getLast?_append_of_getLast? u h5] at e4
        exact hc₀ (Option.some.inj e4)
    · exact Or.inr ⟨y, by rw [hd2, hy']; simp⟩

/-- A substitution that keeps the text up to the `;` of the query and puts a
text without `#` that ends with `;`, but not with `1;`, in the place of the
marker comment, makes no new annotated trivial placeholder. -/
theorem not_hasGenericTodo_step {pre G J Tr : List Char} {c₀ : Char}
    (hG : G.getLast? = some ';') (hc₀ : c₀ ≠ '1') (hJ : '#' ∉ J ++ [c₀, ';'])
    (hpre : ¬ HasGenericTodo (pre ++ G)) (hTr : ¬ HasGenericTodo Tr) :
    ¬ HasGenericTodo (pre ++ (G ++ ((J ++ [c₀, ';']) ++ Tr))) := by
  rintro ⟨u, v₁, v₂, r, h1, h2, h⟩
  have hO : pre ++ (G ++ ((J ++ [c₀, ';']) ++ Tr)) =
      u ++ ((v₁ ++ "query: SELECT 1".toList) ++ ';' :: (v₂ ++ '#' ::
        (" TODO: Replace with specific query for this policy".toList ++ r))) := by
    rw [h]
    simp
  have hX : ';' ∉ v₁ ++ "query: SELECT 1".toList := by
    intro hm
    rcases List.mem_append.1 hm with hm | hm
    · exact h1.not_mem (x := ';') (by decide) hm
    · exact absurd hm (by decide)
  rcases match_inside_or_after hX (h2.not_mem (x := ';') (by decide)) (by decide)
      (getLast?_append_of_getLast? v₁ rfl) hG hc₀ hJ hO with ⟨r₀, e⟩ | ⟨y, e⟩
  · exact hpre ⟨u, v₁, v₂, r₀, h1, h2, by rw [e]; simp⟩
  · exact hTr ⟨y, v₁, v₂, r, h1, h2, by rw [e]; simp⟩

theorem hasGenericTodo_of_match {c pre t : List Char} (hc : c = pre ++ t)
    (hm : matchItems genericTodoPattern.items t ≠ none) : HasGenericTodo c := by
  cases hmm : matchItems genericTodoPattern.items t with
  | none => exact absurd hmm hm
  | some x =>
    obtain ⟨ps, r⟩ := x
    obtain ⟨hsat, ht⟩ := matchItems_sound hmm
    obtain ⟨w1, w2, hw1, hw2, rfl⟩ := sat_ws_lit_ws_lit hsat
    exact ⟨pre, w1, w2, r, hw1, hw2, by rw [hc, ht]; simp⟩

theorem match_of_hasGenericTodo {c : List Char} (h : HasGenericTodo c) :
    ∃ pre t, c = pre ++ t ∧ matchItems genericTodoPattern.items t ≠ none := by
  obtain ⟨u, v₁, v₂, r, h1, h2, hc⟩ := h
  refine ⟨u, _, hc, ?_⟩
  have hsat : List.Forall₂ Item.Sat genericTodoPattern.items
      [v₁, "query: SELECT 1;".toList, v₂,
        "# TODO: Replace with specific query for this policy".toList] :=
    .cons h1 (.cons rfl (.cons h2 (.cons rfl .nil)))
  have := matchItems_complete r hsat
  intro hn
  simp only [List.flatten_cons, List.flatten_nil, List.append_nil, List.append_assoc] at this
  rw [hn] at this
  cases this

theorem genericTodo_search_none_iff (c : List Char) (b : Bool) :
    genericTodoPattern.search b c = none ↔ ¬ HasGenericTodo c := by
  constructor
  · intro hs h
    obtain ⟨pre, t, hc, hm⟩ := match_of_hasGenericTodo h
    exact hm (search_eq_none rfl hs pre t hc)
  · intro h
    apply search_eq_none_of_forall rfl
    intro pre t hc
    by_contra hm
    exact h (hasGenericTodo_of_match hc hm)

namespace regexp

theorem expandFrom_of_no_dollar (groups : List (List Char)) :
    ∀ t : List Char, '$' ∉ t → expandFrom groups none t = t := by
  intro t
  induction t with
  | nil => intro _; rfl
  | cons c t ih =>
    intro h
    have hc : c ≠ '$' := fun e => h (by rw [e]; exact List.mem_cons_self _ _)
    rw [expandFrom, if_neg hc, ih (fun hm => h (List.mem_cons_of_mem _ hm))]

theorem expand_group_one (g₀ G : List Char) (gs : List (List Char)) (T : List Char)
    (h : '$' ∉ T) : expand ('$' :: '1' :: ' ' :: T) (g₀ :: G :: gs) = G ++ ' ' :: T := by
  have h1 : isNameRune '1' = true := by decide
  have h2 : isNameRune ' ' = false := by decide
  have h3 : groupValue (g₀ :: G :: gs) ['1'] = G := by
    simp [groupValue]
  unfold expand
  rw [expandFrom, if_pos rfl, expandFrom, if_pos h1, expandFrom]
  simp only [h2, Bool.false_eq_true, if_false, List.nil_append]
  rw [if_neg (by decide), h3, expandFrom_of_no_dollar _ _ h]

theorem ReplaceAllString_of_search_some {re : Regexp} (hb : re.bol = false)
    (hne : re.NoEmptyMatch) {s : List Char} {pre ps rest} (template : List Char)
    (h : re.search true s = some (pre, ps, rest)) :
    re.ReplaceAllString s template =
      pre ++ (expand template (ps.flatten :: re.groups.map (submatch ps)) ++
        re.ReplaceAllString rest template) := by
  simp [Regexp.ReplaceAllString, allSegments_of_search_some hb hne h]

end regexp

/-- A substitution `$1 …;` whose inserted text has no `#` and does not end
with `1;`, made at the matches of an expression whose first group ends with
`;`, leaves no annotated trivial placeholder when none lies in the text
before the end of the first group of a match. -/
theorem replaceAll_no_genericTodo (re : Regexp) (hb : re.bol = false) (hne : re.NoEmptyMatch)
    (P : List Char → Prop) (J : List Char) (c₀ : Char) (hc₀ : c₀ ≠ '1')
    (hJ : '#' ∉ (' ' :: J) ++ [c₀, ';']) (hD : '$' ∉ J ++ [c₀, ';'])
    (hnone : ∀ c, P c → re.search true c = none → ¬ HasGenericTodo c)
    (hstep : ∀ c pre ps rest, P c → re.search true c = some (pre, ps, rest) →
      P rest ∧ ∃ G gs, re.groups.map (submatch ps) = G :: gs ∧ G.getLast? = some ';' ∧
        ¬ HasGenericTodo (pre ++ G)) :
    ∀ c, P c → ¬ HasGenericTodo (re.ReplaceAllString c ('$' :: '1' :: ' ' :: (J ++ [c₀, ';']))) := by
  intro c
  generalize hn : c.length = n
  induction n using Nat.strong_induction_on generalizing c with
  | _ n ih =>
    intro hP
    cases hs : re.search true c with
    | none =>
      rw [ReplaceAllString_of_search_none _ hs]
      exact hnone c hP hs
    | some x =>
      obtain ⟨pre, ps, rest⟩ := x
      obtain ⟨-, h2⟩ := search_found_nonempty hne hs
      obtain ⟨hP', G, gs, hg, hG, hpre⟩ := hstep c pre ps rest hP hs
      rw [ReplaceAllString_of_search_some hb hne _ hs, hg, expand_group_one _ _ _ _ hD]
      have := not_hasGenericTodo_step hG hc₀ hJ hpre (ih rest.length (by omega) rest rfl hP')
      simpa using this

theorem HasGenericTodo.append_right {t : List Char} (h : HasGenericTodo t) (z : List Char) :
    HasGenericTodo (t ++ z) := by
  obtain ⟨u, v₁, v₂, r, h1, h2, e⟩ := h
  exact ⟨u, v₁, v₂, r ++ z, h1, h2, by rw [e]; simp⟩

theorem HasGenericTodo.append_left {t : List Char} (h : HasGenericTodo t) (z : List Char) :
    HasGenericTodo (z ++ t) := by
  obtain ⟨u, v₁, v₂, r, h1, h2, e⟩ := h
  exact ⟨z ++ u, v₁, v₂, r, h1, h2, by rw [e]; simp⟩

/-- The text before the marker comment of the leftmost annotated trivial
placeholder contains no annotated trivial placeholder. -/
theorem not_hasGenericTodo_before_marker {c pre rest w1 w2 : List Char}
    (hs : genericTodoPattern.search true c = some (pre,
      [w1, "query: SELECT 1;".toList, w2,
        "# TODO: Replace with specific query for this policy".toList], rest))
    (hw1 : IsWs w1) : ¬ HasGenericTodo (pre ++ (w1 ++ "query: SELECT 1;".toList)) := by
  rintro ⟨u, v₁, v₂, r, h1, h2, e⟩
  obtain ⟨hc, -⟩ := search_sound hs
  by_cases hlt : u.length < pre.length
  · have hsat : List.Forall₂ Item.Sat genericTodoPattern.items
        [v₁, "query: SELECT 1;".toList, v₂,
          "# TODO: Replace with specific query for this policy".toList] :=
      .cons h1 (.cons rfl (.cons h2 (.cons rfl .nil)))
    have h3 := matchItems_complete (r ++ (w2 ++
      ("# TODO: Replace with specific query for this policy".toList ++ rest))) hsat
    rw [search_leftmost rfl hs u _ ?_ hlt] at h3
    · cases h3
    · rw [hc]
      have e' := congrArg (fun x => x ++ (w2 ++
        ("# TODO: Replace with specific query for this policy".toList ++ rest))) e
      simp only [List.append_assoc] at e'
      simp only [List.flatten_cons, List.flatten_nil, List.append_nil, List.append_assoc]
      exact e'
  · have hno : '#' ∉ w1 ++ "query: SELECT 1;".toList := by
      intro hm
      rcases List.mem_append.1 hm with hm | hm
      · exact hw1.not_mem (x := '#') (by decide) hm
      · exact absurd hm (by decide)
    rcases List.append_eq_append_iff.1 e with ⟨a', -, ha⟩ | ⟨c', hp, hc'⟩
    · apply hno
      rw [ha]
      simp
    · have hnil : c' = [] := by
        apply List.eq_nil_of_length_eq_zero
        have := congrArg List.length hp
        simp only [List.length_append] at this
        omega
      subst hnil
      apply hno
      simp only [List.nil_append] at hc'
      rw [← hc']
      simp

theorem genericTodo_replaceAll_no_genericTodo (template J : List Char) (c₀ : Char)
    (ht : template = '$' :: '1' :: ' ' :: (J ++ [c₀, ';'])) (hc₀ : c₀ ≠ '1')
    (hJ : '#' ∉ (' ' :: J) ++ [c₀, ';']) (hD : '$' ∉ J ++ [c₀, ';']) (c : List Char) :
    ¬ HasGenericTodo (genericTodoPattern.ReplaceAllString c template) := by
  rw [ht]
  refine replaceAll_no_genericTodo genericTodoPattern rfl noEmptyMatch_of_leading_plus
    (fun _ => True) J c₀ hc₀ hJ hD ?_ ?_ c trivial
  · intro c _ hs
    exact (genericTodo_search_none_iff c true).1 hs
  · intro c pre ps rest _ hs
    refine ⟨trivial, ?_⟩
    obtain ⟨-, hm⟩ := search_sound hs
    obtain ⟨w1, w2, hw1, -, rfl⟩ := sat_ws_lit_ws_lit (matchItems_sound hm).1
    refine ⟨w1 ++ "query: SELECT 1;".toList,
      [w2 ++ "# TODO: Replace with specific query for this policy".toList], ?_,
      getLast?_append_of_getLast? w1 rfl,
      not_hasGenericTodo_before_marker hs hw1⟩
    simp [genericTodoPattern, submatch]

theorem auditFolder_replaceAll_no_genericTodo (template J : List Char) (c₀ : Char)
    (ht : template = '$' :: '1' :: ' ' :: (J ++ [c₀, ';'])) (hc₀ : c₀ ≠ '1')
    (hJ : '#' ∉ (' ' :: J) ++ [c₀, ';']) (hD : '$' ∉ J ++ [c₀, ';']) (c : List Char)
    (h : ¬ HasGenericTodo c) :
    ¬ HasGenericTodo (auditFolderPattern.ReplaceAllString c template) := by
  rw [ht]
  refine replaceAll_no_genericTodo auditFolderPattern rfl noEmptyMatch_of_leading_plus
    (fun c => ¬ HasGenericTodo c) J c₀ hc₀ hJ hD (fun _ hP _ => hP) ?_ c h
  intro c pre ps rest hP hs
  obtain ⟨hc, hm⟩ := search_sound hs
  obtain ⟨w1, x, w2, -, -, -, rfl⟩ := sat_ws_lit_cls_lit_ws_lit (matchItems_sound hm).1
  refine ⟨fun hr => hP ?_, (w1 ++ "query: SELECT 1 FROM file WHERE path LIKE '/".toList ++ x) ++
      "%';".toList, [w2 ++ "# TODO: Replace with specific file validation query".toList], ?_,
    getLast?_append_of_getLast? _ rfl, fun hr => hP ?_⟩
  · have := hr.append_left (pre ++ [w1, "query: SELECT 1 FROM file WHERE path LIKE '/".toList, x,
      "%';".toList, w2, "# TODO: Replace with specific file validation query".toList].flatten)
    rw [hc]
    simpa using this
  · simp [auditFolderPattern, submatch]
  · have := hr.append_right
      (w2 ++ ("# TODO: Replace with specific file validation query".toList ++ rest))
    rw [hc]
    simpa using this

theorem auditService_replaceAll_no_genericTodo (template J : List Char) (c₀ : Char)
    (ht : template = '$' :: '1' :: ' ' :: (J ++ [c₀, ';'])) (hc₀ : c₀ ≠ '1')
    (hJ : '#' ∉ (' ' :: J) ++ [c₀, ';']) (hD : '$' ∉ J ++ [c₀, ';']) (c : List Char)
    (h : ¬ HasGenericTodo c) :
    ¬ HasGenericTodo (auditServicePattern.ReplaceAllString c template) := by
  rw [ht]
  refine replaceAll_no_genericTodo auditServicePattern rfl noEmptyMatch_of_leading_plus
    (fun c => ¬ HasGenericTodo c) J c₀ hc₀ hJ hD (fun _ hP _ => hP) ?_ c h
  intro c pre ps rest hP hs
  obtain ⟨hc, hm⟩ := search_sound hs
  obtain ⟨w1, w2, -, -, rfl⟩ := sat_ws_lit_ws_lit (matchItems_sound hm).1
  refine ⟨fun hr => hP ?_,
    w1 ++ "query: SELECT 1 FROM launchd WHERE name LIKE '%audit%';".toList,
    [w2 ++ "# TODO: Replace with specific service validation query".toList], ?_,
    getLast?_append_of_getLast? _ rfl, fun hr => hP ?_⟩
  · have := hr.append_left (pre ++
      [w1, "query: SELECT 1 FROM launchd WHERE name LIKE '%audit%';".toList, w2,
        "# TODO: Replace with specific service validation query".toList].flatten)
    rw [hc]
    simpa using this
  · simp [auditServicePattern, submatch]
  · have := hr.append_right
      (w2 ++ ("# TODO: Replace with specific service validation query".toList ++ rest))
    rw [hc]
    simpa using this

theorem genericTodo_replaceAll_id {c : List Char} (h : ¬ HasGenericTodo c)
    (template : List Char) : genericTodoPattern.ReplaceAllString c template = c :=
  ReplaceAllString_of_search_none template ((genericTodo_search_none_iff c true).2 h)

/-- After the first substitution of `FixFilePermissionQueries` no annotated
trivial placeholder is left. -/
theorem uid_substitution_no_genericTodo (c : List Char) :
    ¬ HasGenericTodo (genericTodoPattern.ReplaceAllString c
      "$1 FROM file WHERE path LIKE '/var/audit/%' AND uid = 0;".toList) :=
  genericTodo_replaceAll_no_genericTodo _
    "FROM file WHERE path LIKE '/var/audit/%' AND uid = ".toList '0' (by decide) (by decide)
    (by decide) (by decide) c

/-- After `FixAuditQueries` no annotated trivial placeholder is left. -/
theorem FixAuditQueries_no_genericTodo (c : List Char) :
    ¬ HasGenericTodo (FixAuditQueries c) := by
  unfold FixAuditQueries
  refine auditService_replaceAll_no_genericTodo _ "AND state = 'running".toList '\''
    (by decide) (by decide) (by decide) (by decide) _ ?_
  refine auditFolder_replaceAll_no_genericTodo _
    "AND type = 'directory' AND extended_attributes LIKE '%com.apple.acl%".toList '\''
    (by decide) (by decide) (by decide) (by decide) _ ?_
  exact genericTodo_replaceAll_no_genericTodo _
    ("FROM file WHERE (path LIKE '/var/audit/%' OR path LIKE '/etc/security/%')" ++
      " AND extended_attributes LIKE '%com.apple.acl%").toList '\''
    (by decide) (by decide) (by decide) (by decide) c

theorem FixFilePermissionQueries_eq_first (c : List Char) :
    FixFilePermissionQueries c = genericTodoPattern.ReplaceAllString c
      "$1 FROM file WHERE path LIKE '/var/audit/%' AND uid = 0;".toList := by
  unfold FixFilePermissionQueries
  simp only [genericTodo_replaceAll_id (uid_substitution_no_genericTodo c)]

set_option maxRecDepth 1000000 in
/-- C15, as amended: when several substitutions of the domain-specific
substitution pass match the same annotated trivial placeholder, the first one
in evaluation order survives, because it removes the marker comment that the
later ones look for. For every file text, `FixFilePermissionQueries` is its
first substitution (the file-ownership template, `uid = 0`) alone, and in the
full pass `FixFilePermissionQueries` and `FixManagedPolicyQueries` change
nothing after `FixAuditQueries`, whose first substitution (the template of the
audit log files) takes every annotated trivial placeholder; on a placeholder
the two templates are left as computed. -/
theorem C15_first_substitution_survives (c : List Char) :
    FixFilePermissionQueries c = genericTodoPattern.ReplaceAllString c
        "$1 FROM file WHERE path LIKE '/var/audit/%' AND uid = 0;".toList ∧
      FixFilePermissionQueries (FixAuditQueries c) = FixAuditQueries c ∧
      FixManagedPolicyQueries (FixFilePermissionQueries (FixAuditQueries c)) =
        FixAuditQueries c ∧
      (FixSpecificPolicyQueries c).2 = FixAuditQueries c ∧
      FixFilePermissionQueries
          ("spec:\n  query: SELECT 1;  # TODO: Replace with specific query for this policy\n" ++
            "  purpose: Informational\n").toList =
        ("spec:\n  query: SELECT 1; FROM file WHERE path LIKE '/var/audit/%' AND uid = 0;\n" ++
          "  purpose: Informational\n").toList ∧
      (FixSpecificPolicyQueries
          ("spec:\n  query: SELECT 1;  # TODO: Replace with specific query for this policy\n" ++
            "  purpose: Informational\n").toList).2 =
        ("spec:\n  query: SELECT 1; FROM file WHERE (path LIKE '/var/audit/%' OR " ++
          "path LIKE '/etc/security/%') AND extended_attributes LIKE '%com.apple.acl%';\n" ++
          "  purpose: Informational\n").toList := by
  have h1 : FixFilePermissionQueries (FixAuditQueries c) = FixAuditQueries c := by
    unfold FixFilePermissionQueries
    simp only [genericTodo_replaceAll_id (FixAuditQueries_no_genericTodo c)]
  have h2 : FixManagedPolicyQueries (FixFilePermissionQueries (FixAuditQueries c)) =
      FixAuditQueries c := by
    rw [h1]
    exact genericTodo_replaceAll_id (FixAuditQueries_no_genericTodo c) _
  refine ⟨FixFilePermissionQueries_eq_first c, h1, h2, ?_, by decide, by decide⟩
  unfold FixSpecificPolicyQueries
  simp only [h2]
  split_ifs with h
  · rfl
  · exact (not_not.1 h).symm

set_option maxRecDepth 1000000 in
/-- C15, the claim at a placeholder: `FixFilePermissionQueries` does not leave
the permission-mode template but the file-ownership template, and the full
pass does not leave the template of `FixManagedPolicyQueries`, the last
substitution that matches this shape, but the template of the audit log
files, the first one. -/
theorem C15_counterexample :
    strings.Contains (FixFilePermissionQueries
        ("    query: SELECT 1;  # TODO: Replace with specific query for this policy\n" ++
          "    purpose: Informational\n").toList) "mode <= '440'".toList = false ∧
      strings.Contains (FixFilePermissionQueries
        ("    query: SELECT 1;  # TODO: Replace with specific query for this policy\n" ++
          "    purpose: Informational\n").toList) "uid = 0".toList = true ∧
      strings.Contains (FixSpecificPolicyQueries
        ("    query: SELECT 1;  # TODO: Replace with specific query for this policy\n" ++
          "    purpose: Informational\n").toList).2 "managed_policies".toList = false ∧
      strings.Contains (FixSpecificPolicyQueries
        ("    query: SELECT 1;  # TODO: Replace with specific query for this policy\n" ++
          "    purpose: Informational\n").toList).2 "com.apple.acl".toList = true := by
  decide

namespace regexp

/-! ## What the engine returns for a literal and for a repetition -/

theorem matchItems_lit_inv {w : List Char} {rest : List Item} {s : List Char}
    {ps : List (List Char)} {r : List Char} (h : matchItems (.lit w :: rest) s = some (ps, r)) :
    ∃ ps' t, ps = w :: ps' ∧ s = w ++ t ∧ matchItems rest t = some (ps', r) := by
  rw [matchItems] at h
  by_cases hp : w.isPrefixOf s = true
  · rw [if_pos hp] at h
    simp only [Option.map_eq_some', Prod.mk.injEq] at h
    obtain ⟨⟨ps', r'⟩, hm, rfl, rfl⟩ := h
    exact ⟨ps', s.drop w.length, rfl, isPrefixOf_eq_append hp, hm⟩
  · rw [if_neg hp] at h
    cases h

theorem matchItems_lit_exact (w : List Char) {rest : List Item} {t : List Char}
    {ps : List (List Char)} {r : List Char} (h : matchItems rest t = some (ps, r)) :
    matchItems (.lit w :: rest) (w ++ t) = some (w :: ps, r) := by
  rw [matchItems, if_pos (isPrefixOf_append_self w t)]
  simp [h]

theorem matchItems_plus_inv {p : Char → Bool} {g : Bool} {rest : List Item} {s : List Char}
    {ps : List (List Char)} {r : List Char}
    (h : matchItems (.plus p g :: rest) s = some (ps, r)) :
    ∃ w ps' t, ps = w :: ps' ∧ w ≠ [] ∧ (∀ c ∈ w, p c = true) ∧ s = w ++ t ∧
      matchItems rest t = some (ps', r) := by
  cases s with
  | nil => simp [matchItems] at h
  | cons c s =>
    rw [matchItems] at h
    by_cases hp : p c = true
    · rw [if_pos hp] at h
      simp only [Option.map_eq_some', Prod.mk.injEq] at h
      obtain ⟨⟨w, ps', r'⟩, hm, rfl, rfl⟩ := h
      obtain ⟨hall, t, rfl, hk⟩ := starRep_sound hm
      refine ⟨c :: w, ps', t, rfl, by simp, ?_, rfl, hk⟩
      intro d hd
      rcases List.mem_cons.1 hd with rfl | hd
      · exact hp
      · exact hall d hd
    · rw [if_neg hp] at h
      cases h

theorem starLazy_minimal {p : Char → Bool} {k : List Char → Option MatchResult} :
    ∀ {s w : List Char} {r : MatchResult}, starLazy p k s = some (w, r) →
      ∀ w' w'' t, w = w' ++ w'' → w'' ≠ [] → s = w ++ t → k (w'' ++ t) = none := by
  intro s
  induction s with
  | nil =>
    intro w r h w' w'' t hw hne hs
    exfalso
    have : w = [] := (List.append_eq_nil.1 hs.symm).1
    rw [this] at hw
    exact hne (List.append_eq_nil.1 hw.symm).2
  | cons c s ih =>
    intro w r h w' w'' t hw hne hs
    unfold starLazy at h
    cases hk : k (c :: s) with
    | some x =>
      rw [hk] at h
      simp only [Option.some.injEq, Prod.mk.injEq] at h
      exfalso
      rw [← h.1] at hw
      exact hne (List.append_eq_nil.1 hw.symm).2
    | none =>
      rw [hk] at h
      simp only at h
      by_cases hp : p c = true
      · rw [if_pos hp] at h
        simp only [Option.map_eq_some', Prod.mk.injEq] at h
        obtain ⟨⟨w₀, r₀⟩, hm, rfl, rfl⟩ := h
        simp only [List.cons_append, List.cons.injEq, true_and] at hs
        cases w' with
        | nil =>
          simp only [List.nil_append] at hw
          rw [← hw, List.cons_append, ← hs]
          exact hk
        | cons d w'₀ =>
          simp only [List.cons_append, List.cons.injEq] at hw
          exact ih hm w'₀ w'' t hw.2 hne hs
      · rw [if_neg hp] at h
        cases h

theorem matchItems_plus_lazy_minimal {p : Char → Bool} {rest : List Item} {s w : List Char}
    {ps : List (List Char)} {r : List Char}
    (h : matchItems (.plus p false :: rest) s = some (w :: ps, r)) :
    ∀ w' w'' t, w = w' ++ w'' → w' ≠ [] → w'' ≠ [] → s = w ++ t →
      matchItems rest (w'' ++ t) = none := by
  intro w' w'' t hw hne' hne hs
  cases s with
  | nil => simp [matchItems] at h
  | cons c s =>
    rw [matchItems] at h
    by_cases hp : p c = true
    · rw [if_pos hp] at h
      simp only [Option.map_eq_some', Prod.mk.injEq, List.cons.injEq] at h
      obtain ⟨⟨w₀, ps', r'⟩, hm, ⟨rfl, rfl⟩, rfl⟩ := h
      simp only [List.cons_append, List.cons.injEq, true_and] at hs
      cases w' with
      | nil => exact absurd rfl hne'
      | cons d w'₀ =>
        simp only [List.cons_append, List.cons.injEq] at hw
        exact starLazy_minimal (by simpa [starRep] using hm) w'₀ w'' t hw.2 hne hs
    · rw [if_neg hp] at h
      cases h

theorem starLazy_exact {p : Char → Bool} {k : List Char → Option MatchResult}
    {t : List Char} {r : MatchResult} (hk : k t = some r) :
    ∀ w : List Char, (∀ c ∈ w, p c = true) →
      (∀ w' w'', w = w' ++ w'' → w'' ≠ [] → k (w'' ++ t) = none) →
      starLazy p k (w ++ t) = some (w, r) := by
  intro w
  induction w with
  | nil =>
    intro _ _
    cases t with
    | nil => simp [starLazy, hk]
    | cons d t => simp [starLazy, hk]
  | cons c w ih =>
    intro hall hmin
    have h0 : k (c :: (w ++ t)) = none := hmin [] (c :: w) rfl (by simp)
    rw [List.cons_append, starLazy, h0]
    simp only
    rw [if_pos (hall c (List.mem_cons_self _ _)),
      ih (fun d hd => hall d (List.mem_cons_of_mem _ hd))
        (fun w' w'' hw hne => hmin (c :: w') w'' (by rw [hw]; rfl) hne)]
    rfl

theorem starGreedy_exact {p : Char → Bool} {k : List Char → Option MatchResult}
    {t : List Char} {r : MatchResult} (hk : k t = some r) (ht : ∀ d ∈ t.head?, p d = false) :
    ∀ w : List Char, (∀ c ∈ w, p c = true) → starGreedy p k (w ++ t) = some (w, r) := by
  intro w
  induction w with
  | nil =>
    intro _
    cases t with
    | nil => simp [starGreedy, hk]
    | cons d t =>
      have : p d = false := ht d rfl
      simp [starGreedy, hk, this]
  | cons c w ih =>
    intro hall
    rw [List.cons_append, starGreedy, if_pos (hall c (List.mem_cons_self _ _)),
      ih (fun d hd => hall d (List.mem_cons_of_mem _ hd))]

theorem matchItems_plus_lazy_exact {p : Char → Bool} {rest : List Item} {w t : List Char}
    {ps : List (List Char)} {r : List Char} (hne : w ≠ []) (hall : ∀ c ∈ w, p c = true)
    (hk : matchItems rest t = some (ps, r))
    (hmin : ∀ w' w'', w = w' ++ w'' → w' ≠ [] → w'' ≠ [] → matchItems rest (w'' ++ t) = none) :
    matchItems (.plus p false :: rest) (w ++ t) = some (w :: ps, r) := by
  cases w with
  | nil => exact absurd rfl hne
  | cons c w =>
    rw [List.cons_append, matchItems, if_pos (hall c (List.mem_cons_self _ _))]
    have := starLazy_exact (p := p) hk w (fun d hd => hall d (List.mem_cons_of_mem _ hd))
      (fun w' w'' hw hne2 => hmin (c :: w') w'' (by rw [hw]; rfl) (by simp) hne2)
    simp [starRep, this]

theorem matchItems_plus_greedy_exact {p : Char → Bool} {rest : List Item} {w t : List Char}
    {ps : List (List Char)} {r : List Char} (hne : w ≠ []) (hall : ∀ c ∈ w, p c = true)
    (ht : ∀ d ∈ t.head?, p d = false) (hk : matchItems rest t = some (ps, r)) :
    matchItems (.plus p true :: rest) (w ++ t) = some (w :: ps, r) := by
  cases w with
  | nil => exact absurd rfl hne
  | cons c w =>
    rw [List.cons_append, matchItems, if_pos (hall c (List.mem_cons_self _ _))]
    have := starGreedy_exact (p := p) hk ht w (fun d hd => hall d (List.mem_cons_of_mem _ hd))
    simp [starRep, this]

end regexp

/-! ## The blocks of the expression of `FixPolicyQueries` -/

theorem not_mem_iff_all_ne {q : Char} {w : List Char} :
    q ∉ w ↔ ∀ c ∈ w, (fun c => decide (c ≠ q)) c = true := by
  constructor
  · intro h c hc
    simp only [decide_eq_true_eq]
    rintro rfl
    exact h hc
  · intro h hq
    have := h q hq
    simp at this

theorem policyBlock_inv {key : List Char} {cont : List Item} {s : List Char}
    {ps : List (List Char)} {r : List Char}
    (h : matchItems (policyBlock key cont) s = some (ps, r)) :
    ∃ W Z psT t, ps = key :: W :: "\n".toList :: Z :: psT ∧ s = key ++ (W ++ '\n' :: (Z ++ t)) ∧
      W ≠ [] ∧ '\n' ∉ W ∧ Z ≠ [] ∧ '}' ∉ Z ∧ matchItems cont t = some (psT, r) ∧
      ∀ Z' Z'', Z = Z' ++ Z'' → Z' ≠ [] → Z'' ≠ [] → matchItems cont (Z'' ++ t) = none := by
  obtain ⟨ps1, t1, rfl, rfl, h1⟩ := matchItems_lit_inv h
  obtain ⟨W, ps2, t2, rfl, hW, hWall, rfl, h2⟩ := matchItems_plus_inv h1
  obtain ⟨ps3, t3, rfl, rfl, h3⟩ := matchItems_lit_inv h2
  obtain ⟨Z, ps4, t4, rfl, hZ, hZall, rfl, h4⟩ := matchItems_plus_inv h3
  exact ⟨W, Z, ps4, t4, rfl, rfl, hW, not_mem_iff_all_ne.2 hWall, hZ, not_mem_iff_all_ne.2 hZall,
    h4, fun Z' Z'' hZZ h' h'' => matchItems_plus_lazy_minimal h3 Z' Z'' t4 hZZ h' h'' rfl⟩

theorem policyBlock_exact (key : List Char) {cont : List Item} {W Z t : List Char}
    {psT : List (List Char)} {r : List Char} (hW : W ≠ []) (hWn : '\n' ∉ W) (hZ : Z ≠ [])
    (hZn : '}' ∉ Z) (hk : matchItems cont t = some (psT, r))
    (hmin : ∀ Z' Z'', Z = Z' ++ Z'' → Z' ≠ [] → Z'' ≠ [] → matchItems cont (Z'' ++ t) = none) :
    matchItems (policyBlock key cont) (key ++ (W ++ '\n' :: (Z ++ t))) =
      some (key :: W :: "\n".toList :: Z :: psT, r) := by
  unfold policyBlock
  apply matchItems_lit_exact
  apply matchItems_plus_greedy_exact hW (not_mem_iff_all_ne.1 hWn)
  · intro d hd
    simp only [List.head?_cons, Option.mem_def, Option.some.injEq] at hd
    subst hd
    decide
  · exact matchItems_lit_exact "\n".toList
      (matchItems_plus_lazy_exact hZ (not_mem_iff_all_ne.1 hZn) hk hmin)

theorem prefix_of_append_self {key v rest t : List Char} (h : v ++ (key ++ rest) = key ++ t) :
    ∃ U, key ++ U = v ++ key := by
  have h1 : key <+: v ++ (key ++ rest) := ⟨t, h.symm⟩
  have h2 : v ++ key <+: v ++ (key ++ rest) := ⟨rest, by simp⟩
  exact List.prefix_of_prefix_length_le h1 h2 (by simp)

/-- A literal that matches after `v` in one text matches after `v` in every
text with the same literal after `v`. -/
theorem lit_match_transfer (P : List Char) {v r z : List Char}
    (h : matchItems [.lit P] (v ++ (P ++ z)) ≠ none) :
    matchItems [.lit P] (v ++ (P ++ r)) ≠ none := by
  cases hm : matchItems [.lit P] (v ++ (P ++ z)) with
  | none => exact absurd hm h
  | some x =>
    obtain ⟨ps, r'⟩ := x
    obtain ⟨ps', t, -, ht, -⟩ := matchItems_lit_inv hm
    obtain ⟨U, hU⟩ := prefix_of_append_self ht
    have e : v ++ (P ++ r) = P ++ (U ++ r) := by
      rw [← List.append_assoc, ← hU, List.append_assoc]
    rw [e, @matchItems_lit_exact P [] (U ++ r) [] (U ++ r) rfl]
    simp

theorem policyBlock_ne_none (key : List Char) {cont : List Item} {W Z t : List Char}
    (hW : W ≠ []) (hWn : '\n' ∉ W) (hZ : Z ≠ []) (hZb : '}' ∉ Z)
    (hk : matchItems cont t ≠ none) :
    matchItems (policyBlock key cont) (key ++ (W ++ '\n' :: (Z ++ t))) ≠ none := by
  cases hk' : matchItems cont t with
  | none => exact absurd hk' hk
  | some x =>
    obtain ⟨psT, rT⟩ := x
    obtain ⟨hsatT, ht⟩ := matchItems_sound hk'
    have hsat : List.Forall₂ Item.Sat (policyBlock key cont)
        (key :: W :: "\n".toList :: Z :: psT) :=
      .cons rfl (.cons ⟨hW, not_mem_iff_all_ne.1 hWn⟩ (.cons rfl
        (.cons ⟨hZ, not_mem_iff_all_ne.1 hZb⟩ hsatT)))
    have hc := matchItems_complete rT hsat
    have e : key ++ (W ++ '\n' :: (Z ++ t)) =
        (key :: W :: "\n".toList :: Z :: psT).flatten ++ rT := by
      have hnl : "\n".toList = ['\n'] := rfl
      rw [ht, hnl]
      simp
    rw [e]
    intro hnone
    rw [hnone] at hc
    cases hc

theorem purpose_ne_none (t : List Char) :
    matchItems [.lit "purpose: Informational".toList]
      ("purpose: Informational".toList ++ t) ≠ none := by
  rw [@matchItems_lit_exact "purpose: Informational".toList [] t [] t rfl]
  simp

/-- No occurrence of `purpose: Informational` starts before the end of an
occurrence of `query: ` and ends after it. -/
theorem purpose_no_straddle {S R F F' : List Char} (hF : F ≠ [])
    (hP : "purpose: Informational".toList = F ++ F')
    (hS : S ++ "query: ".toList = R ++ F) : False := by
  rcases List.append_eq_append_iff.1 hS with ⟨a', -, hk⟩ | ⟨c', -, hF'⟩
  · cases F with
    | nil => exact hF rfl
    | cons f F₀ =>
      have h1 : 'p' :: "urpose: Informational".toList = f :: (F₀ ++ F') := hP
      have h2 : f = 'p' := (List.cons.inj h1).1.symm
      have h3 : 'p' ∈ "query: ".toList := by
        rw [hk, h2]
        simp
      exact absurd h3 (by decide)
  · have h3 : 'q' ∈ "purpose: Informational".toList := by
      rw [hP, hF']
      have : 'q' ∈ "query: ".toList := by decide
      simp [this]
    exact absurd h3 (by decide)

/-- The lines from a key `query: ` to `purpose: Informational`: if they match
at a position before a record whose query is `Q'`, they match at the same
position when the record has the query `Q`, either because `Q` has no `}` or
because `Q'` is `Q`, whatever follows the record. -/
theorem inner_transfer {E Q Q' Y r z : List Char} (hQ : Q ≠ []) (hQn : '\n' ∉ Q)
    (hY : Y ≠ []) (hYb : '}' ∉ Y) (hC : '}' ∉ Q ∨ Q' = Q)
    (h : matchItems (policyBlock "query: ".toList [.lit "purpose: Informational".toList])
      (E ++ ("query: ".toList ++ (Q' ++ '\n' :: (Y ++
        ("purpose: Informational".toList ++ z))))) ≠ none) :
    matchItems (policyBlock "query: ".toList [.lit "purpose: Informational".toList])
      (E ++ ("query: ".toList ++ (Q ++ '\n' :: (Y ++
        ("purpose: Informational".toList ++ r))))) ≠ none := by
  cases hm : matchItems (policyBlock "query: ".toList [.lit "purpose: Informational".toList])
      (E ++ ("query: ".toList ++ (Q' ++ '\n' :: (Y ++
        ("purpose: Informational".toList ++ z))))) with
  | none => exact absurd hm h
  | some x =>
    obtain ⟨ps, r'⟩ := x
    obtain ⟨Q₂, Y₂, psT, t₃, -, ht, hQ₂, hQ₂n, hY₂, hY₂b, hP₂, -⟩ := policyBlock_inv hm
    obtain ⟨ps', r₃, -, rfl, -⟩ := matchItems_lit_inv hP₂
    obtain ⟨U, hU⟩ := prefix_of_append_self ht
    have e : U ++ (Q' ++ '\n' :: (Y ++ ("purpose: Informational".toList ++ z))) =
        Q₂ ++ '\n' :: (Y₂ ++ ("purpose: Informational".toList ++ r₃)) := by
      rw [← List.append_assoc, ← hU, List.append_assoc] at ht
      exact List.append_cancel_left ht
    have hgoal : ∀ T, E ++ ("query: ".toList ++ T) = "query: ".toList ++ (U ++ T) := fun T => by
      rw [← List.append_assoc, ← hU, List.append_assoc]
    rw [hgoal]
    by_cases hn : '\n' ∈ U
    · obtain ⟨A, B, hAB, hA⟩ := List.eq_append_cons_of_mem hn
      rw [hAB, List.append_assoc, List.cons_append] at e
      obtain ⟨hAQ, e'⟩ := split_at_rune_unique hA hQ₂n e
      have hAne : A ≠ [] := hAQ ▸ hQ₂
      have hshape : ∀ Z t, Z ++ t = B ++ (Q ++ '\n' :: (Y ++
          ("purpose: Informational".toList ++ r))) →
          "query: ".toList ++ (U ++ (Q ++ '\n' :: (Y ++
            ("purpose: Informational".toList ++ r)))) =
          "query: ".toList ++ (A ++ '\n' :: (Z ++ t)) := by
        intro Z t hZt
        rw [hZt, hAB]
        simp
      have hcover : '}' ∉ B ++ (Q ++ '\n' :: Y) →
          matchItems (policyBlock "query: ".toList [.lit "purpose: Informational".toList])
            ("query: ".toList ++ (U ++ (Q ++ '\n' :: (Y ++
              ("purpose: Informational".toList ++ r))))) ≠ none := by
        intro hZb
        rw [hshape (B ++ (Q ++ '\n' :: Y)) ("purpose: Informational".toList ++ r) (by simp)]
        exact policyBlock_ne_none _ hAne hA (by simp) hZb (purpose_ne_none r)
      have hmem : ∀ {B' : List Char}, '}' ∉ B → '}' ∉ B' → '}' ∉ B ++ B' := by
        intro B' h1 h2 hm
        rcases List.mem_append.1 hm with h' | h'
        · exact h1 h'
        · exact h2 h'
      have hQY : '}' ∉ Q → '}' ∉ Q ++ '\n' :: Y := by
        intro h1 hm
        rcases List.mem_append.1 hm with h' | h'
        · exact h1 h'
        · rcases List.mem_cons.1 h' with h' | h'
          · exact absurd h' (by decide)
          · exact hYb h'
      by_cases hlen : B.length ≤ Y₂.length
      · -- the text taken before `purpose: Informational` reaches the query of the record
        obtain ⟨a', ha'⟩ : B <+: Y₂ :=
          List.prefix_of_prefix_length_le ⟨_, rfl⟩ ⟨_, e'.symm⟩ hlen
        have hB : '}' ∉ B := fun hm => hY₂b (by rw [← ha']; exact List.mem_append_left _ hm)
        rcases hC with hC | hC
        · exact hcover (hmem hB (hQY hC))
        · subst hC
          have e2 : (Q' ++ '\n' :: Y) ++ ("purpose: Informational".toList ++ z) =
              a' ++ ("purpose: Informational".toList ++ r₃) := by
            rw [← ha', List.append_assoc] at e'
            have := List.append_cancel_left e'
            rw [← this]
            simp
          by_cases hlen2 : (Q' ++ '\n' :: Y).length ≤ a'.length
          · obtain ⟨a'', ha''⟩ : Q' ++ '\n' :: Y <+: a' :=
              List.prefix_of_prefix_length_le ⟨_, rfl⟩ ⟨_, e2.symm⟩ hlen2
            apply hcover
            intro hm
            apply hY₂b
            rw [← ha', ← ha'', ← List.append_assoc]
            exact List.mem_append_left _ hm
          · obtain ⟨c'', hc''⟩ : a' <+: Q' ++ '\n' :: Y :=
              List.prefix_of_prefix_length_le ⟨_, e2.symm⟩ ⟨_, rfl⟩ (by omega)
            have e3 : c'' ++ ("purpose: Informational".toList ++ z) =
                "purpose: Informational".toList ++ r₃ := by
              rw [← hc'', List.append_assoc] at e2
              exact List.append_cancel_left e2
            obtain ⟨U', hU'⟩ := prefix_of_append_self e3
            rw [hshape Y₂ ("purpose: Informational".toList ++ (U' ++ r)) (by
              rw [← ha', ← List.append_assoc "purpose: Informational".toList, hU']
              have : Q' ++ '\n' :: (Y ++ ("purpose: Informational".toList ++ r)) =
                  (Q' ++ '\n' :: Y) ++ ("purpose: Informational".toList ++ r) := by simp
              rw [this, ← hc'']
              simp)]
            exact policyBlock_ne_none _ hAne hA hY₂ hY₂b (purpose_ne_none _)
      · -- `purpose: Informational` is found before the key of the record
        obtain ⟨c', hc'⟩ : Y₂ <+: B :=
          List.prefix_of_prefix_length_le ⟨_, e'.symm⟩ ⟨_, rfl⟩ (by omega)
        have hc'ne : c' ≠ [] := by
          rintro rfl
          rw [List.append_nil] at hc'
          rw [hc'] at hlen
          exact hlen (Nat.le_refl _)
        have e2 : c' ++ (Q' ++ '\n' :: (Y ++ ("purpose: Informational".toList ++ z))) =
            "purpose: Informational".toList ++ r₃ := by
          rw [← hc', List.append_assoc] at e'
          exact List.append_cancel_left e'
        by_cases hlen3 : "purpose: Informational".toList.length ≤ c'.length
        · obtain ⟨c₂, hc₂⟩ : "purpose: Informational".toList <+: c' :=
            List.prefix_of_prefix_length_le ⟨_, rfl⟩ ⟨_, e2⟩ hlen3
          rw [hshape Y₂ ("purpose: Informational".toList ++ (c₂ ++ (Q ++ '\n' :: (Y ++
            ("purpose: Informational".toList ++ r))))) (by
              rw [← hc', ← hc₂]
              simp)]
          exact policyBlock_ne_none _ hAne hA hY₂ hY₂b (purpose_ne_none _)
        · exfalso
          obtain ⟨F', hF'⟩ : c' <+: "purpose: Informational".toList :=
            List.prefix_of_prefix_length_le ⟨_, e2⟩ ⟨_, rfl⟩ (by omega)
          refine purpose_no_straddle hc'ne hF'.symm
            (S := E) (R := "query: ".toList ++ (A ++ '\n' :: Y₂)) ?_
          rw [← hU, hAB, ← hc']
          simp
    · have hW : '\n' ∉ U ++ Q := by
        intro hm
        rcases List.mem_append.1 hm with h' | h'
        · exact hn h'
        · exact hQn h'
      have := policyBlock_ne_none "query: ".toList (t := "purpose: Informational".toList ++ r)
        (by simp [hQ] : U ++ Q ≠ []) hW hY hYb (purpose_ne_none r)
      rw [List.append_assoc] at this
      exact this

/-- The whole expression: if it matches at a position before a record, it
matches at the same position in every text that has, from the key `query: `
of the record on, a text to which the matches of the lines from a key
`query: ` on carry over. -/
theorem outer_transfer {cont : List Item} {v N X c c' : List Char} (hNn : '\n' ∉ N)
    (hX : X ≠ []) (hT : matchItems cont c ≠ none)
    (hin : ∀ E, matchItems cont (E ++ c') ≠ none → matchItems cont (E ++ c) ≠ none)
    (h : matchItems (policyBlock "name: ".toList cont)
      (v ++ ("name: ".toList ++ (N ++ '\n' :: (X ++ c')))) ≠ none) :
    matchItems (policyBlock "name: ".toList cont)
      (v ++ ("name: ".toList ++ (N ++ '\n' :: (X ++ c)))) ≠ none := by
  cases hm : matchItems (policyBlock "name: ".toList cont)
      (v ++ ("name: ".toList ++ (N ++ '\n' :: (X ++ c')))) with
  | none => exact absurd hm h
  | some x =>
    obtain ⟨ps, r'⟩ := x
    obtain ⟨N₂, X₂, psT, t₂, -, ht, hN₂, hN₂n, hX₂, hX₂b, h₂, -⟩ := policyBlock_inv hm
    have e0 : (v ++ ("name: ".toList ++ (N ++ '\n' :: X))) ++ c' =
        ("name: ".toList ++ (N₂ ++ '\n' :: X₂)) ++ t₂ := by
      simpa [List.append_assoc] using ht
    rcases List.append_eq_append_iff.1 e0 with ⟨a', hG, -⟩ | ⟨c'', hH, ht₂⟩
    · -- the text taken before the key `query: ` reaches the key of the record
      obtain ⟨U, hU⟩ := prefix_of_append_self ht
      have e1 : N₂ ++ '\n' :: X₂ = U ++ (N ++ '\n' :: (X ++ a')) := by
        have : "name: ".toList ++ (N₂ ++ '\n' :: X₂) =
            "name: ".toList ++ (U ++ (N ++ '\n' :: (X ++ a'))) := by
          rw [hG, ← List.append_assoc "name: ".toList U, hU]
          simp
        exact List.append_cancel_left this
      have hgoal : ∀ T, v ++ ("name: ".toList ++ T) = "name: ".toList ++ (U ++ T) := fun T => by
        rw [← List.append_assoc, ← hU, List.append_assoc]
      rw [hgoal]
      by_cases hn : '\n' ∈ U
      · obtain ⟨A, B, hAB, hA⟩ := List.eq_append_cons_of_mem hn
        rw [hAB, List.append_assoc, List.cons_append] at e1
        obtain ⟨hAN, e2⟩ := split_at_rune_unique hN₂n hA e1
        have hZb : '}' ∉ B ++ (N ++ '\n' :: X) := by
          intro hm
          apply hX₂b
          rw [e2]
          have : B ++ (N ++ '\n' :: (X ++ a')) = (B ++ (N ++ '\n' :: X)) ++ a' := by simp
          rw [this]
          exact List.mem_append_left _ hm
        have := policyBlock_ne_none "name: ".toList (hAN ▸ hN₂) hA
          (by simp : B ++ (N ++ '\n' :: X) ≠ []) hZb hT
        rw [hAB]
        simpa [List.append_assoc] using this
      · have hW : '\n' ∉ U ++ N := by
          intro hm
          rcases List.mem_append.1 hm with h' | h'
          · exact hn h'
          · exact hNn h'
        have e2 : N₂ ++ '\n' :: X₂ = (U ++ N) ++ '\n' :: (X ++ a') := by
          rw [e1]
          simp
        obtain ⟨hUN, e3⟩ := split_at_rune_unique hN₂n hW e2
        have hXb : '}' ∉ X := fun hm => hX₂b (by rw [e3]; exact List.mem_append_left _ hm)
        have := policyBlock_ne_none "name: ".toList (hUN ▸ hN₂) hW hX hXb hT
        rw [List.append_assoc] at this
        exact this
    · -- the key `query: ` is found before the key of the record
      have h3 := hin c'' (by rw [← ht₂, h₂]; simp)
      have := policyBlock_ne_none "name: ".toList hN₂ hN₂n hX₂ hX₂b h3
      have e4 : v ++ ("name: ".toList ++ (N ++ '\n' :: (X ++ c))) =
          "name: ".toList ++ (N₂ ++ '\n' :: (X₂ ++ (c'' ++ c))) := by
        have : v ++ ("name: ".toList ++ (N ++ '\n' :: (X ++ c))) =
            (v ++ ("name: ".toList ++ (N ++ '\n' :: X))) ++ c := by simp
        rw [this, hH]
        simp
      rw [e4]
      exact this

theorem policyPattern_items :
    policyPattern.items = policyBlock "name: ".toList
      (policyBlock "query: ".toList [.lit "purpose: Informational".toList]) := rfl

theorem flatten_policyPieces (N X Q Y z : List Char) :
    (policyPieces N X Q Y).flatten ++ z = "name: ".toList ++ (N ++ '\n' :: (X ++
      ("query: ".toList ++ (Q ++ '\n' :: (Y ++ ("purpose: Informational".toList ++ z)))))) := by
  have hnl : "\n".toList = ['\n'] := rfl
  simp [policyPieces, hnl]

/-- The match of a record is the match of the record with another query in
the place of its query `Q`, whatever follows, when `Q` has no `}` or the other
query is `Q` itself. -/
theorem policy_match_stable {s : List Char} {ps : List (List Char)} {r : List Char}
    (h : matchItems policyPattern.items s = some (ps, r)) :
    ∃ N X Q Y, ps = policyPieces N X Q Y ∧ N ≠ [] ∧ '\n' ∉ N ∧ X ≠ [] ∧ '}' ∉ X ∧
      Q ≠ [] ∧ '\n' ∉ Q ∧ Y ≠ [] ∧ '}' ∉ Y ∧
      matchItems (policyBlock "query: ".toList [.lit "purpose: Informational".toList])
        ("query: ".toList ++ (Q ++ '\n' :: (Y ++ ("purpose: Informational".toList ++ r)))) ≠
          none ∧
      ∀ Q' z, Q' ≠ [] → '\n' ∉ Q' → ('}' ∉ Q ∨ Q' = Q) →
        matchItems policyPattern.items ((policyPieces N X Q' Y).flatten ++ z) =
          some (policyPieces N X Q' Y, z) := by
  rw [policyPattern_items] at h
  obtain ⟨N, X, ps1, t1, rfl, rfl, hN, hNn, hX, hXb, h1, minX⟩ := policyBlock_inv h
  obtain ⟨Q, Y, ps2, t2, rfl, rfl, hQ, hQn, hY, hYb, h2, minY⟩ := policyBlock_inv h1
  obtain ⟨ps3, t3, rfl, rfl, h3⟩ := matchItems_lit_inv h2
  simp only [matchItems, Option.some.injEq, Prod.mk.injEq] at h3
  obtain ⟨rfl, rfl⟩ := h3
  refine ⟨N, X, Q, Y, rfl, hN, hNn, hX, hXb, hQ, hQn, hY, hYb, by rw [h1]; simp, ?_⟩
  intro Q' z hQ' hQ'n hC
  have e3 : matchItems [.lit "purpose: Informational".toList]
      ("purpose: Informational".toList ++ z) = some (["purpose: Informational".toList], z) :=
    matchItems_lit_exact _ rfl
  have minY' : ∀ Y' Y'', Y = Y' ++ Y'' → Y' ≠ [] → Y'' ≠ [] →
      matchItems [.lit "purpose: Informational".toList]
        (Y'' ++ ("purpose: Informational".toList ++ z)) = none := by
    intro Y' Y'' hYY hy1 hy2
    by_contra hc
    exact lit_match_transfer _ hc (minY Y' Y'' hYY hy1 hy2)
  have e2 := policyBlock_exact "query: ".toList hQ' hQ'n hY hYb e3 minY'
  have minX' : ∀ X' X'', X = X' ++ X'' → X' ≠ [] → X'' ≠ [] →
      matchItems (policyBlock "query: ".toList [.lit "purpose: Informational".toList])
        (X'' ++ ("query: ".toList ++ (Q' ++ '\n' :: (Y ++
          ("purpose: Informational".toList ++ z))))) = none := by
    intro X' X'' hXX hx1 hx2
    by_contra hc
    exact inner_transfer hQ hQn hY hYb hC hc (minX X' X'' hXX hx1 hx2)
  have e1 := policyBlock_exact "name: ".toList hN hNn hX hXb e2 minX'
  rw [policyPattern_items, flatten_policyPieces]
  exact e1

/-- The leftmost record of a text is still the leftmost record when its
query `Q` is replaced by another one and the text after it by any other text,
provided that `Q` has no `}` or that the other query is `Q` itself; the
record with the other query, taken alone, matches as a whole. -/
theorem policy_search_stable {c pre : List Char} {ps : List (List Char)} {rest : List Char}
    (hs : policyPattern.search true c = some (pre, ps, rest)) :
    ∃ N X Q Y, ps = policyPieces N X Q Y ∧ Q ≠ [] ∧ '\n' ∉ Q ∧
      ∀ Q' z, Q' ≠ [] → '\n' ∉ Q' → ('}' ∉ Q ∨ Q' = Q) →
        policyPattern.search true (pre ++ ((policyPieces N X Q' Y).flatten ++ z)) =
            some (pre, policyPieces N X Q' Y, z) ∧
          policyPattern.search true (policyPieces N X Q' Y).flatten =
            some ([], policyPieces N X Q' Y, []) := by
  obtain ⟨hc, hm⟩ := search_sound hs
  obtain ⟨N, X, Q, Y, rfl, hN, hNn, hX, hXb, hQ, hQn, hY, hYb, hT, hst⟩ :=
    policy_match_stable hm
  refine ⟨N, X, Q, Y, rfl, hQ, hQn, ?_⟩
  intro Q' z hQ' hQ'n hC
  constructor
  · refine search_of_first rfl pre (hst Q' z hQ' hQ'n hC) ?_
    intro pre' t' he hlt
    by_contra hne
    rcases List.append_eq_append_iff.1 he with ⟨a', ha, -⟩ | ⟨c', hc', hd⟩
    · rw [ha] at hlt
      simp only [List.length_append] at hlt
      omega
    · rw [hd, flatten_policyPieces, policyPattern_items] at hne
      have h1 := outer_transfer hNn hX hT
        (fun E => inner_transfer (E := E) (r := rest) hQ hQn hY hYb hC) hne
      apply h1
      rw [← policyPattern_items]
      apply search_leftmost rfl hs pre' _ _ hlt
      rw [hc, hc', flatten_policyPieces]
      simp
  · have := @search_of_first policyPattern rfl [] _ true _ (hst Q' [] hQ' hQ'n hC)
      (fun _ _ _ h => absurd h (Nat.not_lt_zero _))
    simpa using this

/-- The replacement function of `FixPolicyQueries` on a record that matches
as a whole: nothing when the query is skipped, the record with the query of
the resolver otherwise. -/
theorem fixPolicyMatch_pieces (lowerCase : Char → Char) (queryMappings : List QueryMapping)
    {N X Q Y : List Char}
    (h : policyPattern.search true (policyPieces N X Q Y).flatten =
      some ([], policyPieces N X Q Y, [])) :
    fixPolicyMatch lowerCase queryMappings (policyPieces N X Q Y).flatten =
      if strings.Contains Q "FROM".toList && !strings.Contains Q "SELECT 1".toList then none
      else some (policyPieces N X
        (resolveLowered queryMappings (strings.ToLower lowerCase N)) Y).flatten := by
  have hf : policyPattern.FindStringSubmatch (policyPieces N X Q Y).flatten =
      some [(policyPieces N X Q Y).flatten,
        "name: ".toList ++ (N ++ ("\n".toList ++ (X ++ "query: ".toList))), N, Q,
        "\n".toList ++ (Y ++ "purpose: Informational".toList)] := by
    rw [Regexp.FindStringSubmatch, h]
    simp [policyPattern, submatch, policyPieces, List.take]
  unfold fixPolicyMatch
  rw [hf]
  simp only
  split_ifs with hskip
  · rfl
  · simp [policyPieces]

theorem fixPolicyMatch_getD (lowerCase : Char → Char) (queryMappings : List QueryMapping)
    {N X Q Y : List Char}
    (h : policyPattern.search true (policyPieces N X Q Y).flatten =
      some ([], policyPieces N X Q Y, [])) :
    (fixPolicyMatch lowerCase queryMappings (policyPieces N X Q Y).flatten).getD
        (policyPieces N X Q Y).flatten =
      (policyPieces N X (resolvedQuery lowerCase queryMappings N Q) Y).flatten := by
  rw [fixPolicyMatch_pieces lowerCase queryMappings h]
  unfold resolvedQuery
  split_ifs <;> rfl

theorem findMapping_mem {name q : List Char} :
    ∀ {queryMappings : List QueryMapping}, findMapping name queryMappings = some q →
      q ∈ queryMappings.map QueryMapping.Query := by
  intro qs
  induction qs with
  | nil => intro h; cases h
  | cons m rest ih =>
    intro h
    unfold findMapping at h
    split_ifs at h with hm
    · cases h
      simp
    · exact List.mem_cons_of_mem _ (ih h)

theorem resolveLowered_mem {queryMappings : List QueryMapping} (hne : queryMappings ≠ [])
    (name : List Char) :
    resolveLowered queryMappings name ∈ queryMappings.map QueryMapping.Query := by
  unfold resolveLowered
  cases hf : findMapping name queryMappings with
  | some q => exact findMapping_mem hf
  | none =>
    simp only
    cases hl : queryMappings.getLast? with
    | none => exact absurd (List.getLast?_eq_none_iff.1 hl) hne
    | some m =>
      simp only [Option.map_some', Option.getD_some]
      exact List.mem_map_of_mem _ (List.mem_of_mem_getLast? hl)

set_option maxRecDepth 1000000 in
theorem table_queries :
    ∀ q ∈ CreateQueryMappings.map QueryMapping.Query, q ≠ [] ∧ '\n' ∉ q := by
  decide

theorem resolvedQuery_line (lowerCase : Char → Char) (N : List Char) {Q : List Char}
    (hQ : Q ≠ []) (hQn : '\n' ∉ Q) :
    resolvedQuery lowerCase CreateQueryMappings N Q ≠ [] ∧
      '\n' ∉ resolvedQuery lowerCase CreateQueryMappings N Q := by
  unfold resolvedQuery
  split_ifs
  · exact ⟨hQ, hQn⟩
  · have := table_queries _ (resolveLowered_mem (by decide) (strings.ToLower lowerCase N))
    exact this

theorem resolvedQuery_idem (lowerCase : Char → Char) (queryMappings : List QueryMapping)
    (N Q : List Char) :
    resolvedQuery lowerCase queryMappings N (resolvedQuery lowerCase queryMappings N Q) =
      resolvedQuery lowerCase queryMappings N Q := by
  by_cases hskip : (strings.Contains Q "FROM".toList &&
      !strings.Contains Q "SELECT 1".toList) = true
  · have e : resolvedQuery lowerCase queryMappings N Q = Q := by
      unfold resolvedQuery
      rw [if_pos hskip]
    rw [e, e]
  · have e : resolvedQuery lowerCase queryMappings N Q =
        resolveLowered queryMappings (strings.ToLower lowerCase N) := by
      unfold resolvedQuery
      rw [if_neg hskip]
    rw [e]
    unfold resolvedQuery
    split_ifs <;> rfl

theorem replacedQueries_of_search_some (lowerCase : Char → Char)
    (queryMappings : List QueryMapping) {c pre : List Char} {ps : List (List Char)}
    {rest : List Char} (hs : policyPattern.search true c = some (pre, ps, rest)) :
    replacedQueries lowerCase queryMappings c =
      (if (fixPolicyMatch lowerCase queryMappings ps.flatten).isSome = true
        then [submatch ps (5, 1)] else []) ++ replacedQueries lowerCase queryMappings rest := by
  unfold replacedQueries
  rw [allSegments_of_search_some rfl policyPattern_noEmptyMatch hs]
  simp only [List.filter_cons]
  split_ifs <;> simp

/-- The content rewrite of `FixPolicyQueries` is idempotent on the texts in
which no replaced query has a `}`. -/
theorem fixPolicy_rewrite_idem (lowerCase : Char → Char) :
    ∀ c : List Char, (∀ q ∈ replacedQueries lowerCase CreateQueryMappings c, '}' ∉ q) →
      policyPattern.ReplaceAllStringFunc
          (policyPattern.ReplaceAllStringFunc c fun m =>
            (fixPolicyMatch lowerCase CreateQueryMappings m).getD m)
          (fun m => (fixPolicyMatch lowerCase CreateQueryMappings m).getD m) =
        policyPattern.ReplaceAllStringFunc c fun m =>
          (fixPolicyMatch lowerCase CreateQueryMappings m).getD m := by
  intro c
  generalize hn : c.length = n
  induction n using Nat.strong_induction_on generalizing c with
  | _ n ih =>
    intro hb
    cases hs : policyPattern.search true c with
    | none =>
      rw [ReplaceAllStringFunc_of_search_none _ hs, ReplaceAllStringFunc_of_search_none _ hs]
    | some x =>
      obtain ⟨pre, ps, rest⟩ := x
      obtain ⟨-, hlt⟩ := search_found_nonempty policyPattern_noEmptyMatch hs
      obtain ⟨N, X, Q, Y, rfl, hQ, hQn, hst⟩ := policy_search_stable hs
      rw [replacedQueries_of_search_some lowerCase CreateQueryMappings hs] at hb
      have hrest : ∀ q ∈ replacedQueries lowerCase CreateQueryMappings rest, '}' ∉ q :=
        fun q hq => hb q (List.mem_append_right _ hq)
      have hself := (hst Q [] hQ hQn (Or.inr rfl)).2
      have hC : '}' ∉ Q ∨ resolvedQuery lowerCase CreateQueryMappings N Q = Q := by
        by_cases hskip : (strings.Contains Q "FROM".toList &&
            !strings.Contains Q "SELECT 1".toList) = true
        · right
          unfold resolvedQuery
          rw [if_pos hskip]
        · left
          apply hb
          apply List.mem_append_left
          rw [fixPolicyMatch_pieces lowerCase CreateQueryMappings hself, if_neg hskip]
          simp [submatch, policyPieces, List.take]
      obtain ⟨hQ₁, hQ₁n⟩ := resolvedQuery_line lowerCase N hQ hQn
      rw [ReplaceAllStringFunc_of_search_some rfl policyPattern_noEmptyMatch _ hs,
        fixPolicyMatch_getD _ _ hself,
        ReplaceAllStringFunc_of_search_some rfl policyPattern_noEmptyMatch _
          (hst _ _ hQ₁ hQ₁n hC).1,
        fixPolicyMatch_getD _ _ (hst _ [] hQ₁ hQ₁n hC).2, resolvedQuery_idem,
        ih rest.length (by omega) rest rfl hrest]

/-- The content that `FixPolicyQueries` leaves in the file is the rewritten
content, also when the counter is zero and the file is not written. -/
theorem FixPolicyQueries_text (lowerCase : Char → Char) (c : List Char) :
    (FixPolicyQueries lowerCase c).2 = (fixPolicyContent lowerCase CreateQueryMappings c).2 := by
  unfold FixPolicyQueries
  simp only
  split_ifs with h
  · rfl
  · have h0 : ((policyPattern.allSegments c).1.filter fun seg =>
        (fixPolicyMatch lowerCase CreateQueryMappings seg.2.flatten).isSome) = [] := by
      apply List.eq_nil_of_length_eq_zero
      simp only [fixPolicyContent] at h
      omega
    have hid := @ReplaceAllStringFunc_id policyPattern rfl policyPattern_noEmptyMatch
      (fun m => m) (fun _ _ => rfl) c
    simp only [fixPolicyContent]
    refine hid.symm.trans ?_
    unfold Regexp.ReplaceAllStringFunc
    congr 1
    apply flatMap_congr_mem
    intro seg hseg
    simp only
    have : ¬ (fixPolicyMatch lowerCase CreateQueryMappings seg.2.flatten).isSome = true := by
      intro hsome
      have : seg ∈ ((policyPattern.allSegments c).1.filter fun seg =>
          (fixPolicyMatch lowerCase CreateQueryMappings seg.2.flatten).isSome) :=
        List.mem_filter.2 ⟨hseg, hsome⟩
      rw [h0] at this
      cases this
    cases hf : fixPolicyMatch lowerCase CreateQueryMappings seg.2.flatten with
    | none => rfl
    | some x => rw [hf] at this; exact absurd rfl this

/-- C12, as amended: the content rewrite of `FixPolicyQueries`, with the
table of `CreateQueryMappings` and any Unicode case table, is idempotent on
every file text in which no query that the rewrite replaces contains the
character `}`: applied to its own output it yields the same text as applied
once; the same holds for the content that `FixPolicyQueries` leaves in the
file. The text may contain `}` anywhere else, also in a query that the
rewrite skips. -/
theorem C12_rewrite_idempotent (lowerCase : Char → Char) (c : List Char)
    (h : ∀ q ∈ replacedQueries lowerCase CreateQueryMappings c, '}' ∉ q) :
    (fixPolicyContent lowerCase CreateQueryMappings
        (fixPolicyContent lowerCase CreateQueryMappings c).2).2 =
        (fixPolicyContent lowerCase CreateQueryMappings c).2 ∧
      (FixPolicyQueries lowerCase (FixPolicyQueries lowerCase c).2).2 =
        (FixPolicyQueries lowerCase c).2 := by
  have h1 : (fixPolicyContent lowerCase CreateQueryMappings
      (fixPolicyContent lowerCase CreateQueryMappings c).2).2 =
      (fixPolicyContent lowerCase CreateQueryMappings c).2 :=
    fixPolicy_rewrite_idem lowerCase c h
  refine ⟨h1, ?_⟩
  rw [FixPolicyQueries_text lowerCase c, FixPolicyQueries_text, h1]

set_option maxRecDepth 1000000 in
/-- C12 at a text with `}` in a comment, in the name of a record whose
trivial placeholder is replaced, and in the query of a record that the
rewrite skips. -/
theorem C12_rewrite_idempotent_witness :
    (∀ q ∈ replacedQueries (fun c => c) CreateQueryMappings
        ("# \x7bgenerated\x7d\nspec:\n  name: Guest \x7baccount\x7d disabled\n" ++
          "  query: SELECT 1;\n  purpose: Informational\n---\nspec:\n  name: Braces\n" ++
          "  query: SELECT x FROM y WHERE z = '\x7d';\n  purpose: Informational\n").toList,
      '}' ∉ q) ∧
      ((fixPolicyContent (fun c => c) CreateQueryMappings
          (fixPolicyContent (fun c => c) CreateQueryMappings
            ("# \x7bgenerated\x7d\nspec:\n  name: Guest \x7baccount\x7d disabled\n" ++
          "  query: SELECT 1;\n  purpose: Informational\n---\nspec:\n  name: Braces\n" ++
          "  query: SELECT x FROM y WHERE z = '\x7d';\n  purpose: Informational\n").toList).2).2 =
        (fixPolicyContent (fun c => c) CreateQueryMappings
          ("# \x7bgenerated\x7d\nspec:\n  name: Guest \x7baccount\x7d disabled\n" ++
          "  query: SELECT 1;\n  purpose: Informational\n---\nspec:\n  name: Braces\n" ++
          "  query: SELECT x FROM y WHERE z = '\x7d';\n  purpose: Informational\n").toList).2 ∧
      (FixPolicyQueries (fun c => c) (FixPolicyQueries (fun c => c)
          ("# \x7bgenerated\x7d\nspec:\n  name: Guest \x7baccount\x7d disabled\n" ++
          "  query: SELECT 1;\n  purpose: Informational\n---\nspec:\n  name: Braces\n" ++
          "  query: SELECT x FROM y WHERE z = '\x7d';\n  purpose: Informational\n").toList).2).2 =
        (FixPolicyQueries (fun c => c)
          ("# \x7bgenerated\x7d\nspec:\n  name: Guest \x7baccount\x7d disabled\n" ++
          "  query: SELECT 1;\n  purpose: Informational\n---\nspec:\n  name: Braces\n" ++
          "  query: SELECT x FROM y WHERE z = '\x7d';\n  purpose: Informational\n").toList).2) :=
  ⟨by decide, C12_rewrite_idempotent _ _ (by decide)⟩

set_option maxRecDepth 1000000 in
/-- C12, the claim at a text with `}` in a replaced query: the first rewrite
replaces the query `}` of the second `query: ` line, the only one that the
expression can match because `[^}]+?` cannot run over the `}`; after it the
expression matches the first `query: ` line, and the second rewrite replaces
the query `b` as well. The text is ASCII: the two rewrites differ with every
Unicode case table. -/
theorem C12_counterexample :
    replacedQueries (fun c => c) CreateQueryMappings
        "name: foo\n a query: b\n c query: \x7d\n purpose: Informational".toList = [['}']] ∧
      (fixPolicyContent (fun c => c) CreateQueryMappings
          "name: foo\n a query: b\n c query: \x7d\n purpose: Informational".toList).2 =
        ("name: foo\n a query: b\n c query: SELECT 1 FROM managed_policies WHERE " ++
          "domain = 'com.apple.applicationaccess';\n purpose: Informational").toList ∧
      (fixPolicyContent (fun c => c) CreateQueryMappings
          (fixPolicyContent (fun c => c) CreateQueryMappings
            "name: foo\n a query: b\n c query: \x7d\n purpose: Informational".toList).2).2 =
        ("name: foo\n a query: SELECT 1 FROM managed_policies WHERE " ++
          "domain = 'com.apple.applicationaccess';\n c query: SELECT 1 FROM " ++
          "managed_policies WHERE domain = 'com.apple.applicationaccess';\n" ++
          " purpose: Informational").toList ∧
      ∀ lowerCase,
        (fixPolicyContent lowerCase CreateQueryMappings
            (fixPolicyContent lowerCase CreateQueryMappings
              "name: foo\n a query: b\n c query: \x7d\n purpose: Informational".toList).2).2 ≠
          (fixPolicyContent lowerCase CreateQueryMappings
            "name: foo\n a query: b\n c query: \x7d\n purpose: Informational".toList).2 := by
  refine ⟨by decide, by decide, by decide, ?_⟩
  intro lowerCase
  have h1 : fixPolicyContent lowerCase CreateQueryMappings
      "name: foo\n a query: b\n c query: \x7d\n purpose: Informational".toList =
      fixPolicyContent (fun c => c) CreateQueryMappings
        "name: foo\n a query: b\n c query: \x7d\n purpose: Informational".toList :=
    fixPolicyContent_ascii _ _ _ (by decide)
  have v1 : (fixPolicyContent (fun c => c) CreateQueryMappings
      "name: foo\n a query: b\n c query: \x7d\n purpose: Informational".toList).2 =
      ("name: foo\n a query: b\n c query: SELECT 1 FROM managed_policies WHERE " ++
          "domain = 'com.apple.applicationaccess';\n purpose: Informational").toList := by
    decide
  have h2 : fixPolicyContent lowerCase CreateQueryMappings
      ("name: foo\n a query: b\n c query: SELECT 1 FROM managed_policies WHERE " ++
          "domain = 'com.apple.applicationaccess';\n purpose: Informational").toList =
      fixPolicyContent (fun c => c) CreateQueryMappings
        ("name: foo\n a query: b\n c query: SELECT 1 FROM managed_policies WHERE " ++
          "domain = 'com.apple.applicationaccess';\n purpose: Informational").toList :=
    fixPolicyContent_ascii _ _ _ (by decide)
  rw [h1, v1, h2]
  decide

end MscpToFleet
